import Mathlib

/-!
# Acetylene: rendering and UI core

A shallow embedding of the sprite-batching renderer (`Graphics.cpp`, `Graphics.h`),
the entity primitives (`Entity.cpp`, `Entity.h`) and the widget layer (`UI.cpp`, `UI.h`).

Conventions of the embedding:

* `float` values are exact rationals (`ℚ`): no rounding, no NaN, no infinities.
* `unsigned int` values are naturals reduced modulo `2 ^ 32` where the source computes them;
  `int` values are integers.
* Pointers are replaced by the value they point to (`Sprite*`) or by an address number
  (`Shader*`); `std::map` is an association list kept in key order.
* Library calls (`std::stable_sort`, `glm`, `cos`, `sin`, OpenGL) are modelled by their
  documented contract; OpenGL calls are recorded in a trace.
-/

namespace Acetylene

/-! ## Vectors -/

/-- The type `glm::vec2`. -/
structure Vec2 where
  x : ℚ
  y : ℚ
deriving DecidableEq, Repr

/-- The type `glm::vec3`. -/
structure Vec3 where
  x : ℚ
  y : ℚ
  z : ℚ
deriving DecidableEq, Repr

/-- The type `glm::vec4`. -/
structure Vec4 where
  x : ℚ
  y : ℚ
  z : ℚ
  w : ℚ
deriving DecidableEq, Repr

/-- The type `glm::ivec2`. -/
structure IVec2 where
  x : Int
  y : Int
deriving DecidableEq, Repr

/-- The width of `unsigned int`. -/
def UINT_MOD : Nat := 4294967296

/-- Conversion `(int)f` of a float to an integer: truncation toward zero. -/
def truncToInt (q : ℚ) : Int := Int.tdiv q.num q.den

/-- The functions `cos` and `sin` of the C library, taken as parameters. -/
structure Trig where
  cos : ℚ → ℚ
  sin : ℚ → ℚ

/-! ## Entity.h: Sprite and Glyph -/

/-- The struct `Sprite::Texture`. -/
structure Texture where
  fileName : String
  coordinates : Vec4
deriving DecidableEq, Repr

/-- The class `Sprite` (with the fields of its base `Entity`). -/
structure Sprite where
  position : Vec3
  velocity : Vec2
  dimensions : Vec2
  rotation : ℚ
  rotationVelocity : ℚ
  texture : Texture
  color : Vec4
  reflectHorizontal : Bool
  reflectVertical : Bool
  m_vertices : List ℚ
deriving DecidableEq, Repr

/-- The enumeration `Alignment`. -/
inductive Alignment where
  | AC_ALIGN_LEFT
  | AC_ALIGN_RIGHT
  | AC_ALIGN_BOTTOM
  | AC_ALIGN_TOP
  | AC_ALIGN_CENTER
  | AC_ALIGN_NONE
deriving DecidableEq, Repr

/-- The class `Glyph`: a sprite with a bearing and an advance (`offset`). -/
structure Glyph extends Sprite where
  bearing : IVec2
  offset : Nat
deriving DecidableEq, Repr

/-- The class `Font`: `glyphs` is the `std::map<char, Glyph>`. -/
structure Font where
  glyphs : List (Char × Glyph)
  minBearing : ℚ
  maxBearing : ℚ

/-- The constant `Sprite::Indices`. -/
def Sprite.Indices : List Nat := [0, 1, 2, 2, 3, 0]

/-- The macro `PI` of `Entity.cpp`. -/
def PI : ℚ := 31415926 / 10000000

/-- The default-constructed `Sprite`. -/
def Sprite.default : Sprite :=
  { position := ⟨0, 0, 0⟩, velocity := ⟨0, 0⟩, dimensions := ⟨0, 0⟩, rotation := 0,
    rotationVelocity := 0, texture := ⟨"", ⟨0, 0, 0, 0⟩⟩, color := ⟨0, 0, 0, 0⟩,
    reflectHorizontal := false, reflectVertical := false, m_vertices := [] }

/-- The function `Sprite::init`. -/
def Sprite.init (s : Sprite) (position : Vec3) (dimensions : Vec2)
    (textureFileName : String) : Sprite :=
  { s with
    position := position
    velocity := ⟨0, 0⟩
    dimensions := dimensions
    rotation := 0
    rotationVelocity := 0
    texture := ⟨textureFileName, ⟨0, 0, 1, 1⟩⟩
    color := ⟨0, 0, 0, 0⟩
    m_vertices := [] }

/-- The function `Sprite::rotate`. -/
def Sprite.rotate (trig : Trig) (s : Sprite) (p : Vec3) : Vec3 :=
  let a := (PI / 180) * s.rotation
  let cx := s.position.x + s.dimensions.x / 2
  let cy := s.position.y + s.dimensions.y / 2
  let rx := trig.cos a * (p.x - cx) - trig.sin a * (p.y - cy) + cx
  let ry := trig.sin a * (p.x - cx) + trig.cos a * (p.y - cy) + cy
  ⟨rx, ry, p.z⟩

/-- One vertex of a quad: position, texture position, colour and mode (10 floats). -/
def vertexData (p : Vec3) (u v : ℚ) (color : Vec4) (mode : ℚ) : List ℚ :=
  [p.x, p.y, p.z, u, v, color.x, color.y, color.z, color.w, mode]

/-- The function `Sprite::draw`: recompute the vertex buffer. -/
def Sprite.draw (trig : Trig) (s : Sprite) : Sprite :=
  let bl0 : Vec3 := ⟨s.position.x, s.position.y, s.position.z⟩
  let br0 : Vec3 := ⟨s.position.x + s.dimensions.x, s.position.y, s.position.z⟩
  let tl0 : Vec3 := ⟨s.position.x + s.dimensions.x, s.position.y + s.dimensions.y,
    s.position.z⟩
  let tr0 : Vec3 := ⟨s.position.x, s.position.y + s.dimensions.y, s.position.z⟩
  let rot : Bool := decide (Int.tmod (truncToInt s.rotation) 360 ≠ 0)
  let bl := if rot then s.rotate trig bl0 else bl0
  let br := if rot then s.rotate trig br0 else br0
  let tl := if rot then s.rotate trig tl0 else tl0
  let tr := if rot then s.rotate trig tr0 else tr0
  let t := s.texture.coordinates
  let c := s.color
  let m : ℚ := if s.texture.fileName.isEmpty then 1 else 0
  if !s.reflectHorizontal && !s.reflectVertical then
    { s with m_vertices :=
        vertexData bl t.x (t.y + t.w) c m ++ vertexData br (t.x + t.z) (t.y + t.w) c m
          ++ vertexData tl (t.x + t.z) t.y c m ++ vertexData tr t.x t.y c m }
  else if s.reflectHorizontal && !s.reflectVertical then
    { s with m_vertices :=
        vertexData bl (t.x + t.z) (t.y + t.w) c m ++ vertexData br t.x (t.y + t.w) c m
          ++ vertexData tl t.x t.y c m ++ vertexData tr (t.x + t.z) t.y c m }
  else if !s.reflectHorizontal && s.reflectVertical then
    { s with m_vertices :=
        vertexData bl t.x t.y c m ++ vertexData br (t.x + t.z) t.y c m
          ++ vertexData tl (t.x + t.z) (t.y + t.w) c m ++ vertexData tr t.x (t.y + t.w) c m }
  else if s.reflectHorizontal && s.reflectVertical then
    { s with m_vertices :=
        vertexData bl (t.x + t.z) t.y c m ++ vertexData br t.x t.y c m
          ++ vertexData tl t.x (t.y + t.w) c m ++ vertexData tr (t.x + t.z) (t.y + t.w) c m }
  else s

/-- The function `Glyph::draw`: like an unrotated, unreflected sprite, with mode 2. -/
def Glyph.draw (g : Glyph) : Glyph :=
  let bl : Vec3 := ⟨g.position.x, g.position.y, g.position.z⟩
  let br : Vec3 := ⟨g.position.x + g.dimensions.x, g.position.y, g.position.z⟩
  let tl : Vec3 := ⟨g.position.x + g.dimensions.x, g.position.y + g.dimensions.y,
    g.position.z⟩
  let tr : Vec3 := ⟨g.position.x, g.position.y + g.dimensions.y, g.position.z⟩
  let t := g.texture.coordinates
  let c := g.color
  { g with m_vertices :=
      vertexData bl t.x (t.y + t.w) c 2 ++ vertexData br (t.x + t.z) (t.y + t.w) c 2
        ++ vertexData tl (t.x + t.z) t.y c 2 ++ vertexData tr t.x t.y c 2 }

/-- What the template `submit` asks of its sprite type `T`: a `draw` function and the
`Sprite` part that `(Sprite*)&sprite` points to. -/
structure Drawable (T : Type) where
  draw : T → T
  toSprite : T → Sprite

/-- The type `Sprite` as a submit argument. -/
def Sprite.drawable (trig : Trig) : Drawable Sprite :=
  { draw := Sprite.draw trig, toSprite := id }

/-- The type `Glyph` as a submit argument. -/
def Glyph.drawable : Drawable Glyph :=
  { draw := Glyph.draw, toSprite := Glyph.toSprite }

/-! ## Graphics.h: GraphicsManager -/

/-- OpenGL calls made while a frame is flushed, in the order they are made. The call
`drawElements` stands for one run of `GraphicsManager::drawVertices` with the vertex and
index data it uploads. -/
inductive GLCall where
  | bindVertexArray
  | shaderBegin (shader : Nat)
  | shaderEnd (shader : Nat)
  | bindTexture (texture : Nat)
  | drawElements (vertices : List ℚ) (indices : List Nat)
deriving DecidableEq, Repr

/-- The class `GraphicsManager`. A `Shader*` is the address of the shader. An entry of
`m_sprites` holds the sprite its `Sprite*` points to, as it is when the frame ends.
`m_textures` gives for a file name the handle `getTexture` resolves it to (the cached
handle, or the handle made on first load, or 0 when the file cannot be loaded) and
`m_fonts` the font `getFont` resolves a file name to (`none` for the null pointer). -/
structure GraphicsManager where
  m_textures : String → Nat
  m_fonts : String → Option Font
  m_sprites : List (Nat × Sprite)
  m_glyphs : List (Nat × List Glyph)
  m_defaultShader : Nat

/-- Assignment `m[k] = v` on a `std::map` with natural keys, kept in key order. -/
def mapSet {β : Type} (k : Nat) (v : β) : List (Nat × β) → List (Nat × β)
  | [] => [(k, v)]
  | (k', v') :: t =>
    if k < k' then (k, v) :: (k', v') :: t
    else if k = k' then (k, v) :: t
    else (k', v') :: mapSet k v t

/-- Read access `m[k]` on a `std::map` of vectors: the empty vector when the key is new. -/
def mapGet {β : Type} (k : Nat) (m : List (Nat × List β)) : List β :=
  (m.lookup k).getD []

/-- The function `GraphicsManager::getTexture`. -/
def GraphicsManager.getTexture (g : GraphicsManager) (fileName : String) : Nat :=
  if fileName.isEmpty then 0 else g.m_textures fileName

/-- The function `GraphicsManager::getFont`. -/
def GraphicsManager.getFont (g : GraphicsManager) (fileName : String) : Option Font :=
  g.m_fonts fileName

/-- The function `GraphicsManager::begin`. -/
def GraphicsManager.begin (g : GraphicsManager) : GraphicsManager :=
  { g with m_sprites := [], m_glyphs := [] }

/-- The template `GraphicsManager::submit(T& sprite, Shader& shader)`. -/
def GraphicsManager.submit {T : Type} (d : Drawable T) (g : GraphicsManager) (sprite : T)
    (shader : Nat) : GraphicsManager :=
  let s := d.toSprite (d.draw sprite)
  if s.m_vertices.isEmpty then g
  else { g with m_sprites := g.m_sprites ++ [(shader, s)] }

/-- The template `GraphicsManager::submit(std::vector<T>& sprites, Shader& shader)`. -/
def GraphicsManager.submitAll {T : Type} (d : Drawable T) (g : GraphicsManager)
    (sprites : List T) (shader : Nat) : GraphicsManager :=
  sprites.foldl (fun acc sprite => acc.submit d sprite shader) g

/-- The lookup `font->glyphs.at(c)`: `none` when it throws `std::out_of_range`. -/
def Font.glyphAt (font : Font) (c : Char) : Option Glyph :=
  font.glyphs.lookup c

/-- The first loop of the text `submit`: add up the advances of the characters. -/
def sumOffsets (font : Font) : List Char → ℚ → Option ℚ
  | [], w => some w
  | c :: cs, w =>
    match font.glyphAt c with
    | none => none
    | some g => sumOffsets font cs (w + g.offset)

/-- The call `g.init(...)` in the text `submit`: place a copy of the font's glyph at the
pen position `x`, `y` with depth `z`. -/
def placeGlyph (g : Glyph) (x y z scale : ℚ) : Glyph :=
  let position : Vec3 :=
    ⟨x + g.bearing.x * scale, y - (g.dimensions.y - g.bearing.y) * scale, z⟩
  let dimensions : Vec2 := ⟨g.dimensions.x * scale, g.dimensions.y * scale⟩
  { g with toSprite := g.toSprite.init position dimensions g.texture.fileName }

/-- The clip test of the text `submit`: the glyph lies fully inside the box. -/
def insideBox (box : Vec4) (g : Glyph) : Bool :=
  !(decide (g.position.x < box.x)
    || decide (g.position.x + g.dimensions.x > box.x + box.z)
    || decide (g.position.y < box.y)
    || decide (g.position.y + g.dimensions.y > box.y + box.w))

/-- The break test of the text `submit`: the right edge is beyond the box. -/
def overflowsRight (box : Vec4) (g : Glyph) : Bool :=
  decide (g.position.x + g.dimensions.x > box.x + box.z)

/-- The glyph loop of the text `submit`, from pen position `x`, with the glyphs recorded so
far in `acc`. -/
def textLoop (font : Font) (box : Vec4) (scale : ℚ) (color : Vec4) (y z : ℚ) :
    List Char → ℚ → List Glyph → Option (List Glyph)
  | [], _, acc => some acc
  | c :: cs, x, acc =>
    match font.glyphAt c with
    | none => none
    | some g0 =>
      let g := placeGlyph g0 x y z scale
      if insideBox box g then
        textLoop font box scale color y z cs (x + g.offset * scale)
          (acc ++ [Glyph.draw { g with color := color }])
      else if overflowsRight box g then some acc
      else textLoop font box scale color y z cs (x + g.offset * scale) acc

/-- The horizontal origin chosen by the text `submit`, before the bearing correction. -/
def alignX (hAlign : Alignment) (position : Vec3) (box : Vec4) (labelWidth : ℚ) : ℚ :=
  match hAlign with
  | .AC_ALIGN_LEFT => box.x
  | .AC_ALIGN_RIGHT => (box.x + box.z) - labelWidth
  | .AC_ALIGN_CENTER => (box.x + box.z / 2) - labelWidth / 2
  | _ => position.x

/-- The vertical origin chosen by the text `submit`. -/
def alignY (vAlign : Alignment) (position : Vec3) (box : Vec4) (font : Font)
    (scale labelHeight : ℚ) : ℚ :=
  match vAlign with
  | .AC_ALIGN_BOTTOM => box.y + font.minBearing * scale
  | .AC_ALIGN_TOP => (box.y + box.w) - labelHeight
  | .AC_ALIGN_CENTER => (box.y + box.w / 2) - labelHeight / 2
  | _ => position.y

/-- The pen position at which the text `submit` starts its glyph loop: the label width
from the advances, the aligned origin, and the bearing correction of the first character.
The result is `none` when a lookup `glyphs.at(c)` throws. -/
def textOrigin (font : Font) (position : Vec3) (box : Vec4) (scale : ℚ)
    (horizontalAlignment verticalAlignment : Alignment) : List Char → Option (ℚ × ℚ)
  | [] => none
  | c0 :: rest =>
    match sumOffsets font (c0 :: rest) 0 with
    | none => none
    | some w =>
      let labelWidth := w * scale
      let labelHeight := (font.minBearing + font.maxBearing) * scale
      match font.glyphAt c0 with
      | none => none
      | some first =>
        some (alignX horizontalAlignment position box labelWidth - first.bearing.x * scale,
          alignY verticalAlignment position box font scale labelHeight)

/-- The text overload of `GraphicsManager::submit`. The result is `none` when a lookup
`glyphs.at(c)` throws. -/
def GraphicsManager.submitText (g : GraphicsManager) (text : String) (position : Vec3)
    (box : Vec4) (scale : ℚ) (color : Vec4) (fontFileName : String)
    (horizontalAlignment verticalAlignment : Alignment) (shader : Nat) :
    Option GraphicsManager :=
  if text.data.isEmpty then some g
  else
    match g.getFont fontFileName with
    | none => some g
    | some font =>
      if font.glyphs.isEmpty then some g
      else
        let g1 : GraphicsManager :=
          if (g.m_glyphs.lookup shader).isNone then
            { g with m_glyphs := mapSet shader [] g.m_glyphs }
          else g
        match textOrigin font position box scale horizontalAlignment verticalAlignment
            text.data with
        | none => none
        | some (x, y) =>
          match textLoop font box scale color y position.z text.data x
              (mapGet shader g1.m_glyphs) with
          | none => none
          | some glyphs => some { g1 with m_glyphs := mapSet shader glyphs g1.m_glyphs }

/-- The comparator `CompareSpriteDepth`. Its null-pointer branch cannot be taken: `submit`
only records the address of a sprite it was given by reference. -/
def CompareSpriteDepth (a b : Nat × Sprite) : Bool :=
  decide (a.2.position.z < b.2.position.z)

/-- Insert `x` in front of a sorted list, after the elements that compare less than it. -/
def stableInsert {α : Type} (lt : α → α → Bool) (x : α) : List α → List α
  | [] => [x]
  | y :: ys => if lt y x then y :: stableInsert lt x ys else x :: y :: ys

/-- The contract of `std::stable_sort` with comparator `lt`: the sorted arrangement in which
elements that compare equivalent keep their order (computed by insertion). -/
def stable_sort {α : Type} (lt : α → α → Bool) : List α → List α
  | [] => []
  | x :: xs => stableInsert lt x (stable_sort lt xs)

/-- The local variables of the batching loop of `GraphicsManager::end`, and the OpenGL
calls made so far. -/
structure BatchState where
  vertices : List ℚ
  indices : List Nat
  count : Nat
  cShader : Nat
  cTexture : Nat
  calls : List GLCall
deriving DecidableEq, Repr

/-- The function `GraphicsManager::drawVertices`: upload, draw, clear both vectors. -/
def drawVertices (st : BatchState) : BatchState :=
  { st with
    calls := st.calls ++ [GLCall.drawElements st.vertices st.indices]
    vertices := []
    indices := [] }

/-- The flush `if (count > 0) { drawVertices(vertices, indices); count = 0; }`. -/
def flushBatch (st : BatchState) : BatchState :=
  if st.count > 0 then { drawVertices st with count := 0 } else st

/-- The shader test of the batching loop: on a new shader, flush and switch shaders. -/
def changeShader (st : BatchState) (shader : Nat) : BatchState :=
  if st.cShader ≠ shader then
    let f := flushBatch st
    { f with
      calls := f.calls ++ [GLCall.shaderEnd st.cShader, GLCall.shaderBegin shader]
      cShader := shader }
  else st

/-- The texture test of the batching loop: on a new texture handle, flush and bind it. -/
def changeTexture (st : BatchState) (texture : Nat) : BatchState :=
  if st.cTexture ≠ texture then
    let f := flushBatch st
    { f with
      cTexture := texture
      calls := f.calls ++ [GLCall.bindTexture texture] }
  else st

/-- The end of the loop body: append the sprite's vertices and the six indices of its
quad, and count it. -/
def appendQuad (st : BatchState) (sprite : Sprite) : BatchState :=
  { st with
    vertices := st.vertices ++ sprite.m_vertices
    indices := st.indices ++ Sprite.Indices.map (fun i => (i + 4 * st.count) % UINT_MOD)
    count := (st.count + 1) % UINT_MOD }

/-- One iteration of the batching loop of `GraphicsManager::end`. -/
def endStep (g : GraphicsManager) (st : BatchState) (sPair : Nat × Sprite) : BatchState :=
  appendQuad
    (changeTexture (changeShader st sPair.1) (g.getTexture sPair.2.texture.fileName))
    sPair.2

/-- The first part of `GraphicsManager::end`: submit the glyphs recorded for each shader. -/
def GraphicsManager.flushGlyphs (g : GraphicsManager) : GraphicsManager :=
  g.m_glyphs.foldl (fun acc p => acc.submitAll Glyph.drawable p.2 p.1) g

/-- The part of `GraphicsManager::end` after the sort: nothing for an empty list, else
bind the first entry's shader and texture, run the batching loop and flush once more. -/
def batchLoop (g : GraphicsManager) : List (Nat × Sprite) → List GLCall
  | [] => []
  | front :: rest =>
    let init : BatchState :=
      { vertices := [], indices := [], count := 0, cShader := front.1,
        cTexture := g.getTexture front.2.texture.fileName,
        calls := [GLCall.bindVertexArray, GLCall.shaderBegin front.1,
          GLCall.bindTexture (g.getTexture front.2.texture.fileName)] }
    (flushBatch ((front :: rest).foldl (endStep g) init)).calls

/-- The function `GraphicsManager::end`: the manager afterwards and the OpenGL calls made. -/
def GraphicsManager.end_ (g : GraphicsManager) : GraphicsManager × List GLCall :=
  let g1 := g.flushGlyphs
  let sorted := stable_sort CompareSpriteDepth g1.m_sprites
  ({ g1 with m_sprites := sorted }, batchLoop g1 sorted)

/-- The draw calls among the OpenGL calls: the vertex and index data of each. -/
def drawCalls : List GLCall → List (List ℚ × List Nat)
  | [] => []
  | GLCall.drawElements v i :: t => (v, i) :: drawCalls t
  | _ :: t => drawCalls t

/-- All vertex data emitted by a list of OpenGL calls, in order. -/
def emittedVertices (calls : List GLCall) : List ℚ :=
  ((drawCalls calls).map Prod.fst).flatten

/-- The pair that decides batching: an entry's shader and the texture handle of its file. -/
def batchKey (g : GraphicsManager) (p : Nat × Sprite) : Nat × Nat :=
  (p.1, g.getTexture p.2.texture.fileName)

/-- The number of maximal contiguous runs of equal elements of a list. -/
def countRuns {κ : Type} [DecidableEq κ] : List κ → Nat
  | [] => 0
  | [_] => 1
  | a :: b :: t => (if a = b then 0 else 1) + countRuns (b :: t)

/-- The list that `GraphicsManager::end` sorts and draws: the sprites submitted in the
frame followed by the quads of the recorded glyphs. -/
def GraphicsManager.submission (g : GraphicsManager) : List (Nat × Sprite) :=
  g.flushGlyphs.m_sprites

/-- The depth-sorted submission list of the frame. -/
def GraphicsManager.sortedSubmission (g : GraphicsManager) : List (Nat × Sprite) :=
  stable_sort CompareSpriteDepth g.submission

/-- The vertex data of a list of entries, in list order. -/
def verticesOf (l : List (Nat × Sprite)) : List ℚ :=
  (l.map (fun p => p.2.m_vertices)).flatten

/-! ## Entity.h: Camera -/

/-- The type `glm::mat4`: four columns. -/
structure Mat4 where
  c0 : Vec4
  c1 : Vec4
  c2 : Vec4
  c3 : Vec4
deriving DecidableEq, Repr

/-- Scalar multiple of a `glm::vec4`. -/
def Vec4.smul (k : ℚ) (v : Vec4) : Vec4 := ⟨k * v.x, k * v.y, k * v.z, k * v.w⟩

/-- Sum of two `glm::vec4`. -/
def Vec4.add (a b : Vec4) : Vec4 := ⟨a.x + b.x, a.y + b.y, a.z + b.z, a.w + b.w⟩

/-- The identity matrix `glm::mat4(1.0f)`. -/
def Mat4.identity : Mat4 := ⟨⟨1, 0, 0, 0⟩, ⟨0, 1, 0, 0⟩, ⟨0, 0, 1, 0⟩, ⟨0, 0, 0, 1⟩⟩

/-- The product of a matrix and a column vector. -/
def Mat4.mulVec (m : Mat4) (v : Vec4) : Vec4 :=
  ((m.c0.smul v.x).add (m.c1.smul v.y)).add ((m.c2.smul v.z).add (m.c3.smul v.w))

/-- The product of two `glm::mat4`. -/
def Mat4.mul (a b : Mat4) : Mat4 :=
  ⟨a.mulVec b.c0, a.mulVec b.c1, a.mulVec b.c2, a.mulVec b.c3⟩

/-- The library function `glm::ortho(left, right, bottom, top)`. -/
def glmOrtho (left right bottom top : ℚ) : Mat4 :=
  ⟨⟨2 / (right - left), 0, 0, 0⟩, ⟨0, 2 / (top - bottom), 0, 0⟩, ⟨0, 0, -1, 0⟩,
    ⟨-(right + left) / (right - left), -(top + bottom) / (top - bottom), 0, 1⟩⟩

/-- The library function `glm::translate(m, v)`. -/
def glmTranslate (m : Mat4) (v : Vec3) : Mat4 :=
  { m with c3 := ((m.c0.smul v.x).add (m.c1.smul v.y)).add ((m.c2.smul v.z).add m.c3) }

/-- The library function `glm::scale(m, v)`. -/
def glmScale (m : Mat4) (v : Vec3) : Mat4 :=
  ⟨m.c0.smul v.x, m.c1.smul v.y, m.c2.smul v.z, m.c3⟩

/-- The class `Camera` (with the fields of its base `Entity`). -/
structure Camera where
  position : Vec3
  velocity : Vec2
  scale : ℚ
  scaleVelocity : ℚ
  m_matrix : Mat4
  m_prevPosition : Vec3
  m_prevScale : ℚ
  m_prevWindowDimensions : IVec2
deriving DecidableEq, Repr

/-- The function `Camera::updateMatrix`, for window dimensions `wd`. A division by a zero
previous window dimension has the value 0 here. -/
def Camera.updateMatrix (c : Camera) (wd : IVec2) : Camera :=
  let wdx : ℚ := wd.x
  let wdy : ℚ := wd.y
  let wscalex : ℚ := wdx / c.m_prevWindowDimensions.x
  let wscaley : ℚ := wdy / c.m_prevWindowDimensions.y
  let position : Vec3 := ⟨c.position.x * wscalex, c.position.y * wscaley, c.position.z⟩
  let m1 := glmOrtho (-wdx / 2) (wdx / 2) (-wdy / 2) (wdy / 2)
  let m2 := glmTranslate m1 ⟨-position.x, -position.y, 0⟩
  let m3 := (glmScale Mat4.identity ⟨c.scale, c.scale, 0⟩).mul m2
  { c with position := position, m_matrix := m3 }

/-- The first part of `Camera::update`: `Entity::update`, then the scale grows by its
velocity and is clamped at 0. -/
def Camera.integrate (c : Camera) (dt : ℚ) : Camera :=
  let c1 : Camera :=
    { c with position :=
        ⟨c.position.x + dt * c.velocity.x, c.position.y + dt * c.velocity.y, c.position.z⟩ }
  let s : ℚ := c1.scale + dt * c1.scaleVelocity * c1.scale
  { c1 with scale := if s < 0 then 0 else s }

/-- The test of `Camera::update`: position, scale or window dimensions differ from the
values recorded at the last recomputation. -/
def Camera.changed (c : Camera) (wd : IVec2) : Bool :=
  decide (c.position ≠ c.m_prevPosition) || decide (c.scale ≠ c.m_prevScale)
    || decide (c.m_prevWindowDimensions ≠ wd)

/-- The body of the test of `Camera::update`: recompute the matrix and record position,
scale and window dimensions. -/
def Camera.refresh (c : Camera) (wd : IVec2) : Camera :=
  let c3 := c.updateMatrix wd
  { c3 with
    m_prevPosition := c3.position
    m_prevScale := c3.scale
    m_prevWindowDimensions := wd }

/-- The function `Camera::update`, for window dimensions `wd`. -/
def Camera.update (c : Camera) (wd : IVec2) (dt : ℚ) : Camera :=
  let c2 := c.integrate dt
  if c2.changed wd then c2.refresh wd else c2

/-- A `float` as a division can leave it: a number, an infinity or NaN. -/
inductive FloatValue where
  | finite (q : ℚ)
  | posInf
  | negInf
  | nan
deriving DecidableEq, Repr

/-- The float division `a / s` of two numbers: for the divisor `0.0f` the result is the
infinity with the sign of `a`, and NaN when `a` is zero as well. -/
def FloatValue.div (a s : ℚ) : FloatValue :=
  if s ≠ 0 then .finite (a / s)
  else if 0 < a then .posInf
  else if a < 0 then .negInf
  else .nan

/-- The float sum `v + c` with a number `c`: an infinity and NaN are kept. -/
def FloatValue.add (v : FloatValue) (c : ℚ) : FloatValue :=
  match v with
  | .finite q => .finite (q + c)
  | .posInf => .posInf
  | .negInf => .negInf
  | .nan => .nan

/-- The float comparison `v < c` with a number `c`: false for NaN. -/
def FloatValue.lt (v : FloatValue) (c : ℚ) : Bool :=
  match v with
  | .finite q => decide (q < c)
  | .posInf => false
  | .negInf => true
  | .nan => false

/-- The float comparison `v > c` with a number `c`: false for NaN. -/
def FloatValue.gt (v : FloatValue) (c : ℚ) : Bool :=
  match v with
  | .finite q => decide (q > c)
  | .posInf => true
  | .negInf => false
  | .nan => false

/-- A `glm::vec2` whose components come out of a division. -/
structure FloatVec2 where
  x : FloatValue
  y : FloatValue
deriving DecidableEq, Repr

/-- The function `InputManager::getMousePosition(Camera&)`: the window-space mouse position
`mouse` seen through the camera. The division by the camera's scale is the float division:
`Camera::update` clamps the scale at `0.0f`, so the divisor can be zero. -/
def getMousePosition (mouse : Vec2) (camera : Camera) (wd : IVec2) : FloatVec2 :=
  let wdx : ℚ := wd.x
  let wdy : ℚ := wd.y
  ⟨(FloatValue.div (mouse.x - wdx / 2) camera.scale).add camera.position.x,
    (FloatValue.div (mouse.y - wdy / 2) camera.scale).add camera.position.y⟩

/-! ## UI.h: components -/

/-- Conversion of an `int` to `unsigned int`. -/
def toUnsigned (i : Int) : Nat := (i % 4294967296).toNat

/-- Conversion of an `int` to `size_t` (64 bits). -/
def toSizeT (i : Int) : Nat := (i % 18446744073709551616).toNat

/-- The largest `int`. -/
def INT_MAX : Int := 2147483647

/-- An event passed to the parent listener: `componentEvent(cID, eID)`. -/
structure UIEvent where
  cID : Int
  eID : Int
deriving DecidableEq, Repr

/-- The class `Label` (with the fields of its base `UIComponent`, the parent pointer
left out: events sent to the parent are returned by the functions that send them). -/
structure Label where
  m_ID : Int
  m_enabled : Bool
  m_visible : Bool
  m_background : Sprite
  m_labelText : String
  m_labelAlignment : Alignment
  m_horizontalLabelAlignment : Alignment
  m_verticalLabelAlignment : Alignment
deriving DecidableEq, Repr

/-- The default-constructed `Label`. -/
def Label.default : Label :=
  { m_ID := 0, m_enabled := true, m_visible := true, m_background := Sprite.default,
    m_labelText := "", m_labelAlignment := .AC_ALIGN_NONE,
    m_horizontalLabelAlignment := .AC_ALIGN_NONE,
    m_verticalLabelAlignment := .AC_ALIGN_NONE }

/-- The function `UIComponent::getID`. -/
def Label.getID (l : Label) : Nat := toUnsigned l.m_ID

/-- The function `Label::getPosition`, for window dimensions `wd`. -/
def Label.getPosition (wd : IVec2) (l : Label) : Vec3 :=
  ⟨l.m_background.position.x / wd.x, l.m_background.position.y / wd.y,
    l.m_background.position.z⟩

/-- The function `Label::setPosition`, for window dimensions `wd`. -/
def Label.setPosition (wd : IVec2) (l : Label) (position : Vec3) : Label :=
  { l with m_background :=
      { l.m_background with
        position := ⟨position.x * wd.x, position.y * wd.y, position.z⟩ } }

/-- The function `Label::getDimensions`, for window dimensions `wd`. -/
def Label.getDimensions (wd : IVec2) (l : Label) : Vec2 :=
  ⟨l.m_background.dimensions.x / wd.x, l.m_background.dimensions.y / wd.y⟩

/-- The function `Label::setDimensions`, for window dimensions `wd`. -/
def Label.setDimensions (wd : IVec2) (l : Label) (dimensions : Vec2) : Label :=
  { l with m_background :=
      { l.m_background with dimensions := ⟨dimensions.x * wd.x, dimensions.y * wd.y⟩ } }

/-- The function `Label::init`, for window dimensions `wd`. -/
def Label.init (wd : IVec2) (l : Label) (position : Vec3) (dimensions : Vec2)
    (textureFileName labelText : String)
    (labelAlignment horizontalLabelAlignment verticalLabelAlignment : Alignment) : Label :=
  let l1 : Label :=
    { l with m_background := l.m_background.init ⟨0, 0, 0⟩ ⟨0, 0⟩ textureFileName }
  let l2 := l1.setPosition wd position
  let l3 := l2.setDimensions wd dimensions
  { l3 with
    m_labelText := labelText
    m_labelAlignment := labelAlignment
    m_horizontalLabelAlignment := horizontalLabelAlignment
    m_verticalLabelAlignment := verticalLabelAlignment }

/-- The virtual functions of `UIComponent` that `MouseOver` calls, for window dimensions
given as the first argument. -/
structure UIComponentOps (T : Type) where
  getPosition : IVec2 → T → Vec3
  getDimensions : IVec2 → T → Vec2

/-- The virtual functions of a `Label`. -/
def Label.ops : UIComponentOps Label :=
  { getPosition := Label.getPosition, getDimensions := Label.getDimensions }

/-- The function `MouseOver`, for the window-space mouse position `mouse`, the camera of
the shader of the component's parent, and window dimensions `wd`. -/
def MouseOver {T : Type} (ops : UIComponentOps T) (mouse : Vec2) (camera : Camera)
    (wd : IVec2) (component : T) : Bool :=
  let mp := getMousePosition mouse camera wd
  let cp0 := ops.getPosition wd component
  let cpx : ℚ := cp0.x * wd.x
  let cpy : ℚ := cp0.y * wd.y
  let cd0 := ops.getDimensions wd component
  let cdx : ℚ := cd0.x * wd.x
  let cdy : ℚ := cd0.y * wd.y
  if mp.x.lt cpx || mp.x.gt (cpx + cdx) then false
  else if mp.y.lt cpy || mp.y.gt (cpy + cdy) then false
  else true

/-- The class `Button`. -/
structure Button extends Label where
  m_selected : Bool
  m_clicked : Bool
deriving DecidableEq, Repr

/-- The constant `Button::ClickedEvent`. -/
def Button.ClickedEvent : Nat := 2

/-- The default-constructed `Button`. -/
def Button.default : Button :=
  { toLabel := Label.default, m_selected := false, m_clicked := false }

/-- The class `Switch`. -/
structure Switch extends Button where
  m_on : Bool
deriving DecidableEq, Repr

/-- The constant `Switch::OffEvent`. -/
def Switch.OffEvent : Nat := 0

/-- The constant `Switch::OnEvent`. -/
def Switch.OnEvent : Nat := 1

/-- The constant `Switch::OffTextureCoordinates`. -/
def Switch.OffTextureCoordinates : Vec4 := ⟨0, 0, 1 / 2, 1⟩

/-- The constant `Switch::OnTextureCoordinates`. -/
def Switch.OnTextureCoordinates : Vec4 := ⟨1 / 2, 0, 1 / 2, 1⟩

/-- The default-constructed `Switch`. -/
def Switch.default : Switch := { toButton := Button.default, m_on := false }

/-- The function `Switch::isOn`. -/
def Switch.isOn (sw : Switch) : Bool := sw.m_on

/-- Replace the `Label` part of a switch. -/
def Switch.withLabel (sw : Switch) (l : Label) : Switch :=
  { sw with toButton := { sw.toButton with toLabel := l } }

/-- The function `Switch::setOn`. -/
def Switch.setOn (sw : Switch) (on_ : Bool) : Switch :=
  let coordinates := if on_ then Switch.OnTextureCoordinates else Switch.OffTextureCoordinates
  let l : Label :=
    { sw.toLabel with m_background :=
        { sw.m_background with
          texture := { sw.m_background.texture with coordinates := coordinates } } }
  { sw.withLabel l with m_on := on_ }

/-- The function `Switch::init`, for window dimensions `wd`. -/
def Switch.init (wd : IVec2) (sw : Switch) (position : Vec3) (dimensions : Vec2)
    (textureFileName labelText : String)
    (labelAlignment horizontalLabelAlignment verticalLabelAlignment : Alignment) : Switch :=
  (sw.withLabel (sw.toLabel.init wd position dimensions textureFileName labelText
    labelAlignment horizontalLabelAlignment verticalLabelAlignment)).setOn false

/-- The class `TextBox`. -/
structure TextBox extends Label where
  m_selected : Bool
  m_text : String
  m_textHorizontalPosition : ℚ
  m_cursorAlignment : Alignment
  m_cursor : Sprite
  m_cursorPosition : Nat
  m_timer : ℚ
  m_allowedCharacters : String
  m_maxCharacters : Int
  m_verticalAlignment : Alignment
deriving DecidableEq, Repr

/-- The default-constructed `TextBox`. -/
def TextBox.default : TextBox :=
  { toLabel := Label.default, m_selected := false, m_text := "",
    m_textHorizontalPosition := 0, m_cursorAlignment := .AC_ALIGN_NONE,
    m_cursor := Sprite.default, m_cursorPosition := 0, m_timer := 0,
    m_allowedCharacters := "", m_maxCharacters := -1,
    m_verticalAlignment := .AC_ALIGN_NONE }

/-- The function `TextBox::getText`. -/
def TextBox.getText (tb : TextBox) : String := tb.m_text

/-- The function `TextBox::setText`. The comparison of `text.length()` with the `int`
`m_maxCharacters` converts the latter to `size_t`. -/
def TextBox.setText (tb : TextBox) (text : String) : TextBox :=
  if text.length > toSizeT tb.m_maxCharacters ∧ tb.m_maxCharacters > 0 then tb
  else
    { tb with
      m_textHorizontalPosition := tb.m_background.position.x
      m_cursorPosition := 0
      m_text := text }

/-- The library function `std::string::resize(n)`: cut to `n` characters, or pad with the
null character. -/
def stringResize (s : String) (n : Nat) : String :=
  String.mk (s.data.take n ++ List.replicate (n - s.data.length) (Char.ofNat 0))

/-- The insertion loop of `TextBox::charTyped`: `cp` is the index of the next character
to copy, `nt` the text built so far and `s` whether `c` was inserted. -/
def insertLoop (c : Char) (cursor : Nat) : List Char → Nat → List Char → Bool →
    List Char × Bool
  | [], _, nt, s => (nt, s)
  | ch :: rest, cp, nt, s =>
    if cp = cursor then insertLoop c cursor rest (cp + 1) (nt ++ [c] ++ [ch]) true
    else insertLoop c cursor rest (cp + 1) (nt ++ [ch]) s

/-- The function `TextBox::charTyped`. -/
def TextBox.charTyped (tb : TextBox) (c : Char) : TextBox :=
  if !tb.m_selected then tb
  else if tb.m_text.length ≥ toSizeT tb.m_maxCharacters ∧ tb.m_maxCharacters > 0 then
    { tb with m_text := stringResize tb.m_text (toSizeT tb.m_maxCharacters) }
  else
    let f : Bool := tb.m_allowedCharacters.data.any (fun x => x == c)
    if !(tb.m_allowedCharacters.data.isEmpty || f) then tb
    else
      let r := insertLoop c tb.m_cursorPosition tb.m_text.data 0 [] false
      let text : String := if r.2 then String.mk r.1 else String.mk (tb.m_text.data ++ [c])
      { tb with m_text := text, m_cursorPosition := (tb.m_cursorPosition + 1) % UINT_MOD }

/-- The class `Carousel`. -/
structure Carousel extends Label where
  m_values : List String
  m_valueIndex : Nat
  m_prevButton : Button
  m_nextButton : Button
  m_horizontalAlignment : Alignment
  m_verticalAlignment : Alignment
  m_buttonAlignment : Alignment
deriving DecidableEq, Repr

/-- The constant `Carousel::ValueSetEvent`. -/
def Carousel.ValueSetEvent : Nat := 0

/-- The function `Carousel::setValueIndex`: the assignment of 0 for an index out of range
is followed by the assignment of the index itself. -/
def Carousel.setValueIndex (c : Carousel) (index : Nat) : Carousel :=
  let c1 : Carousel := if index ≥ c.m_values.length then { c with m_valueIndex := 0 } else c
  { c1 with m_valueIndex := index }

/-- The function `Carousel::componentEvent`, with the events it sends to its parent. -/
def Carousel.componentEvent (c : Carousel) (cID eID : Int) : Carousel × List UIEvent :=
  if toUnsigned cID = c.m_prevButton.getID then
    if toUnsigned eID = Button.ClickedEvent then
      let c1 :=
        if c.m_valueIndex ≥ 1 then
          c.setValueIndex ((c.m_valueIndex + UINT_MOD - 1) % UINT_MOD)
        else
          c.setValueIndex ((c.m_values.length % UINT_MOD + UINT_MOD - 1) % UINT_MOD)
      (c1, [⟨c.m_ID, Carousel.ValueSetEvent⟩])
    else (c, [])
  else if toUnsigned cID = c.m_nextButton.getID then
    if toUnsigned eID = Button.ClickedEvent then
      let c1 :=
        c.setValueIndex (((c.m_valueIndex + 1) % UINT_MOD % c.m_values.length) % UINT_MOD)
      (c1, [⟨c.m_ID, Carousel.ValueSetEvent⟩])
    else (c, [])
  else (c, [])

/-- The class `ListBox`. -/
structure ListBox extends Label where
  m_elementTextureFileName : String
  m_elements : List Switch
  m_nextID : Int
  m_valueCount : Nat
  m_topIndex : Nat
  m_timer : ℚ
  m_horizontalAlignment : Alignment
  m_verticalAlignment : Alignment
deriving DecidableEq, Repr

/-- The constant `ListBox::ValueSetEvent`. -/
def ListBox.ValueSetEvent : Nat := 0

/-- The default-constructed `ListBox`. -/
def ListBox.default : ListBox :=
  { toLabel := Label.default, m_elementTextureFileName := "", m_elements := [],
    m_nextID := 0, m_valueCount := 0, m_topIndex := 0, m_timer := 0,
    m_horizontalAlignment := .AC_ALIGN_NONE, m_verticalAlignment := .AC_ALIGN_NONE }

/-- The element loop of `ListBox::setPosition`: place the rows from `elementY` downwards. -/
def placeElements (wd : IVec2) (elementX depth elementHeight : ℚ) :
    List Switch → ℚ → List Switch
  | [], _ => []
  | sw :: rest, elementY =>
    sw.withLabel (sw.toLabel.setPosition wd ⟨elementX, elementY, depth⟩)
      :: placeElements wd elementX depth elementHeight rest (elementY - elementHeight)

/-- The function `ListBox::setPosition`, for window dimensions `wd`. -/
def ListBox.setPosition (wd : IVec2) (lb : ListBox) (position : Vec3) : ListBox :=
  let l := lb.toLabel.setPosition wd position
  let elementX : ℚ := l.m_background.position.x / wd.x
  let elementPixelHeight : ℚ := l.m_background.dimensions.y / lb.m_valueCount
  let elementHeight : ℚ := elementPixelHeight / wd.y
  let elementY : ℚ :=
    ((l.m_background.position.y + l.m_background.dimensions.y - elementPixelHeight)
      + elementPixelHeight * lb.m_topIndex) / wd.y
  { lb with
    toLabel := l
    m_elements := placeElements wd elementX (l.m_background.position.z + 1 / 10)
      elementHeight lb.m_elements elementY }

/-- The function `ListBox::addValue`, for window dimensions `wd`; a call without `index`
passes -1. The new row gets the next ID whatever its position in the list. -/
def ListBox.addValue (wd : IVec2) (lb : ListBox) (value : String) (index : Int) :
    ListBox :=
  let sw0 : Switch := Switch.default.init wd ⟨0, 0, 0⟩ ⟨0, 0⟩ lb.m_elementTextureFileName
    value .AC_ALIGN_CENTER lb.m_horizontalAlignment lb.m_verticalAlignment
  let sw : Switch := sw0.withLabel { sw0.toLabel with m_ID := lb.m_nextID }
  let elements : List Switch :=
    if index < 0 then lb.m_elements ++ [sw]
    else lb.m_elements.take index.toNat ++ sw :: lb.m_elements.drop index.toNat
  let lb1 : ListBox := { lb with m_elements := elements, m_nextID := lb.m_nextID + 1 }
  lb1.setPosition wd (lb1.toLabel.getPosition wd)

/-- The function `ListBox::setDimensions`, for window dimensions `wd`. -/
def ListBox.setDimensions (wd : IVec2) (lb : ListBox) (dimensions : Vec2) : ListBox :=
  let l := lb.toLabel.setDimensions wd dimensions
  let elementWidth : ℚ := l.m_background.dimensions.x / wd.x
  let elementHeight : ℚ := (l.m_background.dimensions.y / lb.m_valueCount) / wd.y
  { lb with
    toLabel := l
    m_elements := lb.m_elements.map (fun element =>
      element.withLabel (element.toLabel.setDimensions wd ⟨elementWidth, elementHeight⟩)) }

/-- The function `ListBox::setHorizontalAlignment`. -/
def ListBox.setHorizontalAlignment (lb : ListBox) (horizontalAlignment : Alignment) :
    ListBox :=
  { lb with
    m_horizontalAlignment := horizontalAlignment
    m_elements := lb.m_elements.map (fun element =>
      element.withLabel
        { element.toLabel with m_horizontalLabelAlignment := horizontalAlignment }) }

/-- The function `ListBox::setVerticalAlignment`. -/
def ListBox.setVerticalAlignment (lb : ListBox) (verticalAlignment : Alignment) : ListBox :=
  { lb with
    m_verticalAlignment := verticalAlignment
    m_elements := lb.m_elements.map (fun element =>
      element.withLabel
        { element.toLabel with m_verticalLabelAlignment := verticalAlignment }) }

/-- The function `ListBox::init`, for window dimensions `wd`. -/
def ListBox.init (wd : IVec2) (lb : ListBox) (position : Vec3) (dimensions : Vec2)
    (textureFileName labelText : String) (values : List String) (valueCount : Nat)
    (elementTextureFileName : String)
    (labelAlignment horizontalLabelAlignment verticalLabelAlignment horizontalAlignment
      verticalAlignment : Alignment) : ListBox :=
  let lb1 : ListBox :=
    { lb with
      toLabel := lb.toLabel.init wd position dimensions textureFileName labelText
        labelAlignment horizontalLabelAlignment verticalLabelAlignment
      m_elementTextureFileName := elementTextureFileName
      m_nextID := 0
      m_valueCount := valueCount
      m_topIndex := 0 }
  let lb2 := values.foldl (fun acc value => acc.addValue wd value (-1)) lb1
  let lb3 := lb2.setPosition wd position
  let lb4 := lb3.setDimensions wd dimensions
  (lb4.setHorizontalAlignment horizontalAlignment).setVerticalAlignment verticalAlignment

/-- The function `ListBox::componentEvent`, with the event it sends to its parent. -/
def ListBox.componentEvent (lb : ListBox) (cID _eID : Int) : ListBox × List UIEvent :=
  ({ lb with m_elements := lb.m_elements.map (fun element =>
      if toUnsigned cID = element.getID then element.setOn true else element.setOn false) },
    [⟨lb.m_ID, ListBox.ValueSetEvent⟩])

/-- The fields of the abstract class `UIComponent` (the parent pointer left out). -/
structure UIComponent where
  m_ID : Int
  m_enabled : Bool
  m_visible : Bool
deriving DecidableEq, Repr

/-- The default-constructed `UIComponent`: ID 0, enabled and visible. -/
def UIComponent.default : UIComponent := { m_ID := 0, m_enabled := true, m_visible := true }

/-- The function `UIComponent::isEnabled`. -/
def UIComponent.isEnabled (c : UIComponent) : Bool := c.m_enabled

/-- The function `UIComponent::setEnabled`. -/
def UIComponent.setEnabled (c : UIComponent) (enabled : Bool) : UIComponent :=
  { c with m_enabled := enabled }

/-- The function `UIComponent::isVisible`. -/
def UIComponent.isVisible (c : UIComponent) : Bool := c.m_visible

/-- The function `UIComponent::setVisible`. -/
def UIComponent.setVisible (c : UIComponent) (visible : Bool) : UIComponent :=
  let c1 : UIComponent := { c with m_visible := visible }
  if !c1.m_visible then c1.setEnabled false else c1

/-- A call of one of the two setters of a `UIComponent`. -/
inductive ComponentCall where
  | setEnabled (enabled : Bool)
  | setVisible (visible : Bool)
deriving DecidableEq, Repr

/-- The component after one setter call. -/
def UIComponent.call (c : UIComponent) : ComponentCall → UIComponent
  | .setEnabled enabled => c.setEnabled enabled
  | .setVisible visible => c.setVisible visible

/-- The component after a sequence of setter calls. -/
def UIComponent.calls (c : UIComponent) (l : List ComponentCall) : UIComponent :=
  l.foldl UIComponent.call c

/-- No call `setEnabled(true)` of the sequence is made while the component is hidden. -/
def UIComponent.enablesOnlyVisible (c : UIComponent) : List ComponentCall → Prop
  | [] => True
  | call :: rest =>
    (call = .setEnabled true → c.m_visible = true) ∧ (c.call call).enablesOnlyVisible rest

/-- The class `UIGroup`. The scene pointer is left out; `m_components` holds the addresses
of the components (`UIComponent*`) and `m_shader` the address of the shader. -/
structure UIGroup where
  m_ID : Int
  m_components : List Nat
  m_nextID : Int
  m_shader : Nat
  m_fontFileName : String
  m_textScale : ℚ
  m_textColor : Vec4
  m_enabled : Bool
  m_visible : Bool
  m_prevWindowDimensions : IVec2
deriving DecidableEq, Repr

/-- The objects a `UIGroup` points to: the component at each address, seen at its `Label`
base (every widget class of the library derives from `Label`), and the listener list
`m_listeners` of `App::Input`. -/
structure UIWorld where
  components : Nat → Label
  listeners : List Nat

/-- The function `InputManager::addListener`. -/
def UIWorld.addListener (w : UIWorld) (listener : Nat) : UIWorld :=
  if listener ∈ w.listeners then w else { w with listeners := w.listeners ++ [listener] }

/-- The function `InputManager::removeListener`. -/
def UIWorld.removeListener (w : UIWorld) (listener : Nat) : UIWorld :=
  { w with listeners := w.listeners.erase listener }

/-- Store a component at an address. -/
def UIWorld.setComponent (w : UIWorld) (address : Nat) (l : Label) : UIWorld :=
  { w with components := fun a => if a = address then l else w.components a }

/-- The function `UIGroup::init`, for window dimensions `wd` and the address
`defaultShader` of the default shader of the renderer. -/
def UIGroup.init (wd : IVec2) (defaultShader : Nat) (g : UIGroup) (ID : Int)
    (fontFileName : String) (textScale : ℚ) (textColor : Vec4) : UIGroup :=
  { g with
    m_ID := ID
    m_components := []
    m_nextID := 0
    m_shader := defaultShader
    m_fontFileName := fontFileName
    m_textScale := textScale
    m_textColor := textColor
    m_enabled := true
    m_visible := true
    m_prevWindowDimensions := wd }

/-- The function `UIGroup::addComponent` for the component at address `component`: the
return value, the group and the world afterwards. The `int` counter `m_nextID` is held as
its mathematical value: the increment stays in the `int` range as long as fewer than 2^31
IDs were given out, which the theorems about the counter assume. -/
def UIGroup.addComponent (g : UIGroup) (w : UIWorld) (component : Nat) :
    Bool × UIGroup × UIWorld :=
  if component ∈ g.m_components then (false, g, w)
  else
    let w1 := w.setComponent component { w.components component with m_ID := g.m_nextID }
    let w2 := if g.m_enabled then w1.addListener component else w1
    (true,
      { g with m_nextID := g.m_nextID + 1, m_components := g.m_components ++ [component] },
      w2)

/-- The function `UIGroup::removeComponent` for the component at address `component`. -/
def UIGroup.removeComponent (g : UIGroup) (w : UIWorld) (component : Nat) :
    Bool × UIGroup × UIWorld :=
  if component ∈ g.m_components then
    let w1 := if g.m_enabled then w.removeListener component else w
    (true, { g with m_components := g.m_components.erase component }, w1)
  else (false, g, w)

/-- A call of `addComponent` or `removeComponent` on a group, with the address of the
component passed. -/
inductive GroupCall where
  | addComponent (component : Nat)
  | removeComponent (component : Nat)
deriving DecidableEq, Repr

/-- A group with its world and the IDs given out so far by successful `addComponent`
calls, in call order. -/
structure GroupRun where
  group : UIGroup
  world : UIWorld
  assigned : List Int

/-- One call on a group. -/
def GroupRun.call (r : GroupRun) : GroupCall → GroupRun
  | .addComponent component =>
    let res := r.group.addComponent r.world component
    { group := res.2.1, world := res.2.2,
      assigned :=
        if res.1 then r.assigned ++ [(res.2.2.components component).m_ID] else r.assigned }
  | .removeComponent component =>
    let res := r.group.removeComponent r.world component
    { group := res.2.1, world := res.2.2, assigned := r.assigned }

/-- A sequence of calls on a group. -/
def GroupRun.calls (r : GroupRun) (l : List GroupCall) : GroupRun :=
  l.foldl GroupRun.call r

/-- The IDs of the components currently in a group, in list order. -/
def UIGroup.componentIDs (g : UIGroup) (w : UIWorld) : List Int :=
  g.m_components.map (fun a => (w.components a).m_ID)

/-- The body of the rescaling loop of `UIGroup::update` for one component: its normalized
dimensions and then its normalized position, read under the new window dimensions `wd`,
are multiplied by `scale` and set again. -/
def Label.rescaled (wd : IVec2) (scale : Vec2) (c0 : Label) : Label :=
  let dimensions := c0.getDimensions wd
  let c1 := c0.setDimensions wd ⟨dimensions.x * scale.x, dimensions.y * scale.y⟩
  let position := c1.getPosition wd
  c1.setPosition wd ⟨position.x * scale.x, position.y * scale.y, position.z⟩

/-- The rescaling loop of `UIGroup::update` over the components of the group. -/
def UIGroup.rescale (wd : IVec2) (scale : Vec2) (w : UIWorld) : List Nat → UIWorld
  | [] => w
  | component :: rest =>
    UIGroup.rescale wd scale
      (w.setComponent component ((w.components component).rescaled wd scale)) rest

/-- The function `UIGroup::update`, for window dimensions `wd`. The calls
`component->update(dt)` do nothing for a `Label`. -/
def UIGroup.update (wd : IVec2) (g : UIGroup) (w : UIWorld) (_dt : ℚ) : UIGroup × UIWorld :=
  if g.m_prevWindowDimensions ≠ wd then
    let scale : Vec2 :=
      ⟨(wd.x : ℚ) / g.m_prevWindowDimensions.x, (wd.y : ℚ) / g.m_prevWindowDimensions.y⟩
    ({ g with m_prevWindowDimensions := wd }, UIGroup.rescale wd scale w g.m_components)
  else (g, w)

/-- The function `UIGroup::processInput`: the addresses of the components whose
`processInput` is called, in order. -/
def UIGroup.processInput (g : UIGroup) (w : UIWorld) : List Nat :=
  if g.m_enabled then g.m_components.filter (fun a => (w.components a).m_enabled) else []

/-- The default-constructed `UIGroup`. -/
def UIGroup.default : UIGroup :=
  { m_ID := 0, m_components := [], m_nextID := 0, m_shader := 0, m_fontFileName := "",
    m_textScale := 1, m_textColor := ⟨0, 0, 0, 0⟩, m_enabled := true, m_visible := true,
    m_prevWindowDimensions := ⟨0, 0⟩ }

/-! ## Entity.h: Animation -/

/-- The class `Animation`. -/
structure Animation extends Sprite where
  m_frameTime : ℚ
  m_frameCoords : List Vec2
  m_playing : Bool
  m_timer : ℚ
  m_frame : Nat
deriving DecidableEq, Repr

/-- The default-constructed `Animation`. -/
def Animation.default : Animation :=
  { toSprite := Sprite.default, m_frameTime := 0, m_frameCoords := [], m_playing := false,
    m_timer := 0, m_frame := 0 }

/-- The function `Sprite::update` (with `Entity::update`). -/
def Sprite.update (s : Sprite) (dt : ℚ) : Sprite :=
  { s with
    position := ⟨s.position.x + dt * s.velocity.x, s.position.y + dt * s.velocity.y,
      s.position.z⟩
    rotation := s.rotation + dt * s.rotationVelocity }

/-- The library function `std::vector::resize(n)` on a vector of `glm::vec2`. -/
def vectorResize (v : List Vec2) (n : Nat) : List Vec2 :=
  v.take n ++ List.replicate (n - v.length) ⟨0, 0⟩

/-- The nested loops of `Animation::init`: the frame at column `x` of row `y` gets the
texture offset `(w * x, h * y)` at index `x + y * frameDimensions.x`. -/
def fillFrameCoords (frameDimensions : IVec2) (w h : ℚ) (coords : List Vec2) : List Vec2 :=
  (List.range frameDimensions.y.toNat).foldl (fun acc y =>
    (List.range frameDimensions.x.toNat).foldl (fun acc2 x =>
      acc2.set (x + y * frameDimensions.x.toNat) ⟨w * x, h * y⟩) acc) coords

/-- The function `Animation::init`. It sets neither `m_frame` nor `m_timer` nor
`m_playing`. -/
def Animation.init (a : Animation) (position : Vec3) (dimensions : Vec2)
    (textureFileName : String) (frameDimensions : IVec2) (frameTime : ℚ) : Animation :=
  let s0 := a.toSprite.init position dimensions textureFileName
  let coordinates : Vec4 := ⟨0, 0, 1 / (frameDimensions.x : ℚ), 1 / (frameDimensions.y : ℚ)⟩
  let s1 : Sprite := { s0 with texture := { s0.texture with coordinates := coordinates } }
  let resized := vectorResize a.m_frameCoords (toSizeT (frameDimensions.x * frameDimensions.y))
  { a with
    toSprite := s1
    m_frameCoords := fillFrameCoords frameDimensions coordinates.z coordinates.w resized
    m_frameTime := frameTime }

/-- The function `Animation::update`. The result is `none` when the frame list is empty
at the remainder `% m_frameCoords.size()` or when `m_frameCoords.at(m_frame)` throws. -/
def Animation.update (a : Animation) (dt : ℚ) : Option Animation :=
  let a1 : Animation := { a with toSprite := a.toSprite.update dt }
  if !a1.m_playing then some a1
  else
    let stepped : Option Animation :=
      if a1.m_timer > a1.m_frameTime then
        if a1.m_frameCoords.length = 0 then none
        else some { a1 with
          m_timer := 0
          m_frame := ((a1.m_frame + 1) % UINT_MOD % a1.m_frameCoords.length) % UINT_MOD }
      else some a1
    match stepped with
    | none => none
    | some a2 =>
      let a3 : Animation := { a2 with m_timer := a2.m_timer + dt }
      match a3.m_frameCoords.get? a3.m_frame with
      | none => none
      | some coords =>
        some { a3 with toSprite :=
          { a3.toSprite with texture :=
            { a3.texture with coordinates :=
              ⟨coords.x, coords.y, a3.texture.coordinates.z, a3.texture.coordinates.w⟩ } } }

/-- The function `Animation::play`. -/
def Animation.play (a : Animation) : Animation := { a with m_playing := true }

/-- The function `Animation::pause`. -/
def Animation.pause (a : Animation) : Animation := { a with m_playing := false }

/-- The function `Animation::stop`. The result is `none` when `m_frameCoords.at(0)`
throws. -/
def Animation.stop (a : Animation) : Option Animation :=
  match a.m_frameCoords.get? 0 with
  | none => none
  | some coords =>
    some { a with
      m_playing := false
      m_timer := 0
      m_frame := 0
      toSprite :=
        { a.toSprite with texture :=
          { a.texture with coordinates :=
            ⟨coords.x, coords.y, a.texture.coordinates.z, a.texture.coordinates.w⟩ } } }

/-- A call of one of the functions of an `Animation` named in the invariant. -/
inductive AnimationCall where
  | init (frameDimensions : IVec2) (frameTime : ℚ)
  | update (dt : ℚ)
  | play
  | pause
  | stop

/-- The animation after one call; `none` when the call throws. -/
def Animation.call (a : Animation) : AnimationCall → Option Animation
  | .init frameDimensions frameTime =>
    some (a.init ⟨0, 0, 0⟩ ⟨1, 1⟩ "frames.png" frameDimensions frameTime)
  | .update dt => a.update dt
  | .play => some a.play
  | .pause => some a.pause
  | .stop => a.stop

/-- The animation after a sequence of calls; `none` when one of them throws. -/
def Animation.calls (a : Animation) : List AnimationCall → Option Animation
  | [] => some a
  | c :: rest =>
    match a.call c with
    | none => none
    | some a1 => a1.calls rest

/-! ## UI.h: Button input -/

/-- The constant `Button::UnselectedEvent`. -/
def Button.UnselectedEvent : Nat := 0

/-- The constant `Button::SelectedEvent`. -/
def Button.SelectedEvent : Nat := 1

/-- The constant `Button::UnselectedTextureCoordinates`. -/
def Button.UnselectedTextureCoordinates : Vec4 := ⟨0, 0, 1 / 3, 1⟩

/-- The constant `Button::SelectedTextureCoordinates`. -/
def Button.SelectedTextureCoordinates : Vec4 := ⟨1 / 3, 0, 1 / 3, 1⟩

/-- The constant `Button::ClickedTextureCoordinates`. -/
def Button.ClickedTextureCoordinates : Vec4 := ⟨2 / 3, 0, 1 / 3, 1⟩

/-- Set the texture coordinates of the background of a button. -/
def Button.withCoordinates (b : Button) (coordinates : Vec4) : Button :=
  { b with toLabel :=
    { b.toLabel with m_background :=
      { b.m_background with
        texture := { b.m_background.texture with coordinates := coordinates } } } }

/-- The function `Button::setSelected`. -/
def Button.setSelected (b : Button) (selected : Bool) : Button :=
  let b1 :=
    if selected then b.withCoordinates Button.SelectedTextureCoordinates
    else b.withCoordinates Button.UnselectedTextureCoordinates
  { b1 with m_selected := selected }

/-- The function `Button::setClicked`. -/
def Button.setClicked (b : Button) (clicked : Bool) : Button :=
  let b1 :=
    if clicked then b.withCoordinates Button.ClickedTextureCoordinates
    else if b.m_selected then b.withCoordinates Button.SelectedTextureCoordinates
    else b.withCoordinates Button.UnselectedTextureCoordinates
  { b1 with m_clicked := clicked }

/-- The function `Button::init`, for window dimensions `wd`. -/
def Button.init (wd : IVec2) (b : Button) (position : Vec3) (dimensions : Vec2)
    (textureFileName labelText : String)
    (labelAlignment horizontalLabelAlignment verticalLabelAlignment : Alignment) : Button :=
  let l := Label.init wd b.toLabel position dimensions textureFileName labelText
    labelAlignment horizontalLabelAlignment verticalLabelAlignment
  let b1 : Button := { b with toLabel := l }
  (b1.setSelected false).setClicked false

/-- The function `Button::processInput` in a frame in which the window-space mouse position
is `mouse`, the left mouse button is down iff `leftDown` and was down at the last input
update iff `leftWasDown`; with the events sent to the parent, in order. -/
def Button.processInput (mouse : Vec2) (camera : Camera) (wd : IVec2)
    (leftDown leftWasDown : Bool) (b : Button) : Button × List UIEvent :=
  let r1 : Button × List UIEvent :=
    if MouseOver Label.ops mouse camera wd b.toLabel then
      if !b.m_selected then (b.setSelected true, [⟨b.m_ID, Button.SelectedEvent⟩])
      else (b, [])
    else
      if b.m_selected then (b.setSelected false, [⟨b.m_ID, Button.UnselectedEvent⟩])
      else (b, [])
  let b1 := r1.1
  if b1.m_selected then
    let events : List UIEvent :=
      if b1.m_clicked then
        if !leftDown && leftWasDown then r1.2 ++ [⟨b1.m_ID, Button.ClickedEvent⟩] else r1.2
      else r1.2
    if leftDown then (b1.setClicked true, events) else (b1.setClicked false, events)
  else (b1.setClicked false, r1.2)

/-- The input of one frame as a button sees it: the mouse position and whether the left
mouse button is down after the events of the frame. -/
structure InputFrame where
  mouse : Vec2
  leftDown : Bool
deriving DecidableEq, Repr

/-- A button and the state of the left mouse button after a sequence of frames; in each
frame the button was down at the last update iff it was down in the frame before. -/
def Button.afterFrames (camera : Camera) (wd : IVec2) (b : Button) (leftWasDown : Bool) :
    List InputFrame → Button × Bool
  | [] => (b, leftWasDown)
  | f :: rest =>
    Button.afterFrames camera wd
      (Button.processInput f.mouse camera wd f.leftDown leftWasDown b).1 f.leftDown rest

/-- The events a button sends in the frame `f` that follows the frames `frames`. -/
def Button.eventsAfter (camera : Camera) (wd : IVec2) (b : Button) (leftWasDown : Bool)
    (frames : List InputFrame) (f : InputFrame) : List UIEvent :=
  let s := Button.afterFrames camera wd b leftWasDown frames
  (Button.processInput f.mouse camera wd f.leftDown s.2 s.1).2

/-! ## UI.h: TextArea -/

/-- Conversion of an `unsigned int` to `int`. -/
def toInt (n : Nat) : Int :=
  if n % UINT_MOD < 2147483648 then ((n % UINT_MOD : Nat) : Int)
  else ((n % UINT_MOD : Nat) : Int) - 4294967296

/-- The constant `TextBox::UnselectedTextureCoordinates`. -/
def TextBox.UnselectedTextureCoordinates : Vec4 := ⟨0, 0, 1 / 2, 1⟩

/-- The constant `TextBox::SelectedTextureCoordinates`. -/
def TextBox.SelectedTextureCoordinates : Vec4 := ⟨1 / 2, 0, 1 / 2, 1⟩

/-- Set the background sprite of a text box. -/
def TextBox.withBackground (tb : TextBox) (background : Sprite) : TextBox :=
  { tb with toLabel := { tb.toLabel with m_background := background } }

/-- The function `TextBox::setSelected`. -/
def TextBox.setSelected (tb : TextBox) (selected : Bool) : TextBox :=
  let coordinates :=
    if selected then TextBox.SelectedTextureCoordinates
    else TextBox.UnselectedTextureCoordinates
  let texture : Texture := { tb.m_background.texture with coordinates := coordinates }
  { tb.withBackground { tb.m_background with texture := texture } with
    m_selected := selected }

/-- The function `TextBox::setPosition`, for window dimensions `wd`. -/
def TextBox.setPosition (wd : IVec2) (tb : TextBox) (position : Vec3) : TextBox :=
  let l := Label.setPosition wd tb.toLabel position
  { tb with toLabel := l, m_textHorizontalPosition := l.m_background.position.x }

/-- The function `TextBox::setDimensions`, for window dimensions `wd`. -/
def TextBox.setDimensions (wd : IVec2) (tb : TextBox) (dimensions : Vec2) : TextBox :=
  let scale : ℚ := dimensions.y / (tb.m_background.dimensions.y / wd.y)
  let tb1 := tb.withBackground
    { tb.m_background with dimensions := ⟨dimensions.x * wd.x, dimensions.y * wd.y⟩ }
  { tb1 with
    m_cursor :=
      { tb1.m_cursor with
        dimensions := ⟨tb1.m_cursor.dimensions.x, tb1.m_cursor.dimensions.y * scale⟩ } }

/-- The statements of `TextBox::init` after its call of `Label::init`. -/
def TextBox.initFields (wd : IVec2) (tb : TextBox) (cursorDimensions : Vec2)
    (cursorTextureFileName text : String) (maxCharacters : Int)
    (allowedCharacters : String) (cursorAlignment verticalAlignment : Alignment) :
    TextBox :=
  let tb1 := tb.setSelected false
  let cursor :=
    tb1.m_cursor.init ⟨0, 0, 0⟩ ⟨cursorDimensions.x, cursorDimensions.y * wd.y⟩
      cursorTextureFileName
  { tb1 with
    m_text := text
    m_textHorizontalPosition := 0
    m_cursorAlignment := cursorAlignment
    m_cursor := cursor
    m_cursorPosition := 0
    m_timer := 0
    m_allowedCharacters := allowedCharacters
    m_maxCharacters := maxCharacters
    m_verticalAlignment := verticalAlignment }

/-- The function `TextBox::init`, for window dimensions `wd`. The call of `Label::init`
reaches `TextBox::setPosition` and `TextBox::setDimensions`, the overriders of the virtual
functions it calls. -/
def TextBox.init (wd : IVec2) (tb : TextBox) (position : Vec3) (dimensions : Vec2)
    (textureFileName labelText : String) (cursorDimensions : Vec2)
    (cursorTextureFileName text : String) (maxCharacters : Int)
    (allowedCharacters : String)
    (labelAlignment horizontalLabelAlignment verticalLabelAlignment : Alignment)
    (cursorAlignment verticalAlignment : Alignment) : TextBox :=
  let background := tb.m_background.init ⟨0, 0, 0⟩ ⟨0, 0⟩ textureFileName
  let tb2 := TextBox.setPosition wd (tb.withBackground background) position
  let tb3 := TextBox.setDimensions wd tb2 dimensions
  let l4 : Label :=
    { tb3.toLabel with
      m_labelText := labelText
      m_labelAlignment := labelAlignment
      m_horizontalLabelAlignment := horizontalLabelAlignment
      m_verticalLabelAlignment := verticalLabelAlignment }
  let tb4 : TextBox := { tb3 with toLabel := l4 }
  TextBox.initFields wd tb4 cursorDimensions cursorTextureFileName text maxCharacters
    allowedCharacters cursorAlignment verticalAlignment

/-- The class `TextArea`. -/
structure TextArea extends TextBox where
  m_lineCount : Int
  m_topLine : Int
deriving DecidableEq, Repr

/-- The default-constructed `TextArea`. -/
def TextArea.default : TextArea :=
  { toTextBox := TextBox.default, m_lineCount := 0, m_topLine := 0 }

/-- The function `TextArea::setPosition`, for window dimensions `wd`. -/
def TextArea.setPosition (wd : IVec2) (ta : TextArea) (position : Vec3) : TextArea :=
  { ta with toTextBox := TextBox.setPosition wd ta.toTextBox position, m_topLine := 0 }

/-- The function `TextArea::init`, for window dimensions `wd`. The call of `Label::init`
inside `TextBox::init` reaches `TextArea::setPosition` and `TextBox::setDimensions`, the
overriders of the virtual functions it calls. The cursor is initialized after them, so the
cursor height that `TextBox::setDimensions` computes from a background of height 0 (a
division by zero, here with quotient 0) is overwritten. -/
def TextArea.init (wd : IVec2) (ta : TextArea) (position : Vec3) (dimensions : Vec2)
    (lineCount : Nat) (textureFileName labelText : String) (cursorDimensions : Vec2)
    (cursorTextureFileName text : String) (maxCharacters : Int)
    (allowedCharacters : String)
    (labelAlignment horizontalLabelAlignment verticalLabelAlignment : Alignment)
    (cursorAlignment : Alignment) : TextArea :=
  let background := ta.m_background.init ⟨0, 0, 0⟩ ⟨0, 0⟩ textureFileName
  let ta1 : TextArea := { ta with toTextBox := ta.toTextBox.withBackground background }
  let ta2 := TextArea.setPosition wd ta1 position
  let tb3 := TextBox.setDimensions wd ta2.toTextBox dimensions
  let l4 : Label :=
    { tb3.toLabel with
      m_labelText := labelText
      m_labelAlignment := labelAlignment
      m_horizontalLabelAlignment := horizontalLabelAlignment
      m_verticalLabelAlignment := verticalLabelAlignment }
  let tb4 : TextBox := { tb3 with toLabel := l4 }
  let tb5 := TextBox.initFields wd tb4 cursorDimensions cursorTextureFileName text
    maxCharacters allowedCharacters cursorAlignment .AC_ALIGN_CENTER
  let tb6 : TextBox :=
    { tb5 with m_textHorizontalPosition := tb5.m_background.position.x }
  { ta2 with toTextBox := tb6, m_lineCount := toInt lineCount, m_topLine := 0 }

/-- The loop of `TextArea::getContentLines`: `contentLine` is the line being built. -/
def contentLinesLoop : List Char → List Char → List String → List String
  | [], contentLine, contentLines =>
    if contentLine.isEmpty then contentLines else contentLines ++ [String.mk contentLine]
  | c :: rest, contentLine, contentLines =>
    if c = '\n' then contentLinesLoop rest [] (contentLines ++ [String.mk contentLine])
    else contentLinesLoop rest (contentLine ++ [c]) contentLines

/-- The function `TextArea::getContentLines`. -/
def TextArea.getContentLines (ta : TextArea) : List String :=
  if ta.m_text.data.isEmpty then [] else contentLinesLoop ta.m_text.data [] []

/-- The function `TextArea::setTopLine`: the return value and the text area afterwards. -/
def TextArea.setTopLine (ta : TextArea) (topLine : Int) : Bool × TextArea :=
  if topLine < 0 then (false, ta)
  else
    let contentLineCount : Int := ta.getContentLines.length
    if contentLineCount ≤ ta.m_lineCount ∧ topLine > 0 then (false, ta)
    else if topLine > contentLineCount - ta.m_lineCount then (false, ta)
    else (true, { ta with m_topLine := topLine })

/-- The result of running a function that has loops for a bounded number of iterations. -/
inductive Run (α : Type) where
  | returned (a : α)
  | failed
  | running
deriving DecidableEq, Repr

/-- Set the position of the cursor of a text area. -/
def TextArea.withCursorPosition (ta : TextArea) (position : Vec3) : TextArea :=
  let cursor : Sprite := { ta.m_cursor with position := position }
  { ta with toTextBox := { ta.toTextBox with m_cursor := cursor } }

/-- Set the horizontal text position of a text area. -/
def TextArea.withHorizontalPosition (ta : TextArea) (x : ℚ) : TextArea :=
  { ta with toTextBox := { ta.toTextBox with m_textHorizontalPosition := x } }

/-- The loop of `TextArea::update` over the characters before the cursor, `n` of them
still to come from index `cp` on: a line break moves the cursor to the start of the next
line, another character moves it right by its advance. The result is `none` when
`m_text.at(cp)` or `glyphs.at` throws or the font pointer is null. -/
def TextArea.cursorLoop (font : Option Font) (textScale lineStart lineHeight : ℚ)
    (text : List Char) : Nat → Nat → Vec3 → Option Vec3
  | 0, _, position => some position
  | n + 1, cp, position =>
    match text.get? cp with
    | none => none
    | some ch =>
      if ch = '\n' then
        TextArea.cursorLoop font textScale lineStart lineHeight text n (cp + 1)
          ⟨lineStart, position.y - lineHeight, position.z⟩
      else
        match font with
        | none => none
        | some f =>
          match f.glyphAt ch with
          | none => none
          | some g =>
            let bearing : Nat := if cp = 0 then toUnsigned g.bearing.x else 0
            let advance : Nat := (g.offset + UINT_MOD - bearing) % UINT_MOD
            TextArea.cursorLoop font textScale lineStart lineHeight text n (cp + 1)
              ⟨position.x + advance * textScale, position.y, position.z⟩

/-- The function `TextArea::update`, for the font `font` and the text scale `textScale` of
the parent group. The result is `none` when a lookup throws. -/
def TextArea.update (font : Option Font) (textScale : ℚ) (ta : TextArea) (dt : ℚ) :
    Option TextArea :=
  let lineHeight : ℚ := ta.m_background.dimensions.y / ta.m_lineCount
  let start : Vec3 :=
    ⟨ta.m_textHorizontalPosition,
      ta.m_background.position.y + ta.m_background.dimensions.y
        + ((ta.m_topLine - 1 : Int) : ℚ) * lineHeight,
      ta.m_background.position.z + 1 / 5⟩
  match TextArea.cursorLoop font textScale ta.m_textHorizontalPosition lineHeight
      ta.m_text.data ta.m_cursorPosition 0 start with
  | none => none
  | some p =>
    let y : ℚ :=
      match ta.m_cursorAlignment with
      | .AC_ALIGN_CENTER => p.y + (lineHeight - ta.m_cursor.dimensions.y) / 2
      | .AC_ALIGN_TOP => p.y + lineHeight - ta.m_cursor.dimensions.y
      | _ => p.y
    let ta1 := ta.withCursorPosition ⟨p.x, y, p.z⟩
    let timer := ta1.m_timer + dt
    some { ta1 with toTextBox :=
      { ta1.toTextBox with m_timer := if timer > 60 then 0 else timer } }

/-- One iteration of the first loop of `TextArea::putCursorInView`: the text area
afterwards and the value of `goodX`. -/
def TextArea.stepX (ta : TextArea) : TextArea × Bool :=
  let shift : ℚ := ta.m_background.dimensions.x / 5
  let p := ta.m_cursor.position
  if p.x < ta.m_background.position.x then
    let ta1 := (ta.withHorizontalPosition (ta.m_textHorizontalPosition + shift)).withCursorPosition
      ⟨p.x + shift, p.y, p.z⟩
    if ta1.m_textHorizontalPosition > ta1.m_background.position.x then
      (ta1.withHorizontalPosition ta1.m_background.position.x, true)
    else (ta1, false)
  else if p.x + ta.m_cursor.dimensions.x
      > ta.m_background.position.x + ta.m_background.dimensions.x then
    ((ta.withHorizontalPosition (ta.m_textHorizontalPosition - shift)).withCursorPosition
      ⟨p.x - shift, p.y, p.z⟩, false)
  else (ta, true)

/-- One iteration of the second loop of `TextArea::putCursorInView`: the text area
afterwards and the value of `goodY`. -/
def TextArea.stepY (ta : TextArea) : TextArea × Bool :=
  let lineHeight : ℚ := ta.m_background.dimensions.y / ta.m_lineCount
  let p := ta.m_cursor.position
  if p.y < ta.m_background.position.y then
    let ta1 := (ta.setTopLine (ta.m_topLine + 1)).2
    (ta1.withCursorPosition ⟨p.x, p.y + lineHeight, p.z⟩, false)
  else if p.y + ta.m_cursor.dimensions.y
      > ta.m_background.position.y + ta.m_background.dimensions.y then
    let ta1 := (ta.setTopLine (ta.m_topLine - 1)).2
    (ta1.withCursorPosition ⟨p.x, p.y - lineHeight, p.z⟩, false)
  else (ta, true)

/-- A loop `while (!good) \x7b step \x7d` run for at most `fuel` iterations: `none` when
the loop is still running after them. -/
def loopUntilGood (step : TextArea → TextArea × Bool) : Nat → TextArea → Option TextArea
  | 0, _ => none
  | fuel + 1, ta =>
    let r := step ta
    if r.2 then some r.1 else loopUntilGood step fuel r.1

/-- The function `TextArea::putCursorInView`, each of its two loops run for at most `fuel`
iterations. -/
def TextArea.putCursorInView (font : Option Font) (textScale : ℚ) (fuel : Nat)
    (ta : TextArea) : Run TextArea :=
  match TextArea.update font textScale ta 0 with
  | none => .failed
  | some ta1 =>
    match loopUntilGood TextArea.stepX fuel ta1 with
    | none => .running
    | some ta2 =>
      match loopUntilGood TextArea.stepY fuel ta2 with
      | none => .running
      | some ta3 => .returned ta3

/-- The horizontal out-of-bounds distance of the cursor: how far its left edge is left of
the background or its right edge right of the background. -/
def TextArea.outOfBoundsX (ta : TextArea) : ℚ :=
  max (max (ta.m_background.position.x - ta.m_cursor.position.x)
    (ta.m_cursor.position.x + ta.m_cursor.dimensions.x
      - (ta.m_background.position.x + ta.m_background.dimensions.x))) 0

/-! ## Acetylene.h: the update loop of App::Run -/

/-- The inner loop of `App::Run`, `while (dt > 1.0 && updates < MaxUpdatesPerFrame)`:
`calls` collects the arguments of the calls `CurrentScene->update(...)` made so far. The
result is the calls made and the value of `dt` when the loop ends. -/
def App.updateLoop (MaxUpdatesPerFrame : Nat) (dt : ℚ) (updates : Nat) (calls : List ℚ) :
    List ℚ × ℚ :=
  if dt > 1 ∧ updates < MaxUpdatesPerFrame then
    App.updateLoop MaxUpdatesPerFrame (dt - 1) (updates + 1) (calls ++ [1])
  else (calls, dt)
termination_by MaxUpdatesPerFrame - updates
decreasing_by omega

/-- The physics part of one frame of `App::Run` for the time `elapsed` since the last
frame: the arguments of all calls `CurrentScene->update(...)` of the frame, in order (the
capped loop of unit updates, then the final `update((float)dt)`). -/
def App.frameUpdates (TargetUpdatesPerSecond : ℚ) (MaxUpdatesPerFrame : Nat) (elapsed : ℚ) :
    List ℚ :=
  let dt := elapsed * TargetUpdatesPerSecond
  let r := App.updateLoop MaxUpdatesPerFrame dt 0 []
  r.1 ++ [r.2]

/-! ## The text submit, position by position -/

/-- The glyphs that the glyph loop of the text `submit` places with `g.init(...)`, in
order, whether it records them or not: the loop of `textLoop` from pen position `x`, up to
and including the glyph at which it breaks. -/
def placedGlyphs (font : Font) (box : Vec4) (scale y z : ℚ) : List Char → ℚ → List Glyph
  | [], _ => []
  | c :: cs, x =>
    match font.glyphAt c with
    | none => []
    | some g0 =>
      let g := placeGlyph g0 x y z scale
      if insideBox box g then g :: placedGlyphs font box scale y z cs (x + g.offset * scale)
      else if overflowsRight box g then [g]
      else g :: placedGlyphs font box scale y z cs (x + g.offset * scale)

/-- The glyphs that the text overload of `GraphicsManager::submit` places in its glyph
loop, in order; none when it returns early or a lookup throws. -/
def GraphicsManager.placedGlyphs (g : GraphicsManager) (text : String) (position : Vec3)
    (box : Vec4) (scale : ℚ) (fontFileName : String)
    (horizontalAlignment verticalAlignment : Alignment) : List Glyph :=
  if text.data.isEmpty then []
  else
    match g.getFont fontFileName with
    | none => []
    | some font =>
      if font.glyphs.isEmpty then []
      else
        match textOrigin font position box scale horizontalAlignment verticalAlignment
            text.data with
        | none => []
        | some (x, y) => Acetylene.placedGlyphs font box scale y position.z text.data x

/-- The sum of the advances of the glyphs of a character sequence, as the specification
names it. -/
def advanceSum (font : Font) (cs : List Char) : ℚ :=
  (cs.map (fun c =>
    match font.glyphAt c with
    | some g => (g.offset : ℚ)
    | none => 0)).sum

/-! ## The batches of a frame -/

/-- The index data of a batch of `n` quads as the specification states it: for the `j`-th
quad the six indices 4j, 4j+1, 4j+2, 4j+2, 4j+3, 4j. -/
def quadIndices (n : Nat) : List Nat :=
  ((List.range n).map
    (fun j => [4 * j, 4 * j + 1, 4 * j + 2, 4 * j + 2, 4 * j + 3, 4 * j])).flatten

/-- What the batching loop of `GraphicsManager::end` keeps true, for the sorted list `S`:
the pending vertex and index data are those of the entries batched since the last draw
call, and every draw call made so far drew a non-empty batch of entries with the index data
of its quads. -/
def batchInvariant (S : List (Nat × Sprite)) (st : BatchState) : Prop :=
  (∃ batch : List (Nat × Sprite), (∀ p ∈ batch, p ∈ S) ∧ st.vertices = verticesOf batch
      ∧ st.indices = quadIndices batch.length ∧ st.count = batch.length)
    ∧ ∀ d ∈ drawCalls st.calls, ∃ batch : List (Nat × Sprite), batch ≠ []
        ∧ (∀ p ∈ batch, p ∈ S) ∧ d.1 = verticesOf batch ∧ d.2 = quadIndices batch.length

/-- The entries that the first part of `GraphicsManager::end` appends to the sprite list:
the quads of the recorded glyphs, shader by shader in the order of the map. -/
def glyphQuads (m : List (Nat × List Glyph)) : List (Nat × Sprite) :=
  (m.map (fun p => p.2.map (fun gl => (p.1, (Glyph.draw gl).toSprite)))).flatten

/-! ## Input.h: the key states of InputManager -/

/-- The key states of the class `InputManager`: `m_keys` gives the entry of a key in the
`std::map`, the pair of its current and its previous state, or `none` for a key without an
entry. -/
structure InputManager where
  m_keys : Int → Option (Bool × Bool)

/-- The default-constructed `InputManager`: no key has an entry. -/
def InputManager.default : InputManager := ⟨fun _ => none⟩

/-- Assignment `m_keys[key] = p`. -/
def InputManager.setKey (m : InputManager) (key : Int) (p : Bool × Bool) : InputManager :=
  ⟨fun k => if k = key then some p else m.m_keys k⟩

/-- The function `InputManager::isKeyDown`. -/
def InputManager.isKeyDown (m : InputManager) (key : Int) : Bool :=
  match m.m_keys key with
  | none => false
  | some p => p.1

/-- The function `InputManager::pressKey`: a key without an entry gets the entry
(true, false); then the current state is set. -/
def InputManager.pressKey (m : InputManager) (key : Int) : InputManager :=
  match m.m_keys key with
  | none => m.setKey key (true, false)
  | some p => m.setKey key (true, p.2)

/-- The function `InputManager::releaseKey`: a key without an entry gets the entry
(false, true); then the current state is cleared. -/
def InputManager.releaseKey (m : InputManager) (key : Int) : InputManager :=
  match m.m_keys key with
  | none => m.setKey key (false, true)
  | some p => m.setKey key (false, p.2)

/-- The `action` argument of a GLFW key callback. -/
inductive KeyAction where
  | GLFW_PRESS
  | GLFW_RELEASE
  | GLFW_REPEAT
deriving DecidableEq, Repr

/-- The callback `InputManager::KeyEvent`. -/
def InputManager.KeyEvent (m : InputManager) (event : Int × KeyAction) : InputManager :=
  match event.2 with
  | .GLFW_PRESS => m.pressKey event.1
  | .GLFW_RELEASE => m.releaseKey event.1
  | .GLFW_REPEAT => m

/-- The function `InputManager::update`, for the key events that `glfwPollEvents` delivers
during the call: every entry's previous state becomes its current state, then the events
are handled in order. -/
def InputManager.update (m : InputManager) (events : List (Int × KeyAction)) :
    InputManager :=
  let copied : InputManager := ⟨fun k => (m.m_keys k).map (fun p => (p.1, p.1))⟩
  events.foldl InputManager.KeyEvent copied

/-- The key states GLFW holds after it delivered `event`, from the states `down` it held
before: a press makes the key pressed, a release makes it released. -/
def glfwKeyStates (down : Int → Bool) (event : Int × KeyAction) : Int → Bool :=
  match event.2 with
  | .GLFW_PRESS => fun k => if k = event.1 then true else down k
  | .GLFW_RELEASE => fun k => if k = event.1 then false else down k
  | .GLFW_REPEAT => down

/-- The function `Carousel::getValue`; `none` when `m_values.at(m_valueIndex)` throws. -/
def Carousel.getValue (c : Carousel) : Option String :=
  c.m_values.get? c.m_valueIndex

/-- The overload `Carousel::removeValue(const std::string&)`: the return value and the
carousel afterwards. -/
def Carousel.removeValue (c : Carousel) (value : String) : Bool × Carousel :=
  if value ∈ c.m_values then
    let c1 : Carousel := { c with m_values := c.m_values.erase value }
    (true, c1.setValueIndex c1.m_valueIndex)
  else (false, c)

/-- The overload `Carousel::removeValue(unsigned int)`: the return value and the carousel
afterwards. -/
def Carousel.removeValueAt (c : Carousel) (index : Nat) : Bool × Carousel :=
  if index ≥ c.m_values.length then (false, c)
  else
    let c1 : Carousel := { c with m_values := c.m_values.eraseIdx index }
    (true, c1.setValueIndex c1.m_valueIndex)

/-- The function `TextBox::setCursorPosition`: the return value and the text box
afterwards. -/
def TextBox.setCursorPosition (tb : TextBox) (cursorPosition : Nat) : Bool × TextBox :=
  if cursorPosition > tb.m_text.length then (false, tb)
  else (true, { tb with m_cursorPosition := cursorPosition })

/-- The function `TextBox::setMaxCharacters`. -/
def TextBox.setMaxCharacters (tb : TextBox) (maxCharacters : Int) : TextBox :=
  if maxCharacters < 0 then { tb with m_maxCharacters := -1 }
  else { tb with m_maxCharacters := maxCharacters }

/-- One iteration of the loop of `GraphicsManager::getFont` that finds the minimum and the
maximum bearing of the font: `acc` holds `minBearing` and `maxBearing`. -/
def bearingStep (acc : ℚ × ℚ) (p : Char × Glyph) : ℚ × ℚ :=
  let mib : ℚ := p.2.dimensions.y - p.2.bearing.y
  let mab : ℚ := p.2.bearing.y
  (if mib > acc.1 then mib else acc.1, if mab > acc.2 then mab else acc.2)

/-- The loop of `GraphicsManager::getFont` over the loaded glyphs that finds the minimum
and the maximum bearing of the font, both starting at 0. -/
def fontBearings (glyphs : List (Char × Glyph)) : ℚ × ℚ :=
  glyphs.foldl bearingStep (0, 0)

/-- The font that `GraphicsManager::getFont` builds from the glyphs it could load. -/
def loadedFont (glyphs : List (Char × Glyph)) : Font :=
  { glyphs := glyphs, minBearing := (fontBearings glyphs).1,
    maxBearing := (fontBearings glyphs).2 }

/-- The characters of a list of lines with a line break after each of them. -/
def terminatedLines (lines : List String) : List Char :=
  (lines.map (fun l => l.data ++ ['\n'])).flatten

/-! ## Float arithmetic (IEEE 754 binary32)

The functions above take a `float` as the rational it stands for and compute exactly.
The functions below, with the suffix `F`, are the same source functions with every float
operation and every conversion to `float` rounded by `rnd`, each operation on its own (no
fused multiply-add, no wider intermediate precision): with `rnd = float32` they compute what
the program computes, with `rnd = id` they are the exact functions. -/

/-- The power of two `2 ^ k` for an integer exponent. -/
def pow2 (k : Int) : ℚ :=
  if 0 ≤ k then (2 : ℚ) ^ k.toNat else 1 / (2 : ℚ) ^ (-k).toNat

/-- The binary logarithm of a natural number, rounded down, by halving at most `fuel`
times. -/
def log2Loop : Nat → Nat → Nat
  | 0, _ => 0
  | fuel + 1, n => if 2 ≤ n then log2Loop fuel (n / 2) + 1 else 0

/-- The binary exponent of a positive rational `a`: the `e` with `2 ^ e ≤ a < 2 ^ (e + 1)`. -/
def binaryExponent (a : ℚ) : Int :=
  let e0 : Int :=
    (log2Loop a.num.natAbs a.num.natAbs : Int) - (log2Loop a.den a.den : Int)
  if a < pow2 e0 then e0 - 1 else e0

/-- Rounding to the nearest integer, a tie to the even one. -/
def roundHalfEven (m : ℚ) : Int :=
  let f : Int := m.floor
  let r : ℚ := m - f
  if r < 1 / 2 then f
  else if 1 / 2 < r then f + 1
  else if f % 2 = 0 then f
  else f + 1

/-- The `float` nearest to the rational `q`: IEEE 754 binary32 with 24 significant bits,
rounding to nearest with ties to even, subnormal numbers (multiples of `2 ^ -149`)
included. A magnitude of `2 ^ 128` or more, which rounds to an infinity, is outside the
model. -/
def float32 (q : ℚ) : ℚ :=
  if q = 0 then 0
  else
    let a : ℚ := |q|
    let e : Int := binaryExponent a
    let quantum : ℚ := pow2 (max e (-126) - 23)
    let r : ℚ := (roundHalfEven (a / quantum) : ℚ) * quantum
    if q < 0 then -r else r

/-- The function `Label::getPosition` in float arithmetic. -/
def Label.getPositionF (rnd : ℚ → ℚ) (wd : IVec2) (l : Label) : Vec3 :=
  ⟨rnd (l.m_background.position.x / rnd wd.x), rnd (l.m_background.position.y / rnd wd.y),
    l.m_background.position.z⟩

/-- The function `Label::setPosition` in float arithmetic. -/
def Label.setPositionF (rnd : ℚ → ℚ) (wd : IVec2) (l : Label) (position : Vec3) : Label :=
  { l with m_background :=
      { l.m_background with
        position := ⟨rnd (position.x * rnd wd.x), rnd (position.y * rnd wd.y), position.z⟩ } }

/-- The function `Label::getDimensions` in float arithmetic. -/
def Label.getDimensionsF (rnd : ℚ → ℚ) (wd : IVec2) (l : Label) : Vec2 :=
  ⟨rnd (l.m_background.dimensions.x / rnd wd.x),
    rnd (l.m_background.dimensions.y / rnd wd.y)⟩

/-- The function `Label::setDimensions` in float arithmetic. -/
def Label.setDimensionsF (rnd : ℚ → ℚ) (wd : IVec2) (l : Label) (dimensions : Vec2) :
    Label :=
  { l with m_background :=
      { l.m_background with
        dimensions := ⟨rnd (dimensions.x * rnd wd.x), rnd (dimensions.y * rnd wd.y)⟩ } }

/-- The function `Label::init` in float arithmetic. -/
def Label.initF (rnd : ℚ → ℚ) (wd : IVec2) (l : Label) (position : Vec3)
    (dimensions : Vec2) (textureFileName labelText : String)
    (labelAlignment horizontalLabelAlignment verticalLabelAlignment : Alignment) : Label :=
  let l1 : Label :=
    { l with m_background := l.m_background.init ⟨0, 0, 0⟩ ⟨0, 0⟩ textureFileName }
  let l2 := l1.setPositionF rnd wd position
  let l3 := l2.setDimensionsF rnd wd dimensions
  { l3 with
    m_labelText := labelText
    m_labelAlignment := labelAlignment
    m_horizontalLabelAlignment := horizontalLabelAlignment
    m_verticalLabelAlignment := verticalLabelAlignment }

/-- The body of the rescaling loop of `UIGroup::update` for one component, in float
arithmetic. -/
def Label.rescaledF (rnd : ℚ → ℚ) (wd : IVec2) (scale : Vec2) (c0 : Label) : Label :=
  let dimensions := c0.getDimensionsF rnd wd
  let c1 := c0.setDimensionsF rnd wd
    ⟨rnd (dimensions.x * scale.x), rnd (dimensions.y * scale.y)⟩
  let position := c1.getPositionF rnd wd
  c1.setPositionF rnd wd
    ⟨rnd (position.x * scale.x), rnd (position.y * scale.y), position.z⟩

/-- The rescaling loop of `UIGroup::update` over the components of the group, in float
arithmetic. -/
def UIGroup.rescaleF (rnd : ℚ → ℚ) (wd : IVec2) (scale : Vec2) (w : UIWorld) :
    List Nat → UIWorld
  | [] => w
  | component :: rest =>
    UIGroup.rescaleF rnd wd scale
      (w.setComponent component ((w.components component).rescaledF rnd wd scale)) rest

/-- The function `UIGroup::update` in float arithmetic, for window dimensions `wd`. -/
def UIGroup.updateF (rnd : ℚ → ℚ) (wd : IVec2) (g : UIGroup) (w : UIWorld) (_dt : ℚ) :
    UIGroup × UIWorld :=
  if g.m_prevWindowDimensions ≠ wd then
    let scale : Vec2 :=
      ⟨rnd (rnd wd.x / rnd g.m_prevWindowDimensions.x),
        rnd (rnd wd.y / rnd g.m_prevWindowDimensions.y)⟩
    ({ g with m_prevWindowDimensions := wd }, UIGroup.rescaleF rnd wd scale w g.m_components)
  else (g, w)

/-- Whether the rounding `rnd` has relative error at most `u` at `q`. -/
def roundsWithin (rnd : ℚ → ℚ) (u q : ℚ) : Bool :=
  decide (|rnd q - q| ≤ u * |q|)

/-- Whether each float operation that `UIGroup::update` and the getters apply to the stored
pixel value `v` of a label, for the previous window size `w0` and the new window size `w1`,
has relative error at most `u`: the division `v / w0` of the getter before the resize, the
division `w1 / w0` that gives the scale factor, the division `v / w1` of the getter in the
loop, the multiplication by the scale factor, the multiplication by `w1` of the setter, and
the division by `w1` of the getter after the update. -/
def rescaleWithin (rnd : ℚ → ℚ) (u v w0 w1 : ℚ) : Bool :=
  roundsWithin rnd u (v / w0)
    && roundsWithin rnd u (w1 / w0)
    && roundsWithin rnd u (v / w1)
    && roundsWithin rnd u (rnd (v / w1) * rnd (w1 / w0))
    && roundsWithin rnd u (rnd (rnd (v / w1) * rnd (w1 / w0)) * w1)
    && roundsWithin rnd u (rnd (rnd (rnd (v / w1) * rnd (w1 / w0)) * w1) / w1)

/-- The function `Glyph::draw` in float arithmetic. -/
def Glyph.drawF (rnd : ℚ → ℚ) (g : Glyph) : Glyph :=
  let bl : Vec3 := ⟨g.position.x, g.position.y, g.position.z⟩
  let br : Vec3 := ⟨rnd (g.position.x + g.dimensions.x), g.position.y, g.position.z⟩
  let tl : Vec3 := ⟨rnd (g.position.x + g.dimensions.x), rnd (g.position.y + g.dimensions.y),
    g.position.z⟩
  let tr : Vec3 := ⟨g.position.x, rnd (g.position.y + g.dimensions.y), g.position.z⟩
  let t := g.texture.coordinates
  let c := g.color
  { g with m_vertices :=
      vertexData bl t.x (rnd (t.y + t.w)) c 2
        ++ vertexData br (rnd (t.x + t.z)) (rnd (t.y + t.w)) c 2
        ++ vertexData tl (rnd (t.x + t.z)) t.y c 2 ++ vertexData tr t.x t.y c 2 }

/-- The first loop of the text `submit` in float arithmetic: add up the advances of the
characters. -/
def sumOffsetsF (rnd : ℚ → ℚ) (font : Font) : List Char → ℚ → Option ℚ
  | [], w => some w
  | c :: cs, w =>
    match font.glyphAt c with
    | none => none
    | some g => sumOffsetsF rnd font cs (rnd (w + rnd g.offset))

/-- The call `g.init(...)` in the text `submit`, in float arithmetic. -/
def placeGlyphF (rnd : ℚ → ℚ) (g : Glyph) (x y z scale : ℚ) : Glyph :=
  let position : Vec3 :=
    ⟨rnd (x + rnd (rnd g.bearing.x * scale)),
      rnd (y - rnd (rnd (g.dimensions.y - rnd g.bearing.y) * scale)), z⟩
  let dimensions : Vec2 := ⟨rnd (g.dimensions.x * scale), rnd (g.dimensions.y * scale)⟩
  { g with toSprite := g.toSprite.init position dimensions g.texture.fileName }

/-- The clip test of the text `submit`, in float arithmetic. -/
def insideBoxF (rnd : ℚ → ℚ) (box : Vec4) (g : Glyph) : Bool :=
  !(decide (g.position.x < box.x)
    || decide (rnd (g.position.x + g.dimensions.x) > rnd (box.x + box.z))
    || decide (g.position.y < box.y)
    || decide (rnd (g.position.y + g.dimensions.y) > rnd (box.y + box.w)))

/-- The break test of the text `submit`, in float arithmetic. -/
def overflowsRightF (rnd : ℚ → ℚ) (box : Vec4) (g : Glyph) : Bool :=
  decide (rnd (g.position.x + g.dimensions.x) > rnd (box.x + box.z))

/-- The glyph loop of the text `submit` in float arithmetic, from pen position `x`, with
the glyphs recorded so far in `acc`. -/
def textLoopF (rnd : ℚ → ℚ) (font : Font) (box : Vec4) (scale : ℚ) (color : Vec4)
    (y z : ℚ) : List Char → ℚ → List Glyph → Option (List Glyph)
  | [], _, acc => some acc
  | c :: cs, x, acc =>
    match font.glyphAt c with
    | none => none
    | some g0 =>
      let g := placeGlyphF rnd g0 x y z scale
      if insideBoxF rnd box g then
        textLoopF rnd font box scale color y z cs (rnd (x + rnd (rnd g.offset * scale)))
          (acc ++ [Glyph.drawF rnd { g with color := color }])
      else if overflowsRightF rnd box g then some acc
      else textLoopF rnd font box scale color y z cs (rnd (x + rnd (rnd g.offset * scale)))
        acc

/-- The horizontal origin chosen by the text `submit` in float arithmetic, before the
bearing correction. -/
def alignXF (rnd : ℚ → ℚ) (hAlign : Alignment) (position : Vec3) (box : Vec4)
    (labelWidth : ℚ) : ℚ :=
  match hAlign with
  | .AC_ALIGN_LEFT => box.x
  | .AC_ALIGN_RIGHT => rnd (rnd (box.x + box.z) - labelWidth)
  | .AC_ALIGN_CENTER => rnd (rnd (box.x + rnd (box.z / 2)) - rnd (labelWidth / 2))
  | _ => position.x

/-- The vertical origin chosen by the text `submit` in float arithmetic. -/
def alignYF (rnd : ℚ → ℚ) (vAlign : Alignment) (position : Vec3) (box : Vec4) (font : Font)
    (scale labelHeight : ℚ) : ℚ :=
  match vAlign with
  | .AC_ALIGN_BOTTOM => rnd (box.y + rnd (font.minBearing * scale))
  | .AC_ALIGN_TOP => rnd (rnd (box.y + box.w) - labelHeight)
  | .AC_ALIGN_CENTER => rnd (rnd (box.y + rnd (box.w / 2)) - rnd (labelHeight / 2))
  | _ => position.y

/-- The pen position at which the text `submit` starts its glyph loop, in float
arithmetic. The result is `none` when a lookup `glyphs.at(c)` throws. -/
def textOriginF (rnd : ℚ → ℚ) (font : Font) (position : Vec3) (box : Vec4) (scale : ℚ)
    (horizontalAlignment verticalAlignment : Alignment) : List Char → Option (ℚ × ℚ)
  | [] => none
  | c0 :: rest =>
    match sumOffsetsF rnd font (c0 :: rest) 0 with
    | none => none
    | some w =>
      let labelWidth := rnd (w * scale)
      let labelHeight := rnd (rnd (font.minBearing + font.maxBearing) * scale)
      match font.glyphAt c0 with
      | none => none
      | some first =>
        some (rnd (alignXF rnd horizontalAlignment position box labelWidth
            - rnd (rnd first.bearing.x * scale)),
          alignYF rnd verticalAlignment position box font scale labelHeight)

/-- The text overload of `GraphicsManager::submit` in float arithmetic. The result is
`none` when a lookup `glyphs.at(c)` throws. -/
def GraphicsManager.submitTextF (rnd : ℚ → ℚ) (g : GraphicsManager) (text : String)
    (position : Vec3) (box : Vec4) (scale : ℚ) (color : Vec4) (fontFileName : String)
    (horizontalAlignment verticalAlignment : Alignment) (shader : Nat) :
    Option GraphicsManager :=
  if text.data.isEmpty then some g
  else
    match g.getFont fontFileName with
    | none => some g
    | some font =>
      if font.glyphs.isEmpty then some g
      else
        let g1 : GraphicsManager :=
          if (g.m_glyphs.lookup shader).isNone then
            { g with m_glyphs := mapSet shader [] g.m_glyphs }
          else g
        match textOriginF rnd font position box scale horizontalAlignment
            verticalAlignment text.data with
        | none => none
        | some (x, y) =>
          match textLoopF rnd font box scale color y position.z text.data x
              (mapGet shader g1.m_glyphs) with
          | none => none
          | some glyphs => some { g1 with m_glyphs := mapSet shader glyphs g1.m_glyphs }

/-- The glyphs that the glyph loop of the text `submit` places with `g.init(...)` in float
arithmetic, in order, whether it records them or not: the loop of `textLoopF` from pen
position `x`, up to and including the glyph at which it breaks. -/
def placedGlyphsF (rnd : ℚ → ℚ) (font : Font) (box : Vec4) (scale y z : ℚ) :
    List Char → ℚ → List Glyph
  | [], _ => []
  | c :: cs, x =>
    match font.glyphAt c with
    | none => []
    | some g0 =>
      let g := placeGlyphF rnd g0 x y z scale
      if insideBoxF rnd box g then
        g :: placedGlyphsF rnd font box scale y z cs (rnd (x + rnd (rnd g.offset * scale)))
      else if overflowsRightF rnd box g then [g]
      else g :: placedGlyphsF rnd font box scale y z cs (rnd (x + rnd (rnd g.offset * scale)))

/-- The glyphs that the text overload of `GraphicsManager::submit` places in its glyph
loop in float arithmetic, in order; none when it returns early or a lookup throws. -/
def GraphicsManager.placedGlyphsF (rnd : ℚ → ℚ) (g : GraphicsManager) (text : String)
    (position : Vec3) (box : Vec4) (scale : ℚ) (fontFileName : String)
    (horizontalAlignment verticalAlignment : Alignment) : List Glyph :=
  if text.data.isEmpty then []
  else
    match g.getFont fontFileName with
    | none => []
    | some font =>
      if font.glyphs.isEmpty then []
      else
        match textOriginF rnd font position box scale horizontalAlignment
            verticalAlignment text.data with
        | none => []
        | some (x, y) =>
          Acetylene.placedGlyphsF rnd font box scale y position.z text.data x

/-- The pen position of the text `submit` in float arithmetic after the characters `cs`,
from the pen position `x`: each character moves the pen by its scaled advance. -/
def penF (rnd : ℚ → ℚ) (font : Font) (scale : ℚ) : List Char → ℚ → ℚ
  | [], x => x
  | c :: cs, x =>
    match font.glyphAt c with
    | none => x
    | some g => penF rnd font scale cs (rnd (x + rnd (rnd g.offset * scale)))

/-- Whether no float operation of the first loop of the text `submit` rounds, from the
partial sum `w`: the conversion of each advance and each addition. -/
def sumExact (rnd : ℚ → ℚ) (font : Font) : List Char → ℚ → Bool
  | [], _ => true
  | c :: cs, w =>
    match font.glyphAt c with
    | none => true
    | some g =>
      decide (rnd g.offset = g.offset) && decide (rnd (w + g.offset) = w + g.offset)
        && sumExact rnd font cs (w + g.offset)

/-- Whether no float operation of the horizontal alignment switch of the text `submit`
rounds, for the label width `labelWidth`. -/
def alignExact (rnd : ℚ → ℚ) (hAlign : Alignment) (box : Vec4) (labelWidth : ℚ) : Bool :=
  match hAlign with
  | .AC_ALIGN_RIGHT =>
    decide (rnd (box.x + box.z) = box.x + box.z)
      && decide (rnd (box.x + box.z - labelWidth) = box.x + box.z - labelWidth)
  | .AC_ALIGN_CENTER =>
    decide (rnd (box.z / 2) = box.z / 2)
      && decide (rnd (box.x + box.z / 2) = box.x + box.z / 2)
      && decide (rnd (labelWidth / 2) = labelWidth / 2)
      && decide (rnd (box.x + box.z / 2 - labelWidth / 2)
          = box.x + box.z / 2 - labelWidth / 2)
  | _ => true

/-- Whether no float operation of the glyph loop of the text `submit` that determines the
horizontal position of its `i`-th glyph rounds, from the pen position `x`: the scaled
advances and pen movements of the glyphs before it, and its own scaled bearing and
position. -/
def penExact (rnd : ℚ → ℚ) (font : Font) (scale : ℚ) : List Char → ℚ → Nat → Bool
  | [], _, _ => true
  | c :: _, x, 0 =>
    match font.glyphAt c with
    | none => true
    | some g =>
      decide (rnd g.bearing.x = g.bearing.x)
        && decide (rnd (g.bearing.x * scale) = g.bearing.x * scale)
        && decide (rnd (x + g.bearing.x * scale) = x + g.bearing.x * scale)
  | c :: cs, x, i + 1 =>
    match font.glyphAt c with
    | none => true
    | some g =>
      decide (rnd g.offset = g.offset)
        && decide (rnd (g.offset * scale) = g.offset * scale)
        && decide (rnd (x + g.offset * scale) = x + g.offset * scale)
        && penExact rnd font scale cs (x + g.offset * scale) i

/-- Whether no float operation of the text `submit` that determines the horizontal position
of its `i`-th glyph rounds: the sum of the advances, the label width, the alignment switch,
the bearing correction of the first character, and the glyph loop up to the `i`-th
glyph. -/
def textExact (rnd : ℚ → ℚ) (font : Font) (position : Vec3) (box : Vec4) (scale : ℚ)
    (hAlign : Alignment) (cs : List Char) (i : Nat) : Bool :=
  match cs.head? with
  | none => true
  | some c0 =>
    match font.glyphAt c0 with
    | none => true
    | some g0 =>
      sumExact rnd font cs 0
        && decide (rnd (advanceSum font cs * scale) = advanceSum font cs * scale)
        && alignExact rnd hAlign box (advanceSum font cs * scale)
        && decide (rnd g0.bearing.x = g0.bearing.x)
        && decide (rnd (g0.bearing.x * scale) = g0.bearing.x * scale)
        && decide (rnd (alignX hAlign position box (advanceSum font cs * scale)
              - g0.bearing.x * scale)
            = alignX hAlign position box (advanceSum font cs * scale) - g0.bearing.x * scale)
        && penExact rnd font scale cs
            (alignX hAlign position box (advanceSum font cs * scale) - g0.bearing.x * scale) i

/-! ## Example data -/

/-- Stand-in values for `cos` and `sin` in the examples (rotation 0 never calls them). -/
def exampleTrig : Trig := ⟨fun _ => 1, fun _ => 0⟩

/-- A manager that knows two texture files, at the start of a frame. -/
def exampleManager : GraphicsManager :=
  { m_textures := fun f => if f = "a.png" then 1 else if f = "b.png" then 2 else 0,
    m_fonts := fun _ => none, m_sprites := [], m_glyphs := [], m_defaultShader := 7 }

/-- A unit-square sprite at depth `z` with texture file `file`. -/
def spriteAt (z : ℚ) (file : String) : Sprite :=
  Sprite.default.init ⟨0, 0, z⟩ ⟨1, 1⟩ file

/-- A frame with three submissions: `a.png` at depth 0, `b.png` at depth 1, `a.png` at
depth 0, all with shader 7. -/
def exampleFrame : GraphicsManager :=
  ((exampleManager.begin.submit (Sprite.drawable exampleTrig) (spriteAt 0 "a.png") 7).submit
    (Sprite.drawable exampleTrig) (spriteAt 1 "b.png") 7).submit
    (Sprite.drawable exampleTrig) (spriteAt 0 "a.png") 7

/-- A sprite with no texture file and a fully transparent colour. -/
def transparentSprite : Sprite :=
  Sprite.default.init ⟨0, 0, 0⟩ ⟨1, 1⟩ ""

/-- A glyph of the example font: a 2 by 2 bitmap with no bearing and advance 3. -/
def exampleGlyph (file : String) : Glyph :=
  { toSprite := Sprite.default.init ⟨0, 0, 0⟩ ⟨2, 2⟩ file, bearing := ⟨0, 0⟩, offset := 3 }

/-- A font with glyphs for the characters a and b. -/
def exampleFont : Font :=
  { glyphs := [('a', exampleGlyph "f@a"), ('b', exampleGlyph "f@b")],
    minBearing := 2, maxBearing := 0 }

/-- A manager that resolves the font file `f` to the example font. -/
def exampleTextManager : GraphicsManager :=
  { exampleManager with m_fonts := fun f => if f = "f" then some exampleFont else none }

/-- A camera centred on an 800 by 600 window, with scale 1. -/
def centredCamera : Camera :=
  { position := ⟨400, 300, 0⟩, velocity := ⟨0, 0⟩, scale := 1, scaleVelocity := 0,
    m_matrix := Mat4.identity, m_prevPosition := ⟨400, 300, 0⟩, m_prevScale := 1,
    m_prevWindowDimensions := ⟨800, 600⟩ }

/-- A selected text box holding `abc` with at most 2 characters, all of them `x`. -/
def exampleTextBox : TextBox :=
  { TextBox.default with
    m_selected := true, m_text := "abc", m_maxCharacters := 2, m_allowedCharacters := "x" }

/-- A carousel with the values A, B, C, as `Carousel::init` leaves its button IDs. -/
def exampleCarousel (index : Nat) : Carousel :=
  { toLabel := Label.default, m_values := ["A", "B", "C"], m_valueIndex := index,
    m_prevButton := { Button.default with m_ID := 0 },
    m_nextButton := { Button.default with m_ID := 1 },
    m_horizontalAlignment := .AC_ALIGN_CENTER, m_verticalAlignment := .AC_ALIGN_CENTER,
    m_buttonAlignment := .AC_ALIGN_CENTER }

/-- The window dimensions of the examples. -/
def exampleWindow : IVec2 := ⟨800, 600⟩

/-- A list box with three visible rows, initialised with the values a, b, c. -/
def exampleListBox : ListBox :=
  ListBox.default.init exampleWindow ⟨1 / 4, 1 / 4, 0⟩ ⟨1 / 2, 1 / 2⟩ "" "" ["a", "b", "c"] 3
    "" .AC_ALIGN_NONE .AC_ALIGN_NONE .AC_ALIGN_NONE .AC_ALIGN_CENTER .AC_ALIGN_CENTER

/-- The example list box after `addValue("d", 0)`: the new row is first and has ID 3. -/
def exampleListBoxInserted : ListBox :=
  exampleListBox.addValue exampleWindow "d" 0

/-- A label with pixel rect (200, 300), 400 by 60. -/
def exampleLabel : Label :=
  Label.default.init exampleWindow ⟨1 / 4, 1 / 2, 0⟩ ⟨1 / 2, 1 / 10⟩ "" "" .AC_ALIGN_NONE
    .AC_ALIGN_NONE .AC_ALIGN_NONE

/-- A unit-square sprite at horizontal position `x` and depth `z`. -/
def spriteAtX (x z : ℚ) (file : String) : Sprite :=
  Sprite.default.init ⟨x, 0, z⟩ ⟨1, 1⟩ file

/-- A frame with three submissions: at depth 1, then at depth 0, then again at depth 1. -/
def depthFrame : GraphicsManager :=
  ((exampleManager.begin.submit (Sprite.drawable exampleTrig) (spriteAtX 0 1 "a.png") 7).submit
    (Sprite.drawable exampleTrig) (spriteAtX 2 0 "a.png") 7).submit
    (Sprite.drawable exampleTrig) (spriteAtX 4 1 "b.png") 7

/-- A world in which every address holds the example label. -/
def exampleWorld : UIWorld := ⟨fun _ => exampleLabel, []⟩

/-- A group initialized for the example window to which the component at address 1 was
added. -/
def exampleGroupRun : GroupRun :=
  GroupRun.calls ⟨UIGroup.default.init exampleWindow 7 0 "font.ttf" 1 ⟨0, 0, 0, 1⟩,
    exampleWorld, []⟩ [.addComponent 1]

/-- An animation of four frames played to its last frame and then initialized again with a
single frame. -/
def exampleAnimationCalls : List AnimationCall :=
  [.init ⟨4, 1⟩ 0, .play, .update 1, .update 1, .update 1, .update 1, .init ⟨1, 1⟩ 5]

/-- A button with the rect of the example label. -/
def exampleButton : Button :=
  Button.default.init exampleWindow ⟨1 / 4, 1 / 2, 0⟩ ⟨1 / 2, 1 / 10⟩ "button.png" "OK"
    .AC_ALIGN_CENTER .AC_ALIGN_CENTER .AC_ALIGN_CENTER

/-- Three frames: the left button goes down with the mouse away from the example button,
the mouse is dragged over the button with the left button held, and the left button is let
go there. -/
def dragOntoButton : List InputFrame :=
  [⟨⟨0, 0⟩, true⟩, ⟨⟨401, 359⟩, true⟩]

/-- A text area of width 0 with one line, no text and a cursor 2 pixels wide. -/
def zeroWidthTextArea : TextArea :=
  TextArea.default.init exampleWindow ⟨1 / 4, 1 / 2, 0⟩ ⟨0, 1 / 10⟩ 1 "area.png" ""
    ⟨2, 1 / 20⟩ "cursor.png" "" (-1) "" .AC_ALIGN_TOP .AC_ALIGN_LEFT .AC_ALIGN_BOTTOM
    .AC_ALIGN_CENTER

/-- A text area 5 pixels wide at the left window edge, with one line, no text and a cursor
10 pixels wide. -/
def narrowTextArea : TextArea :=
  TextArea.default.init exampleWindow ⟨0, 1 / 2, 0⟩ ⟨1 / 160, 1 / 10⟩ 1 "area.png" ""
    ⟨10, 1 / 20⟩ "cursor.png" "" (-1) "" .AC_ALIGN_TOP .AC_ALIGN_LEFT .AC_ALIGN_BOTTOM
    .AC_ALIGN_CENTER

/-- A selected text box with no text that was initialized with a maximum character count
of 0. -/
def zeroLimitTextBox : TextBox :=
  (TextBox.default.init exampleWindow ⟨1 / 4, 1 / 2, 0⟩ ⟨1 / 2, 1 / 10⟩ "box.png" ""
    ⟨2, 1 / 20⟩ "cursor.png" "" 0 "" .AC_ALIGN_TOP .AC_ALIGN_LEFT .AC_ALIGN_BOTTOM
    .AC_ALIGN_CENTER .AC_ALIGN_CENTER).setSelected true

/-- A frame in which the text a is submitted at depth 0 and then a sprite at depth 0, both
with shader 7. -/
def textThenSprite : Option GraphicsManager :=
  (exampleTextManager.begin.submitText "a" ⟨0, 0, 0⟩ ⟨0, 0, 7, 5⟩ 1 ⟨1, 1, 1, 1⟩ "f"
    .AC_ALIGN_LEFT .AC_ALIGN_BOTTOM 7).map
    (fun g1 => g1.submit (Sprite.drawable exampleTrig) (spriteAt 0 "a.png") 7)

/-- The glyph that the text `submit` records for the text a of the example frame. -/
def recordedGlyph : Glyph :=
  Glyph.draw { placeGlyph (exampleGlyph "f@a") 0 2 0 1 with color := ⟨1, 1, 1, 1⟩ }

/-- The manager after the text a and then a sprite were submitted: the sprite is in the
sprite list and the glyph of the text in the glyph list. -/
def textThenSpriteFrame : GraphicsManager :=
  { exampleTextManager with
    m_sprites := [(7, Sprite.draw exampleTrig (spriteAt 0 "a.png"))]
    m_glyphs := [(7, [recordedGlyph])] }

/-- The example carousel after two clicks on its next button: the current value is the
last one, C. -/
def carouselAtLast : Carousel :=
  (((exampleCarousel 0).componentEvent 1 2).1.componentEvent 1 2).1

/-- A selected text box with the text abc and the cursor behind its last character, whose
maximum character count is then set to 2. -/
def shortenedTextBox : TextBox :=
  ((((TextBox.default.init exampleWindow ⟨1 / 4, 1 / 2, 0⟩ ⟨1 / 2, 1 / 10⟩ "box.png" ""
    ⟨2, 1 / 20⟩ "cursor.png" "abc" (-1) "" .AC_ALIGN_TOP .AC_ALIGN_LEFT .AC_ALIGN_BOTTOM
    .AC_ALIGN_CENTER .AC_ALIGN_CENTER).setSelected true).setCursorPosition 3).2).setMaxCharacters
    2

/-- A selected text box with the text abc and the cursor behind its first character. -/
def cursorTextBox : TextBox :=
  { TextBox.default with m_selected := true, m_text := "abc", m_cursorPosition := 1 }

/-- A text area of 3 lines whose text a has a single line. -/
def shortTextArea : TextArea :=
  TextArea.default.init exampleWindow ⟨1 / 4, 1 / 2, 0⟩ ⟨1 / 2, 1 / 10⟩ 3 "area.png" ""
    ⟨2, 1 / 20⟩ "cursor.png" "a" (-1) "" .AC_ALIGN_TOP .AC_ALIGN_LEFT .AC_ALIGN_BOTTOM
    .AC_ALIGN_CENTER

/-- A glyph 2 wide and 3 high whose top is 2 above the baseline, so it reaches 1 below the
baseline. -/
def descenderGlyph : Glyph :=
  { toSprite := Sprite.default.init ⟨0, 0, 0⟩ ⟨2, 3⟩ "d@g", bearing := ⟨0, 2⟩, offset := 3 }

/-- The font built from the glyph with a descender, for the character g. -/
def descenderFont : Font := loadedFont [('g', descenderGlyph)]

/-- A manager that resolves the font file `d` to the font with a descender. -/
def descenderManager : GraphicsManager :=
  { exampleManager with m_fonts := fun f => if f = "d" then some descenderFont else none }

/-- The centred camera of the 800 by 600 window, shrinking with scale velocity -2. -/
def shrinkingCamera : Camera :=
  { centredCamera with scaleVelocity := -2 }

/-- A label at the normalized position (0, 0) with normalized dimensions (0.1, 0.1) in the
800 by 600 window: its pixel rect is (0, 0)-(80, 60). -/
def cornerLabel : Label :=
  Label.default.init exampleWindow ⟨0, 0, 0⟩ ⟨1 / 10, 1 / 10⟩ "" "" .AC_ALIGN_NONE
    .AC_ALIGN_NONE .AC_ALIGN_NONE

/-- Five calls on a group: the components at the addresses 1 and 2 are added, the first is
added again, then removed, then added once more. -/
def exampleGroupCalls : List GroupCall :=
  [.addComponent 1, .addComponent 2, .addComponent 1, .removeComponent 1, .addComponent 1]

/-- The example label initialized in binary32 arithmetic: normalized position (0.25, 0.5)
and normalized dimensions (0.5, 0.1f) in the 800 by 600 window. -/
def exampleLabelF : Label :=
  Label.default.initF float32 exampleWindow ⟨1 / 4, 1 / 2, 0⟩ ⟨1 / 2, float32 (1 / 10)⟩ "" ""
    .AC_ALIGN_NONE .AC_ALIGN_NONE .AC_ALIGN_NONE

/-- A group initialized for the example window that holds the component at address 1, the
example label initialized in binary32 arithmetic. -/
def exampleGroupRunF : GroupRun :=
  GroupRun.calls ⟨UIGroup.default.init exampleWindow 7 0 "font.ttf" 1 ⟨0, 0, 0, 1⟩,
    ⟨fun _ => exampleLabelF, []⟩, []⟩ [.addComponent 1]

/-- A glyph of 10 by 10 pixels with the bearing (8, 10) and the advance 12. -/
def bearingGlyph : Glyph :=
  { toSprite := Sprite.default.init ⟨0, 0, 0⟩ ⟨10, 10⟩ "w@a", bearing := ⟨8, 10⟩,
    offset := 12 }

/-- The font built from the glyph with the bearing (8, 10), for the character a. -/
def bearingFont : Font := loadedFont [('a', bearingGlyph)]

/-- A manager that resolves the font file `w` to the font of the glyph with the bearing
(8, 10). -/
def bearingManager : GraphicsManager :=
  { exampleManager with m_fonts := fun f => if f = "w" then some bearingFont else none }

/-- A box whose left edge is the float nearest to 20.9, 100 wide and 50 high. -/
def bearingBox : Vec4 := ⟨float32 (209 / 10), 0, 100, 50⟩

/-! # Theorems -/

/-! ## The stable sort -/

theorem stableInsert_perm {α : Type} (lt : α → α → Bool) (x : α) (l : List α) :
    (stableInsert lt x l).Perm (x :: l) := by
  induction l with
  | nil => simp [stableInsert]
  | cons y ys ih =>
    simp only [stableInsert]
    split
    · exact (ih.cons y).trans (List.Perm.swap x y ys)
    · exact List.Perm.refl _

theorem stable_sort_perm {α : Type} (lt : α → α → Bool) (l : List α) :
    (stable_sort lt l).Perm l := by
  induction l with
  | nil => simp [stable_sort]
  | cons x xs ih =>
    simp only [stable_sort]
    exact (stableInsert_perm lt x _).trans (ih.cons x)

theorem stable_sort_length {α : Type} (lt : α → α → Bool) (l : List α) :
    (stable_sort lt l).length = l.length :=
  (stable_sort_perm lt l).length_eq

/-! ## Counting draw calls -/

theorem drawCalls_append (a b : List GLCall) :
    drawCalls (a ++ b) = drawCalls a ++ drawCalls b := by
  induction a with
  | nil => rfl
  | cons c t ih => cases c <;> simp [drawCalls, ih]

theorem countRuns_cons_cons {κ : Type} [DecidableEq κ] (a b : κ) (t : List κ) :
    countRuns (a :: b :: t) = (if a = b then 0 else 1) + countRuns (b :: t) := rfl

theorem flushBatch_spec (st : BatchState) :
    (flushBatch st).cShader = st.cShader ∧ (flushBatch st).cTexture = st.cTexture
      ∧ (flushBatch st).count = 0
      ∧ (drawCalls (flushBatch st).calls).length
          = (drawCalls st.calls).length + (if 0 < st.count then 1 else 0) := by
  unfold flushBatch drawVertices
  split
  · simp [drawCalls_append, drawCalls]
  · rename_i h
    simp only [h, if_false, Nat.add_zero, and_true, true_and]
    omega

theorem changeShader_spec (st : BatchState) (shader : Nat) :
    (changeShader st shader).cShader = shader
      ∧ (changeShader st shader).cTexture = st.cTexture
      ∧ (changeShader st shader).count = (if st.cShader = shader then st.count else 0)
      ∧ (drawCalls (changeShader st shader).calls).length
          = (drawCalls st.calls).length
            + (if st.cShader ≠ shader ∧ 0 < st.count then 1 else 0) := by
  obtain ⟨h1, h2, h3, h4⟩ := flushBatch_spec st
  unfold changeShader
  by_cases h : st.cShader = shader
  · simp [h]
  · simp [h, h2, h3, h4, drawCalls_append, drawCalls]

theorem changeTexture_spec (st : BatchState) (texture : Nat) :
    (changeTexture st texture).cShader = st.cShader
      ∧ (changeTexture st texture).cTexture = texture
      ∧ (changeTexture st texture).count = (if st.cTexture = texture then st.count else 0)
      ∧ (drawCalls (changeTexture st texture).calls).length
          = (drawCalls st.calls).length
            + (if st.cTexture ≠ texture ∧ 0 < st.count then 1 else 0) := by
  obtain ⟨h1, h2, h3, h4⟩ := flushBatch_spec st
  unfold changeTexture
  by_cases h : st.cTexture = texture
  · simp [h]
  · simp [h, h1, h3, h4, drawCalls_append, drawCalls]

/-- One loop iteration: a draw call is issued exactly when the batch is started and the
key changes; afterwards the current key is the entry's key. -/
theorem endStep_spec (g : GraphicsManager) (st : BatchState) (p : Nat × Sprite) :
    ((endStep g st p).cShader, (endStep g st p).cTexture) = batchKey g p
      ∧ (endStep g st p).count
          = ((if (st.cShader, st.cTexture) = batchKey g p then st.count else 0) + 1)
              % UINT_MOD
      ∧ (drawCalls (endStep g st p).calls).length
          = (drawCalls st.calls).length
            + (if (st.cShader, st.cTexture) ≠ batchKey g p ∧ 0 < st.count then 1 else 0) := by
  obtain ⟨a1, a2, a3, a4⟩ := changeShader_spec st p.1
  obtain ⟨b1, b2, b3, b4⟩ :=
    changeTexture_spec (changeShader st p.1) (g.getTexture p.2.texture.fileName)
  simp only [endStep, appendQuad, batchKey, Prod.mk.injEq, ne_eq, not_and]
  rw [b1, b2, b3, b4, a1, a2, a3, a4]
  by_cases hs : st.cShader = p.1 <;>
    by_cases ht : st.cTexture = g.getTexture p.2.texture.fileName <;>
    by_cases hc : 0 < st.count <;> simp [hs, ht, hc]

/-- The loop from a started batch: one draw call per maximal run of equal keys, the run
of the current key included. -/
theorem foldl_endStep_draws (g : GraphicsManager) (l : List (Nat × Sprite)) :
    ∀ st : BatchState, 0 < st.count → st.count + l.length < UINT_MOD →
      (drawCalls (flushBatch (l.foldl (endStep g) st)).calls).length
        = (drawCalls st.calls).length
          + countRuns ((st.cShader, st.cTexture) :: l.map (batchKey g)) := by
  induction l with
  | nil =>
    intro st hpos _
    obtain ⟨-, -, -, h4⟩ := flushBatch_spec st
    simp [h4, hpos, countRuns]
  | cons p t ih =>
    intro st hpos hlen
    obtain ⟨e1, e2, e3⟩ := endStep_spec g st p
    simp only [List.length_cons] at hlen
    have hle : (if (st.cShader, st.cTexture) = batchKey g p then st.count else 0) ≤ st.count := by
      split <;> omega
    have hcount : (endStep g st p).count
        = (if (st.cShader, st.cTexture) = batchKey g p then st.count else 0) + 1 := by
      rw [e2]
      exact Nat.mod_eq_of_lt (by omega)
    have hkey : (endStep g st p).cShader = (batchKey g p).1
        ∧ (endStep g st p).cTexture = (batchKey g p).2 := by
      rw [← e1]
      exact ⟨rfl, rfl⟩
    have := ih (endStep g st p) (by omega) (by omega)
    simp only [List.foldl_cons, List.map_cons, countRuns_cons_cons]
    rw [this, e3, hkey.1, hkey.2]
    by_cases hk : (st.cShader, st.cTexture) = batchKey g p
    · simp [hk]
    · simp [hk, hpos]
      omega

theorem submit_m_textures {T : Type} (d : Drawable T) (g : GraphicsManager) (sprite : T)
    (shader : Nat) : (g.submit d sprite shader).m_textures = g.m_textures := by
  simp only [GraphicsManager.submit]
  split <;> rfl

theorem submitAll_m_textures {T : Type} (d : Drawable T) (sprites : List T) (shader : Nat) :
    ∀ g : GraphicsManager, (g.submitAll d sprites shader).m_textures = g.m_textures := by
  induction sprites with
  | nil => intro g; rfl
  | cons a t ih =>
    intro g
    simp only [GraphicsManager.submitAll, List.foldl_cons] at ih ⊢
    rw [ih, submit_m_textures]

theorem flushGlyphs_m_textures (g : GraphicsManager) :
    g.flushGlyphs.m_textures = g.m_textures := by
  unfold GraphicsManager.flushGlyphs
  generalize g.m_glyphs = m
  induction m generalizing g with
  | nil => rfl
  | cons a t ih =>
    simp only [List.foldl_cons]
    rw [ih, submitAll_m_textures]

theorem batchKey_flushGlyphs (g : GraphicsManager) :
    batchKey g.flushGlyphs = batchKey g := by
  funext p
  simp [batchKey, GraphicsManager.getTexture, flushGlyphs_m_textures]

/-- The draw calls of the batching loop: one per maximal run of equal keys. -/
theorem batchLoop_drawCalls_length (g : GraphicsManager) (sorted : List (Nat × Sprite))
    (hlen : sorted.length < UINT_MOD) :
    (drawCalls (batchLoop g sorted)).length = countRuns (sorted.map (batchKey g)) := by
  cases sorted with
  | nil => simp [batchLoop, drawCalls, countRuns]
  | cons front rest =>
    simp only [batchLoop, List.foldl_cons, List.length_cons] at hlen ⊢
    obtain ⟨e1, e2, e3⟩ := endStep_spec g
      { vertices := [], indices := [], count := 0, cShader := front.1,
        cTexture := g.getTexture front.2.texture.fileName,
        calls := [GLCall.bindVertexArray, GLCall.shaderBegin front.1,
          GLCall.bindTexture (g.getTexture front.2.texture.fileName)] } front
    have hk : (front.1, g.getTexture front.2.texture.fileName) = batchKey g front := rfl
    simp only [hk, if_true, Nat.zero_add] at e2 e3
    have hone : (1 : Nat) % UINT_MOD = 1 := by decide
    rw [hone] at e2
    rw [foldl_endStep_draws g rest _ (by omega) (by omega), e3]
    have hkey := e1
    simp only [Prod.ext_iff] at hkey
    rw [hkey.1, hkey.2]
    simp [drawCalls]

/-- The draw calls of `end`: one per maximal run of equal keys of the sorted list. -/
theorem end_drawCalls_length (g : GraphicsManager) (h : g.submission.length < UINT_MOD) :
    (drawCalls g.end_.2).length = countRuns (g.sortedSubmission.map (batchKey g)) := by
  have hlen : g.sortedSubmission.length < UINT_MOD := by
    unfold GraphicsManager.sortedSubmission
    rw [stable_sort_length]
    exact h
  rw [← batchKey_flushGlyphs]
  exact batchLoop_drawCalls_length g.flushGlyphs g.sortedSubmission hlen

theorem countRuns_all_eq {κ : Type} [DecidableEq κ] (a : κ) (l : List κ) (hne : l ≠ [])
    (hall : ∀ x ∈ l, x = a) : countRuns l = 1 := by
  induction l with
  | nil => exact absurd rfl hne
  | cons x t ih =>
    cases t with
    | nil => rfl
    | cons y t' =>
      have hx : x = a := hall x (by simp)
      have hy : y = a := hall y (by simp)
      rw [countRuns_cons_cons, ih (by simp) (fun z hz => hall z (List.mem_cons_of_mem _ hz))]
      simp [hx, hy]

theorem countRuns_two_blocks {κ : Type} [DecidableEq κ] (a b : κ) (hab : a ≠ b)
    (xs ys : List κ) (hxs : xs ≠ []) (hys : ys ≠ []) (hx : ∀ x ∈ xs, x = a)
    (hy : ∀ y ∈ ys, y = b) : countRuns (xs ++ ys) = 2 := by
  induction xs with
  | nil => exact absurd rfl hxs
  | cons x t ih =>
    have hxa : x = a := hx x (by simp)
    cases t with
    | nil =>
      cases ys with
      | nil => exact absurd rfl hys
      | cons y t' =>
        have hyb : y = b := hy y (by simp)
        have := countRuns_all_eq b (y :: t') (by simp) hy
        simp only [List.singleton_append, countRuns_cons_cons, this]
        simp [hxa, hyb, hab]
    | cons x' t' =>
      have hx'a : x' = a := hx x' (by simp)
      have := ih (by simp) (fun z hz => hx z (List.mem_cons_of_mem _ hz))
      simp only [List.cons_append, countRuns_cons_cons] at this ⊢
      rw [this]
      simp [hxa, hx'a]

/-- C1. With fewer than 2^32 submitted quads, `GraphicsManager::end` issues exactly as
many draw calls as the depth-sorted submission list has maximal contiguous runs of equal
(shader, texture handle). In particular a non-empty submission whose entries all share one
shader and one texture gives exactly 1 draw call, and a sorted list whose first `k` entries
(`0 < k < N`) use texture `t1` and whose other entries use another texture `t2` with the
same shader gives exactly 2. -/
theorem end_draw_call_count (g : GraphicsManager) (hsize : g.submission.length < UINT_MOD) :
    (drawCalls g.end_.2).length = countRuns (g.sortedSubmission.map (batchKey g))
      ∧ (∀ shader texture : Nat, g.submission ≠ [] →
          (∀ p ∈ g.submission, batchKey g p = (shader, texture)) →
          (drawCalls g.end_.2).length = 1)
      ∧ (∀ (shader t1 t2 k : Nat), 0 < k → k < g.sortedSubmission.length → t1 ≠ t2 →
          (∀ p ∈ g.sortedSubmission.take k, batchKey g p = (shader, t1)) →
          (∀ p ∈ g.sortedSubmission.drop k, batchKey g p = (shader, t2)) →
          (drawCalls g.end_.2).length = 2) := by
  have hmain := end_drawCalls_length g hsize
  refine ⟨hmain, ?_, ?_⟩
  · intro shader texture hne hall
    rw [hmain]
    have hperm : g.sortedSubmission.Perm g.submission := stable_sort_perm _ _
    apply countRuns_all_eq (shader, texture)
    · intro hnil
      have hl := hperm.length_eq
      rw [List.map_eq_nil_iff] at hnil
      rw [hnil] at hl
      exact hne (List.length_eq_zero.mp hl.symm)
    · intro x hx
      obtain ⟨p, hp, rfl⟩ := List.mem_map.mp hx
      exact hall p (hperm.mem_iff.mp hp)
  · intro shader t1 t2 k hk0 hkN ht h1 h2
    rw [hmain, ← List.take_append_drop k g.sortedSubmission, List.map_append]
    apply countRuns_two_blocks (shader, t1) (shader, t2)
    · intro h
      exact ht (Prod.ext_iff.mp h).2
    · intro hnil
      rw [List.map_eq_nil_iff, List.take_eq_nil_iff] at hnil
      rcases hnil with h | h
      · omega
      · rw [h] at hkN
        simp at hkN
    · intro hnil
      rw [List.map_eq_nil_iff, List.drop_eq_nil_iff] at hnil
      omega
    · intro x hx
      obtain ⟨p, hp, rfl⟩ := List.mem_map.mp hx
      exact h1 p hp
    · intro x hx
      obtain ⟨p, hp, rfl⟩ := List.mem_map.mp hx
      exact h2 p hp

theorem end_draw_call_count_witness :
    exampleFrame.submission.length < UINT_MOD
      ∧ (drawCalls exampleFrame.end_.2).length = 2 :=
  ⟨by decide,
   (end_draw_call_count exampleFrame (by decide)).2.2 7 1 2 2 (by decide) (by decide)
     (by decide) (by decide) (by decide)⟩

/-! ## Stability of the depth sort -/

theorem stableInsert_filter {α : Type} (key : α → ℚ) (lt : α → α → Bool)
    (hlt : ∀ a b, lt a b = decide (key a < key b)) (d : ℚ) (x : α) (l : List α) :
    (stableInsert lt x l).filter (fun a => decide (key a = d))
      = (x :: l).filter (fun a => decide (key a = d)) := by
  induction l with
  | nil => simp [stableInsert]
  | cons y ys ih =>
    simp only [stableInsert]
    by_cases h : lt y x = true
    · rw [if_pos h, List.filter_cons, ih]
      rw [hlt] at h
      have hne : key y ≠ key x := ne_of_lt (of_decide_eq_true h)
      by_cases hy : key y = d
      · have hx : key x ≠ d := fun hx => hne (hy.trans hx.symm)
        simp [List.filter_cons, hy, hx]
      · simp [List.filter_cons, hy]
    · rw [if_neg h]

/-- The sort is stable: the entries of any one depth keep their order. -/
theorem stable_sort_filter {α : Type} (key : α → ℚ) (lt : α → α → Bool)
    (hlt : ∀ a b, lt a b = decide (key a < key b)) (d : ℚ) (l : List α) :
    (stable_sort lt l).filter (fun a => decide (key a = d))
      = l.filter (fun a => decide (key a = d)) := by
  induction l with
  | nil => rfl
  | cons x xs ih =>
    simp only [stable_sort]
    rw [stableInsert_filter key lt hlt, List.filter_cons, List.filter_cons, ih]

theorem stableInsert_sorted {α : Type} (key : α → ℚ) (lt : α → α → Bool)
    (hlt : ∀ a b, lt a b = decide (key a < key b)) (x : α) (l : List α)
    (hl : l.Pairwise (fun a b => key a ≤ key b)) :
    (stableInsert lt x l).Pairwise (fun a b => key a ≤ key b) := by
  induction l with
  | nil => simp [stableInsert]
  | cons y ys ih =>
    simp only [stableInsert]
    rw [List.pairwise_cons] at hl
    by_cases h : lt y x = true
    · rw [if_pos h, List.pairwise_cons]
      rw [hlt] at h
      refine ⟨?_, ih hl.2⟩
      intro z hz
      rcases List.mem_cons.mp ((stableInsert_perm lt x ys).mem_iff.mp hz) with rfl | hz'
      · exact le_of_lt (of_decide_eq_true h)
      · exact hl.1 z hz'
    · rw [if_neg h, List.pairwise_cons, List.pairwise_cons]
      rw [hlt] at h
      have hxy : key x ≤ key y := not_lt.mp (fun hh => h (decide_eq_true hh))
      refine ⟨?_, hl⟩
      intro z hz
      rcases List.mem_cons.mp hz with rfl | hz'
      · exact hxy
      · exact le_trans hxy (hl.1 z hz')

/-- The result of the sort is in ascending key order. -/
theorem stable_sort_sorted {α : Type} (key : α → ℚ) (lt : α → α → Bool)
    (hlt : ∀ a b, lt a b = decide (key a < key b)) (l : List α) :
    (stable_sort lt l).Pairwise (fun a b => key a ≤ key b) := by
  induction l with
  | nil => simp [stable_sort]
  | cons x xs ih =>
    simp only [stable_sort]
    exact stableInsert_sorted key lt hlt x _ ih

theorem pair_sublist_split {α : Type} (a b : α) (l : List α) (h : [a, b].Sublist l) :
    ∃ p m q, l = p ++ a :: (m ++ b :: q) := by
  induction l with
  | nil => cases h
  | cons x t ih =>
    cases h with
    | cons _ h' =>
      obtain ⟨p, m, q, hp⟩ := ih h'
      exact ⟨x :: p, m, q, by rw [hp]; rfl⟩
    | cons₂ _ h' =>
      obtain ⟨m, q, hm⟩ := List.append_of_mem (List.singleton_sublist.mp h')
      exact ⟨[], m, q, by rw [hm]; rfl⟩

/-! ## The emitted vertex data -/

theorem emittedVertices_append (a b : List GLCall) :
    emittedVertices (a ++ b) = emittedVertices a ++ emittedVertices b := by
  simp [emittedVertices, drawCalls_append]

theorem verticesOf_append (a b : List (Nat × Sprite)) :
    verticesOf (a ++ b) = verticesOf a ++ verticesOf b := by
  simp [verticesOf]

theorem verticesOf_cons (p : Nat × Sprite) (l : List (Nat × Sprite)) :
    verticesOf (p :: l) = p.2.m_vertices ++ verticesOf l := by
  simp [verticesOf]

/-- A flush neither loses nor reorders vertex data: emitted plus pending stays the same. -/
theorem flushBatch_vertices (st : BatchState) :
    emittedVertices (flushBatch st).calls ++ (flushBatch st).vertices
      = emittedVertices st.calls ++ st.vertices := by
  unfold flushBatch drawVertices
  split
  · simp [emittedVertices, drawCalls_append, drawCalls]
  · rfl

theorem changeShader_vertices (st : BatchState) (shader : Nat) :
    emittedVertices (changeShader st shader).calls ++ (changeShader st shader).vertices
      = emittedVertices st.calls ++ st.vertices := by
  have h := flushBatch_vertices st
  unfold changeShader
  split
  · simp only [emittedVertices_append]
    have h0 : emittedVertices [GLCall.shaderEnd st.cShader, GLCall.shaderBegin shader] = [] := rfl
    rw [h0, List.append_nil]
    exact h
  · rfl

theorem changeTexture_vertices (st : BatchState) (texture : Nat) :
    emittedVertices (changeTexture st texture).calls ++ (changeTexture st texture).vertices
      = emittedVertices st.calls ++ st.vertices := by
  have h := flushBatch_vertices st
  unfold changeTexture
  split
  · simp only [emittedVertices_append]
    have h0 : emittedVertices [GLCall.bindTexture texture] = [] := rfl
    rw [h0, List.append_nil]
    exact h
  · rfl

theorem endStep_vertices (g : GraphicsManager) (st : BatchState) (p : Nat × Sprite) :
    emittedVertices (endStep g st p).calls ++ (endStep g st p).vertices
      = emittedVertices st.calls ++ st.vertices ++ p.2.m_vertices := by
  have h1 := changeShader_vertices st p.1
  have h2 := changeTexture_vertices (changeShader st p.1)
    (g.getTexture p.2.texture.fileName)
  simp only [endStep, appendQuad]
  rw [← List.append_assoc, h2, h1]

/-- The loop and the final flush emit the pending vertices and then the vertices of the
remaining entries, in list order. -/
theorem foldl_endStep_vertices (g : GraphicsManager) (l : List (Nat × Sprite)) :
    ∀ st : BatchState, st.count + l.length < UINT_MOD → (st.count = 0 → st.vertices = []) →
      emittedVertices (flushBatch (l.foldl (endStep g) st)).calls
        = emittedVertices st.calls ++ st.vertices ++ verticesOf l := by
  induction l with
  | nil =>
    intro st _ h0
    simp only [List.foldl_nil, verticesOf, List.map_nil, List.flatten_nil, List.append_nil]
    unfold flushBatch drawVertices
    split
    · simp [emittedVertices, drawCalls_append, drawCalls]
    · rename_i hc
      rw [h0 (by omega), List.append_nil]
  | cons p t ih =>
    intro st hlen _
    obtain ⟨-, e2, -⟩ := endStep_spec g st p
    simp only [List.length_cons] at hlen
    have hle : (if (st.cShader, st.cTexture) = batchKey g p then st.count else 0) ≤ st.count := by
      split <;> omega
    have hcount : (endStep g st p).count
        = (if (st.cShader, st.cTexture) = batchKey g p then st.count else 0) + 1 := by
      rw [e2]
      exact Nat.mod_eq_of_lt (by omega)
    simp only [List.foldl_cons]
    rw [ih (endStep g st p) (by omega) (fun h => by omega), endStep_vertices,
      verticesOf_cons, List.append_assoc]

/-- The vertex data emitted by the batching loop is the vertex data of the sorted entries
in sorted order. -/
theorem batchLoop_vertices (g : GraphicsManager) (sorted : List (Nat × Sprite))
    (hlen : sorted.length < UINT_MOD) :
    emittedVertices (batchLoop g sorted) = verticesOf sorted := by
  cases sorted with
  | nil => rfl
  | cons front rest =>
    simp only [batchLoop]
    rw [foldl_endStep_vertices g (front :: rest) _ (by simpa using hlen) (fun _ => rfl)]
    simp [emittedVertices, drawCalls]

theorem compareSpriteDepth_key (a b : Nat × Sprite) :
    CompareSpriteDepth a b = decide (a.2.position.z < b.2.position.z) := rfl

/-- C2. The depth sort of `GraphicsManager::end` is stable and the vertex data is emitted
in sorted order: with fewer than 2^32 submitted quads, the sorted list is in ascending depth
order, the entries of each depth keep their submission order, the emitted vertex data is
the vertex data of the sorted entries in order, and for two entries `A`, `B` of equal
`position.z` submitted in the order `A` then `B` the vertices of `A` precede the vertices of
`B` in the emitted vertex data. -/
theorem end_depth_sort_stable (g : GraphicsManager) (hsize : g.submission.length < UINT_MOD) :
    g.sortedSubmission.Pairwise (fun a b => a.2.position.z ≤ b.2.position.z)
      ∧ (∀ d : ℚ, g.sortedSubmission.filter (fun p => decide (p.2.position.z = d))
            = g.submission.filter (fun p => decide (p.2.position.z = d)))
      ∧ emittedVertices g.end_.2 = verticesOf g.sortedSubmission
      ∧ (∀ (A B : Nat × Sprite) (pre mid post : List (Nat × Sprite)),
          g.submission = pre ++ A :: (mid ++ B :: post) →
          A.2.position.z = B.2.position.z →
          ∃ pre' mid' post' : List (Nat × Sprite),
            g.sortedSubmission = pre' ++ A :: (mid' ++ B :: post')
              ∧ emittedVertices g.end_.2
                  = verticesOf pre' ++ (A.2.m_vertices
                      ++ (verticesOf mid' ++ (B.2.m_vertices ++ verticesOf post')))) := by
  have hsorted := stable_sort_sorted (fun p : Nat × Sprite => p.2.position.z)
    CompareSpriteDepth compareSpriteDepth_key g.submission
  have hstable := fun d => stable_sort_filter (fun p : Nat × Sprite => p.2.position.z)
    CompareSpriteDepth compareSpriteDepth_key d g.submission
  have hem : emittedVertices g.end_.2 = verticesOf g.sortedSubmission :=
    batchLoop_vertices g.flushGlyphs g.sortedSubmission
      (by unfold GraphicsManager.sortedSubmission; rw [stable_sort_length]; exact hsize)
  refine ⟨hsorted, hstable, hem, ?_⟩
  intro A B pre mid post hsub hz
  have hsl : [A, B].Sublist g.sortedSubmission := by
    have h1 : [A, B].Sublist
        (g.submission.filter (fun p => decide (p.2.position.z = A.2.position.z))) := by
      rw [hsub]
      simp only [List.filter_append, List.filter_cons, hz, decide_True, if_true]
      have hB : [B].Sublist
          (List.filter (fun p => decide (p.2.position.z = B.2.position.z)) mid
            ++ B :: List.filter (fun p => decide (p.2.position.z = B.2.position.z)) post) :=
        List.singleton_sublist.mpr (by simp)
      exact (hB.cons₂ A).trans (List.sublist_append_right _ _)
    have h2 := hstable A.2.position.z
    unfold GraphicsManager.sortedSubmission
    rw [← h2] at h1
    exact h1.trans (List.filter_sublist _)
  obtain ⟨p, m, q, hpq⟩ := pair_sublist_split A B _ hsl
  refine ⟨p, m, q, hpq, ?_⟩
  rw [hem, hpq]
  simp [verticesOf_append, verticesOf_cons]

theorem end_depth_sort_stable_witness :
    depthFrame.submission.length < UINT_MOD
      ∧ ∃ pre' mid' post' : List (Nat × Sprite),
          depthFrame.sortedSubmission
            = pre' ++ (7, Sprite.draw exampleTrig (spriteAtX 0 1 "a.png"))
                :: (mid' ++ (7, Sprite.draw exampleTrig (spriteAtX 4 1 "b.png")) :: post')
            ∧ emittedVertices depthFrame.end_.2
                = verticesOf pre'
                  ++ ((Sprite.draw exampleTrig (spriteAtX 0 1 "a.png")).m_vertices
                    ++ (verticesOf mid'
                      ++ ((Sprite.draw exampleTrig (spriteAtX 4 1 "b.png")).m_vertices
                        ++ verticesOf post'))) :=
  ⟨by decide,
   (end_depth_sort_stable depthFrame (by decide)).2.2.2
     (7, Sprite.draw exampleTrig (spriteAtX 0 1 "a.png"))
     (7, Sprite.draw exampleTrig (spriteAtX 4 1 "b.png"))
     [] [(7, Sprite.draw exampleTrig (spriteAtX 2 0 "a.png"))] [] rfl rfl⟩

/-! ## Submitting a sprite -/

theorem vertexData_length (p : Vec3) (u v : ℚ) (color : Vec4) (mode : ℚ) :
    (vertexData p u v color mode).length = 10 := rfl

theorem Sprite.draw_vertices_length (trig : Trig) (s : Sprite) :
    (Sprite.draw trig s).m_vertices.length = 40 := by
  unfold Sprite.draw
  cases hh : s.reflectHorizontal <;> cases hv : s.reflectVertical <;>
    simp [vertexData_length]

/-- C3, the claim as stated fails: a sprite with an empty texture file name and alpha 0 is
recorded by `submit` like any other sprite. -/
theorem submit_transparent_sprite_recorded :
    transparentSprite.texture.fileName = "" ∧ transparentSprite.color.w = 0
      ∧ (exampleManager.submit (Sprite.drawable exampleTrig) transparentSprite 7).m_sprites
          = [(7, Sprite.draw exampleTrig transparentSprite)]
      ∧ (exampleManager.submit (Sprite.drawable exampleTrig) transparentSprite 7).m_sprites
          ≠ exampleManager.m_sprites := by
  refine ⟨rfl, rfl, rfl, ?_⟩
  intro h
  have := congrArg List.length h
  revert this
  decide

/-- C3, amended. `Sprite::draw` always fills the vertex buffer with 40 floats, whatever
the texture file name and colour are, so `submit(sprite, shader)` appends exactly one entry
for every `Sprite`; for any sprite type, `submit` adds no entry exactly when `draw()` leaves
the vertex buffer empty. -/
theorem submit_records_every_sprite (trig : Trig) (g : GraphicsManager) (sprite : Sprite)
    (shader : Nat) :
    (Sprite.draw trig sprite).m_vertices.length = 40
      ∧ (g.submit (Sprite.drawable trig) sprite shader).m_sprites
          = g.m_sprites ++ [(shader, Sprite.draw trig sprite)]
      ∧ (∀ (T : Type) (d : Drawable T) (x : T),
          (g.submit d x shader).m_sprites = g.m_sprites
            ↔ (d.toSprite (d.draw x)).m_vertices = []) := by
  have h40 := Sprite.draw_vertices_length trig sprite
  refine ⟨h40, ?_, ?_⟩
  · have hne : (Sprite.draw trig sprite).m_vertices.isEmpty = false := by
      cases hv : (Sprite.draw trig sprite).m_vertices with
      | nil => rw [hv] at h40; cases h40
      | cons a t => rfl
    simp [GraphicsManager.submit, Sprite.drawable, hne]
  · intro T d x
    simp only [GraphicsManager.submit]
    cases hv : (d.toSprite (d.draw x)).m_vertices with
    | nil => simp
    | cons a t => simp

/-! ## The text submit -/

theorem mapGet_mapSet_self {β : Type} (k : Nat) (v : List β) (m : List (Nat × List β)) :
    mapGet k (mapSet k v m) = v := by
  induction m with
  | nil => simp [mapSet, mapGet, List.lookup]
  | cons a t ih =>
    obtain ⟨k', v'⟩ := a
    simp only [mapSet]
    by_cases h1 : k < k'
    · simp [h1, mapGet, List.lookup]
    · by_cases h2 : k = k'
      · simp [h2, mapGet, List.lookup]
      · have hne : (k == k') = false := by simpa using h2
        simp only [h1, h2, if_false]
        simp only [mapGet, List.lookup, hne] at ih ⊢
        exact ih

theorem Camera.integrate_zero (c : Camera) :
    c.integrate 0 = { c with scale := if c.scale < 0 then 0 else c.scale } := by
  obtain ⟨⟨px, py, pz⟩, v, sc, sv, m, pp, ps, pw⟩ := c
  simp [Camera.integrate]

theorem Camera.integrate_zero_of_nonneg (c : Camera) (h : 0 ≤ c.scale) :
    c.integrate 0 = c := by
  rw [Camera.integrate_zero, if_neg (not_lt.mpr h)]

theorem Camera.integrate_zero_scale_nonneg (c : Camera) : 0 ≤ (c.integrate 0).scale := by
  rw [Camera.integrate_zero]
  show (0 : ℚ) ≤ if c.scale < 0 then 0 else c.scale
  split
  · exact le_refl 0
  · rename_i h
    exact not_lt.mp h

theorem Camera.refresh_scale (c : Camera) (wd : IVec2) : (c.refresh wd).scale = c.scale := rfl

theorem Camera.refresh_changed (c : Camera) (wd : IVec2) :
    (c.refresh wd).changed wd = false := by
  simp [Camera.changed, Camera.refresh]

/-- A camera that is clean (nothing changed since the last recomputation) and has a
non-negative scale is left as it is by `update(0)`. -/
theorem Camera.update_zero_of_clean (c : Camera) (wd : IVec2) (h1 : 0 ≤ c.scale)
    (h2 : c.changed wd = false) : c.update wd 0 = c := by
  unfold Camera.update
  simp only [Camera.integrate_zero_of_nonneg c h1, h2, Bool.false_eq_true, if_false]

/-- C5. `Camera::update(0)` is idempotent for a fixed window size: a second call right
after the first leaves position, scale, projection matrix and the previous-position,
previous-scale and previous-window fields as the first call left them. -/
theorem Camera.update_zero_idempotent (c : Camera) (wd : IVec2) :
    (c.update wd 0).update wd 0 = c.update wd 0 := by
  have hnn := Camera.integrate_zero_scale_nonneg c
  cases hch : (c.integrate 0).changed wd with
  | false =>
    have hu : c.update wd 0 = c.integrate 0 := by
      unfold Camera.update
      simp only [hch, Bool.false_eq_true, if_false]
    rw [hu]
    exact Camera.update_zero_of_clean _ wd hnn hch
  | true =>
    have hu : c.update wd 0 = (c.integrate 0).refresh wd := by
      unfold Camera.update
      simp only [hch, if_true]
    rw [hu]
    exact Camera.update_zero_of_clean _ wd
      (by rw [Camera.refresh_scale]; exact hnn) (Camera.refresh_changed _ wd)

/-! ## The text box -/

theorem toSizeT_of_range (m : Int) (h0 : 0 ≤ m) (h1 : m ≤ INT_MAX) :
    toSizeT m = m.toNat := by
  unfold toSizeT
  unfold INT_MAX at h1
  rw [Int.emod_eq_of_lt h0 (by omega)]

/-- C6. For a text box whose maximum character count is an `int` value, and a string `s`
whose length is within that maximum (any `s` when the maximum is -1), `getText()` after
`setText(s)` returns exactly `s`. -/
theorem TextBox.setText_getText (tb : TextBox) (s : String)
    (hint : tb.m_maxCharacters ≤ INT_MAX)
    (hlen : tb.m_maxCharacters = -1 ∨ (s.length : Int) ≤ tb.m_maxCharacters) :
    (tb.setText s).getText = s := by
  have hcond : ¬ (s.length > toSizeT tb.m_maxCharacters ∧ tb.m_maxCharacters > 0) := by
    rintro ⟨h1, h2⟩
    rcases hlen with h | h
    · omega
    · rw [toSizeT_of_range _ (le_of_lt h2) hint] at h1
      omega
  simp only [TextBox.setText, hcond, if_false, TextBox.getText]

theorem TextBox.setText_getText_witness :
    exampleTextBox.m_maxCharacters ≤ INT_MAX
      ∧ (exampleTextBox.m_maxCharacters = -1
          ∨ (("xy".length : Nat) : Int) ≤ exampleTextBox.m_maxCharacters)
      ∧ (exampleTextBox.setText "xy").getText = "xy" :=
  ⟨by decide, Or.inr (by decide),
    TextBox.setText_getText exampleTextBox "xy" (by decide) (Or.inr (by decide))⟩

/-- C7, the claim as stated fails: in a selected text box whose text `abc` is longer than
its maximum of 2 characters, typing the disallowed character `y` cuts the text to `ab`. -/
theorem TextBox.charTyped_disallowed_truncates :
    exampleTextBox.m_allowedCharacters = "x" ∧ 'y' ∉ exampleTextBox.m_allowedCharacters.data
      ∧ exampleTextBox.getText = "abc"
      ∧ (exampleTextBox.charTyped 'y').getText = "ab" := by
  decide

/-- C7, amended. For a text box with a non-empty allowed-character set and a character `c`
not in that set, `charTyped(c)` leaves `getText()` unchanged unless the box is selected and
its text is longer than a positive maximum character count; in that case the text is cut to
its first `m_maxCharacters` characters. -/
theorem TextBox.charTyped_disallowed (tb : TextBox) (c : Char)
    (hint : tb.m_maxCharacters ≤ INT_MAX)
    (hne : tb.m_allowedCharacters.data ≠ [])
    (hc : c ∉ tb.m_allowedCharacters.data) :
    (¬ (tb.m_selected = true ∧ 0 < tb.m_maxCharacters
          ∧ tb.m_maxCharacters < (tb.m_text.length : Int)) →
        (tb.charTyped c).getText = tb.getText)
      ∧ (tb.m_selected = true ∧ 0 < tb.m_maxCharacters
          ∧ tb.m_maxCharacters < (tb.m_text.length : Int) →
        (tb.charTyped c).getText = String.mk (tb.m_text.data.take tb.m_maxCharacters.toNat)) := by
  have hany : tb.m_allowedCharacters.data.any (fun x => x == c) = false := by
    rw [List.any_eq_false]
    intro x hx hxc
    have : x = c := by simpa using hxc
    exact hc (this ▸ hx)
  have hemp : tb.m_allowedCharacters.data.isEmpty = false := by
    cases h : tb.m_allowedCharacters.data with
    | nil => exact absurd h hne
    | cons a t => rfl
  have hlength : tb.m_text.length = tb.m_text.data.length := rfl
  constructor
  · intro hlen
    unfold TextBox.charTyped TextBox.getText
    cases hsel : tb.m_selected
    · simp
    · simp only [Bool.not_true, Bool.false_eq_true, if_false]
      by_cases hfull : tb.m_text.length ≥ toSizeT tb.m_maxCharacters ∧ tb.m_maxCharacters > 0
      · rw [if_pos hfull]
        obtain ⟨h1, h2⟩ := hfull
        rw [toSizeT_of_range _ (le_of_lt h2) hint] at h1 ⊢
        have hle : (tb.m_text.length : Int) ≤ tb.m_maxCharacters := by
          by_contra hgt
          exact hlen ⟨hsel, h2, not_le.mp hgt⟩
        have heq : tb.m_maxCharacters.toNat = tb.m_text.data.length := by omega
        show stringResize tb.m_text tb.m_maxCharacters.toNat = tb.m_text
        unfold stringResize
        rw [heq, List.take_length, Nat.sub_self]
        simp
      · rw [if_neg hfull]
        simp [hany, hemp]
  · rintro ⟨hsel, hpos, hlong⟩
    have hfull : tb.m_text.length ≥ toSizeT tb.m_maxCharacters ∧ tb.m_maxCharacters > 0 := by
      rw [toSizeT_of_range _ (le_of_lt hpos) hint]
      exact ⟨by omega, hpos⟩
    unfold TextBox.charTyped TextBox.getText
    simp only [hsel, Bool.not_true, Bool.false_eq_true, if_false, if_pos hfull]
    rw [toSizeT_of_range _ (le_of_lt hpos) hint]
    show stringResize tb.m_text tb.m_maxCharacters.toNat = _
    unfold stringResize
    have hz : tb.m_maxCharacters.toNat - tb.m_text.data.length = 0 := by omega
    rw [hz]
    simp

theorem TextBox.charTyped_disallowed_witness :
    exampleTextBox.m_maxCharacters ≤ INT_MAX
      ∧ exampleTextBox.m_allowedCharacters.data ≠ []
      ∧ 'y' ∉ exampleTextBox.m_allowedCharacters.data
      ∧ ((exampleTextBox.setText "ab").charTyped 'y').getText
          = (exampleTextBox.setText "ab").getText
      ∧ (exampleTextBox.charTyped 'y').getText
          = String.mk (exampleTextBox.m_text.data.take exampleTextBox.m_maxCharacters.toNat) :=
  ⟨by decide, by decide, by decide,
    (TextBox.charTyped_disallowed (exampleTextBox.setText "ab") 'y' (by decide) (by decide)
      (by decide)).1 (by decide),
    (TextBox.charTyped_disallowed exampleTextBox 'y' (by decide) (by decide)
      (by decide)).2 (by decide)⟩

/-! ## The carousel -/

theorem toUnsigned_natCast (n : Nat) (h : n < UINT_MOD) : toUnsigned (n : Int) = n := by
  unfold toUnsigned
  unfold UINT_MOD at h
  rw [Int.emod_eq_of_lt (by omega) (by omega)]
  simp

/-- C8. For a carousel with `n` values, `0 < n ≤ 2^32`, a current index `i < n` and
distinct button IDs, a `ClickedEvent` from the previous button sets the index to
`(i + n - 1) mod n` and one from the next button sets it to `(i + 1) mod n`, each sending
one `ValueSetEvent` to the parent. -/
theorem Carousel.componentEvent_wraps (c : Carousel) (prevID nextID : Int)
    (hprev : toUnsigned prevID = c.m_prevButton.getID)
    (hnext : toUnsigned nextID = c.m_nextButton.getID)
    (hids : c.m_prevButton.getID ≠ c.m_nextButton.getID)
    (hn0 : 0 < c.m_values.length) (hn : c.m_values.length ≤ UINT_MOD)
    (hi : c.m_valueIndex < c.m_values.length) :
    (c.componentEvent prevID Button.ClickedEvent).1.m_valueIndex
        = (c.m_valueIndex + c.m_values.length - 1) % c.m_values.length
      ∧ (c.componentEvent nextID Button.ClickedEvent).1.m_valueIndex
        = (c.m_valueIndex + 1) % c.m_values.length
      ∧ (c.componentEvent prevID Button.ClickedEvent).2 = [⟨c.m_ID, Carousel.ValueSetEvent⟩]
      ∧ (c.componentEvent nextID Button.ClickedEvent).2
          = [⟨c.m_ID, Carousel.ValueSetEvent⟩] := by
  have hclick : toUnsigned ((Button.ClickedEvent : Nat) : Int) = Button.ClickedEvent := by
    decide
  have hnp : toUnsigned nextID ≠ c.m_prevButton.getID := by
    rw [hnext]
    exact fun h => hids h.symm
  have hset : ∀ k, (c.setValueIndex k).m_valueIndex = k := fun _ => rfl
  have hprevEq : (c.componentEvent prevID Button.ClickedEvent)
      = (if c.m_valueIndex ≥ 1 then
            c.setValueIndex ((c.m_valueIndex + UINT_MOD - 1) % UINT_MOD)
          else c.setValueIndex ((c.m_values.length % UINT_MOD + UINT_MOD - 1) % UINT_MOD),
         [⟨c.m_ID, Carousel.ValueSetEvent⟩]) := by
    simp only [Carousel.componentEvent, hprev, hclick, if_true]
  have hnextEq : (c.componentEvent nextID Button.ClickedEvent)
      = (c.setValueIndex (((c.m_valueIndex + 1) % UINT_MOD % c.m_values.length) % UINT_MOD),
         [⟨c.m_ID, Carousel.ValueSetEvent⟩]) := by
    unfold Carousel.componentEvent
    rw [if_neg hnp, if_pos hnext, if_pos hclick]
  rw [hprevEq, hnextEq]
  refine ⟨?_, ?_, rfl, rfl⟩
  · show (if c.m_valueIndex ≥ 1 then _ else _ : Carousel).m_valueIndex = _
    by_cases h1 : c.m_valueIndex ≥ 1
    · rw [if_pos h1, hset]
      generalize c.m_values.length = n at *
      generalize c.m_valueIndex = i at *
      have e1 : i + UINT_MOD - 1 = (i - 1) + UINT_MOD := by omega
      have e2 : i + n - 1 = (i - 1) + n := by omega
      rw [e1, e2, Nat.add_mod_right, Nat.add_mod_right, Nat.mod_eq_of_lt (by omega),
        Nat.mod_eq_of_lt (by omega)]
    · rw [if_neg h1, hset]
      have h0 : c.m_valueIndex = 0 := by omega
      rw [h0, Nat.zero_add]
      generalize c.m_values.length = n at *
      rw [Nat.mod_eq_of_lt (show n - 1 < n by omega)]
      rcases Nat.lt_or_eq_of_le hn with hlt | heq
      · have e1 : n % UINT_MOD + UINT_MOD - 1 = (n - 1) + UINT_MOD := by
          rw [Nat.mod_eq_of_lt hlt]
          omega
        rw [e1, Nat.add_mod_right, Nat.mod_eq_of_lt (by omega)]
      · subst heq
        decide
  · show (c.setValueIndex _).m_valueIndex = _
    rw [hset]
    generalize c.m_values.length = n at *
    generalize c.m_valueIndex = i at *
    have hlt : (i + 1) % UINT_MOD % n < UINT_MOD :=
      lt_of_lt_of_le (Nat.mod_lt _ hn0) hn
    rw [Nat.mod_eq_of_lt hlt]
    rcases Nat.lt_or_eq_of_le (show i + 1 ≤ UINT_MOD by omega) with h | h
    · rw [Nat.mod_eq_of_lt h]
    · have hlen : n = UINT_MOD := by omega
      rw [h, hlen, Nat.mod_self, Nat.zero_mod]

/-- The example of C8: with the values A, B, C, previous from index 0 gives 2 and next
from index 2 gives 0. -/
theorem Carousel.componentEvent_wraps_witness :
    ((exampleCarousel 0).componentEvent 0 Button.ClickedEvent).1.m_valueIndex = 2
      ∧ ((exampleCarousel 2).componentEvent 1 Button.ClickedEvent).1.m_valueIndex = 0 :=
  ⟨(Carousel.componentEvent_wraps (exampleCarousel 0) 0 1 (by decide) (by decide)
      (by decide) (by decide) (by decide) (by decide)).1,
   (Carousel.componentEvent_wraps (exampleCarousel 2) 0 1 (by decide) (by decide)
      (by decide) (by decide) (by decide) (by decide)).2.1⟩

/-! ## The list box -/

theorem Switch.setOn_isOn (sw : Switch) (b : Bool) : (sw.setOn b).isOn = b := rfl

theorem ListBox.componentEvent_isOn (lb : ListBox) (cID eID : Int) :
    (lb.componentEvent cID eID).1.m_elements.map Switch.isOn
      = lb.m_elements.map (fun e => decide (toUnsigned cID = e.getID)) := by
  simp only [ListBox.componentEvent, List.map_map]
  apply List.map_congr_left
  intro e _
  by_cases h : toUnsigned cID = e.getID
  · simp [h, Switch.setOn_isOn]
  · simp [h, Switch.setOn_isOn]

theorem count_true_range_indicator (k n : Nat) :
    ((List.range n).map (fun i => decide (i = k))).count true = if k < n then 1 else 0 := by
  induction n with
  | zero => simp
  | succ n ih =>
    rw [List.range_succ, List.map_append, List.count_append, ih]
    by_cases h1 : k < n
    · have h2 : ¬ n = k := by omega
      simp [h1, h2, Nat.lt_succ_of_lt h1]
    · by_cases h2 : n = k
      · subst h2
        simp
      · have h3 : ¬ k < n + 1 := by omega
        simp [h1, h2, h3]

/-- C9, the claim as stated fails: after `addValue("d", 0)` on a list box with the rows
a, b, c the new row is at index 0 with ID 3, the list has 4 > 2 elements, and
`componentEvent(2, OnEvent)` switches on the row at index 3 (the row with ID 2), not the
row at index 2. -/
theorem ListBox.componentEvent_index_counterexample :
    exampleListBoxInserted.m_elements.length = 4
      ∧ exampleListBoxInserted.m_elements.map (fun e => e.m_ID) = [3, 0, 1, 2]
      ∧ (exampleListBoxInserted.componentEvent 2 Switch.OnEvent).1.m_elements.map Switch.isOn
          = [false, false, false, true] := by
  decide

/-- C9, amended. After `componentEvent(cID, eID)` an element of a list box reports
`isOn() == true` exactly when its ID equals `cID`, whatever its index. For a list box of at
most 2^32 elements whose IDs equal their indices (as after `init` followed by appending
`addValue` calls only) and `0 ≤ cID <` number of elements, exactly one element is on
and it is the one at index `cID`. One `ValueSetEvent` is sent to the parent. -/
theorem ListBox.componentEvent_selects_by_id (lb : ListBox) (cID eID : Int) :
    (lb.componentEvent cID eID).1.m_elements.map Switch.isOn
        = lb.m_elements.map (fun e => decide (toUnsigned cID = e.getID))
      ∧ (lb.componentEvent cID eID).2 = [⟨lb.m_ID, ListBox.ValueSetEvent⟩]
      ∧ (lb.m_elements.length ≤ UINT_MOD →
          lb.m_elements.map (fun e => e.m_ID)
            = (List.range lb.m_elements.length).map (fun i : Nat => (i : Int)) →
          0 ≤ cID → cID < lb.m_elements.length →
          (lb.componentEvent cID eID).1.m_elements.map Switch.isOn
              = (List.range lb.m_elements.length).map (fun i => decide (i = cID.toNat))
            ∧ ((lb.componentEvent cID eID).1.m_elements.map Switch.isOn).count true = 1) := by
  have hmain := ListBox.componentEvent_isOn lb cID eID
  refine ⟨hmain, rfl, ?_⟩
  intro hlen hids h0 hlt
  have hstep : (lb.componentEvent cID eID).1.m_elements.map Switch.isOn
      = (List.range lb.m_elements.length).map (fun i => decide (i = cID.toNat)) := by
    rw [hmain]
    have h1 : lb.m_elements.map (fun e => decide (toUnsigned cID = e.getID))
        = (lb.m_elements.map (fun e => e.m_ID)).map
            (fun id => decide (toUnsigned cID = toUnsigned id)) := by
      rw [List.map_map]
      rfl
    rw [h1, hids, List.map_map]
    apply List.map_congr_left
    intro i hi
    have hi' : i < lb.m_elements.length := List.mem_range.mp hi
    have hc : toUnsigned cID = cID.toNat := by
      obtain ⟨k, hk⟩ := Int.eq_ofNat_of_zero_le h0
      have hk' : k < UINT_MOD := by omega
      rw [hk, toUnsigned_natCast k hk']
      simp
    simp only [Function.comp, hc, toUnsigned_natCast i (by omega)]
    by_cases h : i = cID.toNat
    · simp [h]
    · have h' : ¬ cID.toNat = i := fun hh => h hh.symm
      simp [h, h']
  refine ⟨hstep, ?_⟩
  rw [hstep, count_true_range_indicator]
  have : cID.toNat < lb.m_elements.length := by omega
  simp [this]

theorem ListBox.componentEvent_selects_by_id_witness :
    (exampleListBox.componentEvent 2 Switch.OnEvent).1.m_elements.map Switch.isOn
        = (List.range exampleListBox.m_elements.length).map (fun i => decide (i = (2 : Int).toNat))
      ∧ ((exampleListBox.componentEvent 2 Switch.OnEvent).1.m_elements.map
          Switch.isOn).count true = 1 :=
  (ListBox.componentEvent_selects_by_id exampleListBox 2 Switch.OnEvent).2.2 (by decide)
    (by decide) (by decide) (by decide)

/-! ## Mouse hit test -/

/-- For non-zero window dimensions and a non-zero camera scale, `MouseOver` on a label is
true exactly when the camera-space mouse position lies in the label's pixel-space
rectangle, all four edges and corners included: `x ≤ mx ≤ x + w` and `y ≤ my ≤ y + h`. -/
theorem MouseOver_label_nonzero_scale (mouse : Vec2) (camera : Camera) (wd : IVec2)
    (l : Label) (hx : wd.x ≠ 0) (hy : wd.y ≠ 0) (hs : camera.scale ≠ 0) :
    getMousePosition mouse camera wd
        = ⟨.finite ((mouse.x - (wd.x : ℚ) / 2) / camera.scale + camera.position.x),
            .finite ((mouse.y - (wd.y : ℚ) / 2) / camera.scale + camera.position.y)⟩
      ∧ (MouseOver Label.ops mouse camera wd l = true
        ↔ (l.m_background.position.x
              ≤ (mouse.x - (wd.x : ℚ) / 2) / camera.scale + camera.position.x
            ∧ (mouse.x - (wd.x : ℚ) / 2) / camera.scale + camera.position.x
                ≤ l.m_background.position.x + l.m_background.dimensions.x
            ∧ l.m_background.position.y
                ≤ (mouse.y - (wd.y : ℚ) / 2) / camera.scale + camera.position.y
            ∧ (mouse.y - (wd.y : ℚ) / 2) / camera.scale + camera.position.y
                ≤ l.m_background.position.y + l.m_background.dimensions.y)) := by
  have hx' : (wd.x : ℚ) ≠ 0 := Int.cast_ne_zero.mpr hx
  have hy' : (wd.y : ℚ) ≠ 0 := Int.cast_ne_zero.mpr hy
  have hmp : getMousePosition mouse camera wd
      = ⟨.finite ((mouse.x - (wd.x : ℚ) / 2) / camera.scale + camera.position.x),
          .finite ((mouse.y - (wd.y : ℚ) / 2) / camera.scale + camera.position.y)⟩ := by
    simp [getMousePosition, FloatValue.div, FloatValue.add, hs]
  refine ⟨hmp, ?_⟩
  simp only [MouseOver, Label.ops, Label.getPosition, Label.getDimensions,
    div_mul_cancel₀ _ hx', div_mul_cancel₀ _ hy', hmp, FloatValue.lt, FloatValue.gt]
  generalize (mouse.x - (wd.x : ℚ) / 2) / camera.scale + camera.position.x = mx
  generalize (mouse.y - (wd.y : ℚ) / 2) / camera.scale + camera.position.y = my
  by_cases h1 : mx < l.m_background.position.x
  · simp [h1, not_le.mpr h1]
  · by_cases h2 : mx > l.m_background.position.x + l.m_background.dimensions.x
    · simp [h1, h2, not_le.mpr h2]
    · by_cases h3 : my < l.m_background.position.y
      · simp [h1, h2, h3, not_le.mpr h3]
      · by_cases h4 : my > l.m_background.position.y + l.m_background.dimensions.y
        · simp [h1, h2, h3, h4, not_le.mpr h4]
        · simp only [h1, h2, h3, h4, decide_False, Bool.or_self, Bool.false_eq_true,
            if_false, true_iff]
          exact ⟨not_lt.mp h1, not_lt.mp h2, not_lt.mp h3, not_lt.mp h4⟩

/-- C10. The example camera with scale velocity -2 has scale 0 after `Camera::update(1)`;
with the mouse at the centre (400, 300) of the 800x600 window the camera-space mouse
position is then (NaN, NaN), and `MouseOver` is true for the label whose pixel rect is
(0, 0)-(80, 60), although before that update, at scale 1, the camera-space mouse position
(400, 300) is outside that rect and `MouseOver` is false. -/
theorem MouseOver_zero_scale :
    (shrinkingCamera.update exampleWindow 1).scale = 0
      ∧ (shrinkingCamera.update exampleWindow 1).position = ⟨400, 300, 0⟩
      ∧ getMousePosition ⟨400, 300⟩ (shrinkingCamera.update exampleWindow 1) exampleWindow
          = ⟨.nan, .nan⟩
      ∧ cornerLabel.m_background.position = ⟨0, 0, 0⟩
      ∧ cornerLabel.m_background.dimensions = ⟨80, 60⟩
      ∧ MouseOver Label.ops ⟨400, 300⟩ (shrinkingCamera.update exampleWindow 1)
          exampleWindow cornerLabel = true
      ∧ getMousePosition ⟨400, 300⟩ shrinkingCamera exampleWindow
          = ⟨.finite 400, .finite 300⟩
      ∧ MouseOver Label.ops ⟨400, 300⟩ shrinkingCamera exampleWindow cornerLabel
          = false := by
  have hc : (shrinkingCamera.update exampleWindow 1).scale = 0
      ∧ (shrinkingCamera.update exampleWindow 1).position = ⟨400, 300, 0⟩ := by
    unfold Camera.update
    dsimp only
    split <;>
      norm_num [Camera.refresh, Camera.updateMatrix, Camera.integrate, shrinkingCamera,
        centredCamera, exampleWindow]
  have hwx : ((exampleWindow.x : ℤ) : ℚ) = 800 := by norm_num [exampleWindow]
  have hwy : ((exampleWindow.y : ℤ) : ℚ) = 600 := by norm_num [exampleWindow]
  have hl : cornerLabel.m_background.position = ⟨0, 0, 0⟩
      ∧ cornerLabel.m_background.dimensions = ⟨80, 60⟩ := by
    constructor <;>
      norm_num [cornerLabel, exampleWindow, Label.init, Label.setPosition,
        Label.setDimensions, Label.default, Sprite.init, Sprite.default]
  refine ⟨hc.1, hc.2, ?_, hl.1, hl.2, ?_, ?_, ?_⟩
  · simp only [getMousePosition, FloatValue.div, hc.1, hwx, hwy]
    norm_num [FloatValue.add]
  · simp only [MouseOver, getMousePosition, FloatValue.div, hc.1, hwx, hwy]
    norm_num [FloatValue.add, FloatValue.lt, FloatValue.gt]
  · norm_num [getMousePosition, FloatValue.div, FloatValue.add, shrinkingCamera,
      centredCamera, exampleWindow]
  · norm_num [MouseOver, Label.ops, Label.getPosition, Label.getDimensions,
      getMousePosition, FloatValue.div, FloatValue.add, FloatValue.lt, FloatValue.gt,
      shrinkingCamera, centredCamera, exampleWindow, hl.1, hl.2]

/-! ## The end-to-end hit test scenario -/

/-- C11, the claim as stated fails: the label's pixel rect is 400 wide, so it reaches to
x = 600 and `MouseOver` is true, not false, for the mouse at pixel (401, 359). -/
theorem MouseOver_scenario_counterexample :
    exampleLabel.m_background.dimensions.x = 400
      ∧ MouseOver Label.ops ⟨401, 359⟩ centredCamera exampleWindow exampleLabel = true := by
  constructor
  · norm_num [exampleLabel, exampleWindow, Label.init, Label.setPosition,
      Label.setDimensions, Label.default, Sprite.init, Sprite.default]
  · norm_num [MouseOver, Label.ops, Label.getPosition, Label.getDimensions,
      getMousePosition, FloatValue.div, FloatValue.add, FloatValue.lt,
      FloatValue.gt, centredCamera, exampleWindow, exampleLabel, Label.init,
      Label.setPosition, Label.setDimensions, Label.default, Sprite.init, Sprite.default]

/-- C11, amended. With a window of 800x600 and a label at normalized position (0.25, 0.5)
with normalized dimensions (0.5, 0.1), the label's pixel rect has origin (200, 300) and size
400 by 60, so it spans (200, 300)-(600, 360); with the camera centred on the window at
scale 1, `MouseOver` is true for the mouse at pixel (399, 359) and at (401, 359), and false
at (601, 359). -/
theorem MouseOver_scenario :
    exampleLabel.m_background.position = ⟨200, 300, 0⟩
      ∧ exampleLabel.m_background.dimensions = ⟨400, 60⟩
      ∧ MouseOver Label.ops ⟨399, 359⟩ centredCamera exampleWindow exampleLabel = true
      ∧ MouseOver Label.ops ⟨401, 359⟩ centredCamera exampleWindow exampleLabel = true
      ∧ MouseOver Label.ops ⟨601, 359⟩ centredCamera exampleWindow exampleLabel = false := by
  refine ⟨?_, ?_, ?_, ?_, ?_⟩
  · norm_num [exampleLabel, exampleWindow, Label.init, Label.setPosition,
      Label.setDimensions, Label.default, Sprite.init, Sprite.default]
  · norm_num [exampleLabel, exampleWindow, Label.init, Label.setPosition,
      Label.setDimensions, Label.default, Sprite.init, Sprite.default]
  · norm_num [MouseOver, Label.ops, Label.getPosition, Label.getDimensions,
      getMousePosition, FloatValue.div, FloatValue.add, FloatValue.lt,
      FloatValue.gt, centredCamera, exampleWindow, exampleLabel, Label.init,
      Label.setPosition, Label.setDimensions, Label.default, Sprite.init, Sprite.default]
  · norm_num [MouseOver, Label.ops, Label.getPosition, Label.getDimensions,
      getMousePosition, FloatValue.div, FloatValue.add, FloatValue.lt,
      FloatValue.gt, centredCamera, exampleWindow, exampleLabel, Label.init,
      Label.setPosition, Label.setDimensions, Label.default, Sprite.init, Sprite.default]
  · norm_num [MouseOver, Label.ops, Label.getPosition, Label.getDimensions,
      getMousePosition, FloatValue.div, FloatValue.add, FloatValue.lt,
      FloatValue.gt, centredCamera, exampleWindow, exampleLabel, Label.init,
      Label.setPosition, Label.setDimensions, Label.default, Sprite.init, Sprite.default]

/-! ## The update loop of a frame -/

/-- The loop makes `k` unit updates, `k` at most the number of updates still allowed; it
stops before the cap only when at most one unit of time is left. -/
theorem App.updateLoop_spec (MaxUpdatesPerFrame : Nat) (m : Nat) :
    ∀ (dt : ℚ) (updates : Nat) (calls : List ℚ), updates + m = MaxUpdatesPerFrame →
      ∃ k : Nat, k ≤ m
        ∧ App.updateLoop MaxUpdatesPerFrame dt updates calls
            = (calls ++ List.replicate k 1, dt - k)
        ∧ (k < m → dt - k ≤ 1) ∧ (0 < k → 1 < dt) := by
  induction m with
  | zero =>
    intro dt updates calls h
    refine ⟨0, le_refl 0, ?_, fun h0 => absurd h0 (lt_irrefl 0), fun h0 => absurd h0 (lt_irrefl 0)⟩
    rw [App.updateLoop]
    have : ¬ (dt > 1 ∧ updates < MaxUpdatesPerFrame) := by
      rintro ⟨_, h2⟩
      omega
    simp [this]
  | succ m ih =>
    intro dt updates calls h
    by_cases hc : dt > 1 ∧ updates < MaxUpdatesPerFrame
    · obtain ⟨k, hk, heq, hstop, _⟩ := ih (dt - 1) (updates + 1) (calls ++ [1]) (by omega)
      refine ⟨k + 1, by omega, ?_, ?_, fun _ => hc.1⟩
      · rw [App.updateLoop, if_pos hc, heq]
        simp only [List.append_assoc, List.singleton_append, Prod.mk.injEq]
        constructor
        · rw [List.replicate_succ]
        · push_cast
          ring
      · intro hlt
        have := hstop (by omega)
        push_cast
        linarith
    · refine ⟨0, Nat.zero_le _, ?_, ?_, fun h0 => absurd h0 (lt_irrefl 0)⟩
      · rw [App.updateLoop, if_neg hc]
        simp
      · intro _
        have hlt : updates < MaxUpdatesPerFrame := by omega
        have : ¬ dt > 1 := fun hd => hc ⟨hd, hlt⟩
        simpa using not_lt.mp this

theorem sum_replicate_one (k : Nat) : (List.replicate k (1 : ℚ)).sum = k := by
  induction k with
  | zero => simp
  | succ k ih =>
    rw [List.replicate_succ, List.sum_cons, ih]
    push_cast
    ring

/-- The frame of the scenario: target 60, cap 10, half a second elapsed. -/
theorem App.frameUpdates_scenario :
    App.frameUpdates 60 10 (1 / 2) = List.replicate 10 1 ++ [20] := by
  obtain ⟨k, hk, heq, hstop, _⟩ := App.updateLoop_spec 10 10 (1 / 2 * 60) 0 [] (by omega)
  have hk10 : k = 10 := by
    by_contra hne
    have hlt : k < 10 := by omega
    have h1 := hstop hlt
    have h2 : (k : ℚ) ≤ 9 := by exact_mod_cast (show k ≤ 9 by omega)
    linarith
  subst hk10
  simp only [App.frameUpdates, heq]
  norm_num

/-- C12, the claim as stated fails: for target 60, cap 10 and 0.5 s elapsed the final
update is passed the remaining 20 units, so the updates of the frame receive 30 units in
total, more than `MaxUpdatesPerFrame + 1 = 11`. -/
theorem App.frameUpdates_debt_not_dropped :
    (20 : ℚ) ∈ App.frameUpdates 60 10 (1 / 2)
      ∧ (App.frameUpdates 60 10 (1 / 2)).sum = 30
      ∧ ¬ (App.frameUpdates 60 10 (1 / 2)).sum ≤ ((10 : Nat) : ℚ) + 1 := by
  rw [App.frameUpdates_scenario]
  refine ⟨by simp, ?_, ?_⟩
  · rw [List.sum_append, sum_replicate_one]
    norm_num
  · rw [List.sum_append, sum_replicate_one]
    norm_num

/-- C12, amended. In one frame of `App::Run` with `dt = elapsed * TargetUpdatesPerSecond`
the loop makes `k` calls `update(1.0)` with `k` at most `MaxUpdatesPerFrame`, stopping
before the cap only when at most one unit is left, and then one final update that is passed
all the remaining time `dt - k`: the updates of a frame receive `dt` in total, nothing is
dropped. For target 60, cap 10 and 0.5 s elapsed there are exactly 10 calls `update(1.0)`
and the final update is passed the remaining 20 units. -/
theorem App.frameUpdates_spec (TargetUpdatesPerSecond : ℚ) (MaxUpdatesPerFrame : Nat)
    (elapsed : ℚ) :
    (∃ k : Nat, k ≤ MaxUpdatesPerFrame
        ∧ App.frameUpdates TargetUpdatesPerSecond MaxUpdatesPerFrame elapsed
            = List.replicate k 1 ++ [elapsed * TargetUpdatesPerSecond - k]
        ∧ (k < MaxUpdatesPerFrame → elapsed * TargetUpdatesPerSecond - k ≤ 1)
        ∧ (0 < k → 1 < elapsed * TargetUpdatesPerSecond))
      ∧ (App.frameUpdates TargetUpdatesPerSecond MaxUpdatesPerFrame elapsed).sum
          = elapsed * TargetUpdatesPerSecond
      ∧ App.frameUpdates 60 10 (1 / 2) = List.replicate 10 1 ++ [20] := by
  obtain ⟨k, hk, heq, hstop, hpos⟩ := App.updateLoop_spec MaxUpdatesPerFrame
    MaxUpdatesPerFrame (elapsed * TargetUpdatesPerSecond) 0 [] (by omega)
  have hfu : App.frameUpdates TargetUpdatesPerSecond MaxUpdatesPerFrame elapsed
      = List.replicate k 1 ++ [elapsed * TargetUpdatesPerSecond - k] := by
    simp only [App.frameUpdates, heq, List.nil_append]
  refine ⟨⟨k, hk, hfu, hstop, hpos⟩, ?_, App.frameUpdates_scenario⟩
  rw [hfu, List.sum_append, sum_replicate_one]
  simp

/-! ## Enabled and visible -/

/-- C13, the claim as stated fails: `setVisible(false)` followed by `setEnabled(true)`
leaves a component hidden and enabled. -/
theorem UIComponent.hidden_enabled_reachable :
    (UIComponent.default.calls [.setVisible false, .setEnabled true]).isVisible = false
      ∧ (UIComponent.default.calls [.setVisible false, .setEnabled true]).isEnabled = true := by
  decide

/-- A setter call other than `setEnabled(true)` on a hidden component leaves a component in
which hidden implies disabled. -/
theorem UIComponent.call_preserves (c : UIComponent) (call : ComponentCall)
    (hcall : call = .setEnabled true → c.m_visible = true) :
    (c.call call).m_visible = false → (c.call call).m_enabled = false := by
  cases call with
  | setEnabled enabled =>
    cases enabled with
    | false => intro _; rfl
    | true =>
      intro hv
      have hvis := hcall rfl
      simp [UIComponent.call, UIComponent.setEnabled] at hv
      rw [hvis] at hv
      cases hv
  | setVisible visible =>
    cases visible <;> simp [UIComponent.call, UIComponent.setVisible, UIComponent.setEnabled]

/-- C13, amended. `setVisible(false)` leaves a component hidden and disabled, and in every
state reached from a state in which hidden implies disabled (such as the initial visible,
enabled state) through `setEnabled` and `setVisible` calls of which no `setEnabled(true)` is
made while the component is hidden, `isVisible() == false` implies `isEnabled() == false`.
`UIGroup::processInput` dispatches only to enabled components. -/
theorem UIComponent.hidden_implies_disabled (c : UIComponent) (l : List ComponentCall)
    (hinv : c.isVisible = false → c.isEnabled = false)
    (hguard : c.enablesOnlyVisible l) :
    ((c.calls l).isVisible = false → (c.calls l).isEnabled = false)
      ∧ ((c.setVisible false).isVisible = false ∧ (c.setVisible false).isEnabled = false)
      ∧ (∀ (g : UIGroup) (w : UIWorld) (a : Nat), a ∈ g.processInput w →
          (w.components a).m_enabled = true) := by
  refine ⟨?_, ⟨rfl, rfl⟩, ?_⟩
  · induction l generalizing c with
    | nil => exact hinv
    | cons call rest ih =>
      obtain ⟨h1, h2⟩ := hguard
      exact ih (c.call call) (UIComponent.call_preserves c call h1) h2
  · intro g w a ha
    unfold UIGroup.processInput at ha
    split at ha
    · exact (List.mem_filter.mp ha).2
    · cases ha

theorem UIComponent.hidden_implies_disabled_witness :
    (UIComponent.default.calls
        [.setVisible false, .setEnabled false, .setVisible true, .setEnabled true,
          .setVisible false]).isVisible = false
      ∧ (UIComponent.default.calls
        [.setVisible false, .setEnabled false, .setVisible true, .setEnabled true,
          .setVisible false]).isEnabled = false :=
  ⟨by decide,
    (UIComponent.hidden_implies_disabled UIComponent.default
      [.setVisible false, .setEnabled false, .setVisible true, .setEnabled true,
        .setVisible false]
      (by decide)
      (by simp [UIComponent.enablesOnlyVisible, UIComponent.call, UIComponent.setVisible,
        UIComponent.setEnabled, UIComponent.default])).1 (by decide)⟩

/-! ## Component IDs of a group -/

/-- The invariant of a group run: the counter is the number of IDs given out, the IDs given
out are 0, 1, 2, ... in order, and the IDs of the components in the group increase strictly
along the list and are below the counter. -/
theorem GroupRun.call_keeps_ids (r : GroupRun) (call : GroupCall)
    (h1 : r.group.m_nextID = r.assigned.length)
    (h2 : r.assigned = (List.range r.assigned.length).map (fun k : Nat => (k : Int)))
    (h3 : (r.group.componentIDs r.world).Pairwise (fun a b => a < b))
    (h4 : ∀ id ∈ r.group.componentIDs r.world, id < r.group.m_nextID) :
    (r.call call).group.m_nextID = (r.call call).assigned.length
      ∧ (r.call call).assigned
          = (List.range (r.call call).assigned.length).map (fun k : Nat => (k : Int))
      ∧ ((r.call call).group.componentIDs (r.call call).world).Pairwise (fun a b => a < b)
      ∧ (∀ id ∈ (r.call call).group.componentIDs (r.call call).world,
          id < (r.call call).group.m_nextID) := by
  cases call with
  | addComponent a =>
    by_cases hmem : a ∈ r.group.m_components
    · have hcall : r.call (.addComponent a) = r := by
        simp [GroupRun.call, UIGroup.addComponent, hmem]
      rw [hcall]
      exact ⟨h1, h2, h3, h4⟩
    · have hcomp : ∀ b, b ≠ a →
          ((r.call (.addComponent a)).world.components b).m_ID = (r.world.components b).m_ID := by
        intro b hb
        simp only [GroupRun.call, UIGroup.addComponent, hmem, if_false]
        split
        · simp only [UIWorld.addListener, UIWorld.setComponent]
          split <;> simp [hb]
        · simp [UIWorld.setComponent, hb]
      have hnew : ((r.call (.addComponent a)).world.components a).m_ID = r.group.m_nextID := by
        simp only [GroupRun.call, UIGroup.addComponent, hmem, if_false]
        split
        · simp only [UIWorld.addListener, UIWorld.setComponent]
          split <;> simp
        · simp [UIWorld.setComponent]
      have hlist : (r.call (.addComponent a)).group.m_components = r.group.m_components ++ [a] := by
        simp [GroupRun.call, UIGroup.addComponent, hmem]
      have hnext : (r.call (.addComponent a)).group.m_nextID = r.group.m_nextID + 1 := by
        simp [GroupRun.call, UIGroup.addComponent, hmem]
      have hass : (r.call (.addComponent a)).assigned = r.assigned ++ [r.group.m_nextID] := by
        have := hnew
        simp only [GroupRun.call, UIGroup.addComponent, hmem, if_false] at this ⊢
        simp [this]
      have hids : (r.call (.addComponent a)).group.componentIDs (r.call (.addComponent a)).world
          = r.group.componentIDs r.world ++ [r.group.m_nextID] := by
        unfold UIGroup.componentIDs
        rw [hlist, List.map_append, List.map_singleton, hnew]
        congr 1
        apply List.map_congr_left
        intro b hb
        exact hcomp b (fun hba => hmem (hba ▸ hb))
      refine ⟨?_, ?_, ?_, ?_⟩
      · rw [hnext, hass, h1]
        simp
      · rw [hass, List.length_append, List.length_singleton, List.range_succ, List.map_append,
          ← h2, h1]
        simp
      · rw [hids, List.pairwise_append]
        refine ⟨h3, List.pairwise_singleton _ _, ?_⟩
        intro x hx y hy
        rw [List.mem_singleton] at hy
        rw [hy]
        exact h4 x hx
      · intro id hid
        rw [hids, List.mem_append, List.mem_singleton] at hid
        rw [hnext]
        rcases hid with h | h
        · have := h4 id h
          omega
        · omega
  | removeComponent a =>
    by_cases hmem : a ∈ r.group.m_components
    · have hlist : (r.call (.removeComponent a)).group.m_components
          = r.group.m_components.erase a := by
        simp [GroupRun.call, UIGroup.removeComponent, hmem]
      have hcomp : (r.call (.removeComponent a)).world.components = r.world.components := by
        simp only [GroupRun.call, UIGroup.removeComponent, hmem, if_true]
        split <;> rfl
      have hnext : (r.call (.removeComponent a)).group.m_nextID = r.group.m_nextID := by
        simp [GroupRun.call, UIGroup.removeComponent, hmem]
      have hass : (r.call (.removeComponent a)).assigned = r.assigned := rfl
      have hsub : ((r.call (.removeComponent a)).group.componentIDs
            (r.call (.removeComponent a)).world).Sublist (r.group.componentIDs r.world) := by
        unfold UIGroup.componentIDs
        rw [hlist, hcomp]
        exact (List.erase_sublist a _).map _
      refine ⟨by rw [hnext, hass]; exact h1, by rw [hass]; exact h2, h3.sublist hsub, ?_⟩
      intro id hid
      rw [hnext]
      exact h4 id (hsub.subset hid)
    · have hcall : r.call (.removeComponent a) = r := by
        simp [GroupRun.call, UIGroup.removeComponent, hmem]
      rw [hcall]
      exact ⟨h1, h2, h3, h4⟩

theorem GroupRun.calls_invariant (l : List GroupCall) :
    ∀ r : GroupRun, r.group.m_nextID = r.assigned.length →
      r.assigned = (List.range r.assigned.length).map (fun k : Nat => (k : Int)) →
      (r.group.componentIDs r.world).Pairwise (fun a b => a < b) →
      (∀ id ∈ r.group.componentIDs r.world, id < r.group.m_nextID) →
      (r.calls l).group.m_nextID = (r.calls l).assigned.length
        ∧ (r.calls l).assigned
            = (List.range (r.calls l).assigned.length).map (fun k : Nat => (k : Int))
        ∧ ((r.calls l).group.componentIDs (r.calls l).world).Pairwise (fun a b => a < b)
        ∧ (∀ id ∈ (r.calls l).group.componentIDs (r.calls l).world,
            id < (r.calls l).group.m_nextID) := by
  induction l with
  | nil => intro r h1 h2 h3 h4; exact ⟨h1, h2, h3, h4⟩
  | cons call rest ih =>
    intro r h1 h2 h3 h4
    obtain ⟨a1, a2, a3, a4⟩ := GroupRun.call_keeps_ids r call h1 h2 h3 h4
    exact ih (r.call call) a1 a2 a3 a4

/-- A call gives out at most one ID. -/
theorem GroupRun.call_assigned_length (r : GroupRun) (call : GroupCall) :
    (r.call call).assigned.length ≤ r.assigned.length + 1 := by
  cases call with
  | addComponent a =>
    simp only [GroupRun.call]
    split <;> simp
  | removeComponent a => simp [GroupRun.call]

/-- A sequence of calls gives out at most as many IDs as it has calls. -/
theorem GroupRun.calls_assigned_length (l : List GroupCall) :
    ∀ r : GroupRun, (r.calls l).assigned.length ≤ r.assigned.length + l.length := by
  induction l with
  | nil => intro r; simp [GroupRun.calls]
  | cons call rest ih =>
    intro r
    have h1 := ih (r.call call)
    have h2 := GroupRun.call_assigned_length r call
    simp only [GroupRun.calls, List.foldl_cons, List.length_cons] at h1 ⊢
    omega

/-- C14. After `UIGroup::init` and any sequence of at most 2^31 - 1 `addComponent` and
`removeComponent` calls on the group (so that the `int` counter does not overflow), the IDs
of the components in the group increase strictly in list order (so they are pairwise
distinct), each is smaller than the next-ID counter, the k-th successful `addComponent`
(counting from 0) assigned ID k, the counter is the number of successful `addComponent`
calls and never left the `int` range, `addComponent` of a component already in the group
returns false and changes nothing, so it consumes no ID, and `addComponent` of a component
not in the group returns true, appends the component to the list, gives it the counter as
its ID and increments the counter. -/
theorem UIGroup.component_ids_invariant (wd : IVec2) (defaultShader : Nat) (g0 : UIGroup)
    (ID : Int) (fontFileName : String) (textScale : ℚ) (textColor : Vec4) (w0 : UIWorld)
    (l : List GroupCall) (hl : (l.length : Int) ≤ INT_MAX) (r : GroupRun)
    (hr : r = GroupRun.calls
      ⟨g0.init wd defaultShader ID fontFileName textScale textColor, w0, []⟩ l) :
    (r.group.componentIDs r.world).Pairwise (fun a b => a < b)
      ∧ (r.group.componentIDs r.world).Nodup
      ∧ (∀ id ∈ r.group.componentIDs r.world, id < r.group.m_nextID)
      ∧ r.assigned = (List.range r.assigned.length).map (fun k : Nat => (k : Int))
      ∧ r.group.m_nextID = r.assigned.length
      ∧ (∀ n : Nat,
          0 ≤ (GroupRun.calls
              ⟨g0.init wd defaultShader ID fontFileName textScale textColor, w0, []⟩
              (l.take n)).group.m_nextID
            ∧ (GroupRun.calls
              ⟨g0.init wd defaultShader ID fontFileName textScale textColor, w0, []⟩
              (l.take n)).group.m_nextID ≤ INT_MAX)
      ∧ (∀ (g : UIGroup) (w : UIWorld) (a : Nat), a ∈ g.m_components →
          g.addComponent w a = (false, g, w))
      ∧ (∀ (g : UIGroup) (w : UIWorld) (a : Nat), a ∉ g.m_components →
          g.m_nextID < INT_MAX →
          (g.addComponent w a).1 = true
            ∧ (g.addComponent w a).2.1.m_components = g.m_components ++ [a]
            ∧ ((g.addComponent w a).2.2.components a).m_ID = g.m_nextID
            ∧ (g.addComponent w a).2.1.m_nextID = g.m_nextID + 1) := by
  subst hr
  obtain ⟨h1, h2, h3, h4⟩ := GroupRun.calls_invariant l
    ⟨g0.init wd defaultShader ID fontFileName textScale textColor, w0, []⟩ rfl rfl
    (by simp [UIGroup.componentIDs, UIGroup.init])
    (by simp [UIGroup.componentIDs, UIGroup.init])
  refine ⟨h3, ?_, h4, h2, h1, ?_, ?_, ?_⟩
  · exact h3.imp (fun hab => ne_of_lt hab)
  · intro n
    obtain ⟨p1, -, -, -⟩ := GroupRun.calls_invariant (l.take n)
      ⟨g0.init wd defaultShader ID fontFileName textScale textColor, w0, []⟩ rfl rfl
      (by simp [UIGroup.componentIDs, UIGroup.init])
      (by simp [UIGroup.componentIDs, UIGroup.init])
    have p2 := GroupRun.calls_assigned_length (l.take n)
      ⟨g0.init wd defaultShader ID fontFileName textScale textColor, w0, []⟩
    have p3 : (l.take n).length ≤ l.length := by
      rw [List.length_take]
      exact Nat.min_le_right _ _
    rw [p1]
    simp only [List.length_nil, Nat.zero_add] at p2
    constructor
    · exact Int.natCast_nonneg _
    · have p4 : ((GroupRun.calls
          ⟨g0.init wd defaultShader ID fontFileName textScale textColor, w0, []⟩
          (l.take n)).assigned.length : Int) ≤ (l.length : Int) := by
        exact_mod_cast le_trans p2 p3
      exact le_trans p4 hl
  · intro g w a ha
    simp [UIGroup.addComponent, ha]
  · intro g w a ha _
    simp only [UIGroup.addComponent, ha, if_false]
    refine ⟨trivial, trivial, ?_, trivial⟩
    split
    · simp only [UIWorld.addListener, UIWorld.setComponent]
      split <;> simp
    · simp [UIWorld.setComponent]

theorem UIGroup.component_ids_invariant_witness :
    (exampleGroupCalls.length : Int) ≤ INT_MAX
      ∧ (GroupRun.calls
          ⟨UIGroup.default.init exampleWindow 7 0 "font.ttf" 1 ⟨0, 0, 0, 1⟩, exampleWorld, []⟩
          exampleGroupCalls).group.m_components = [2, 1]
      ∧ (GroupRun.calls
          ⟨UIGroup.default.init exampleWindow 7 0 "font.ttf" 1 ⟨0, 0, 0, 1⟩, exampleWorld, []⟩
          exampleGroupCalls).assigned = [0, 1, 2]
      ∧ ((GroupRun.calls
          ⟨UIGroup.default.init exampleWindow 7 0 "font.ttf" 1 ⟨0, 0, 0, 1⟩, exampleWorld, []⟩
          exampleGroupCalls).group.componentIDs
        (GroupRun.calls
          ⟨UIGroup.default.init exampleWindow 7 0 "font.ttf" 1 ⟨0, 0, 0, 1⟩, exampleWorld, []⟩
          exampleGroupCalls).world).Pairwise (fun a b => a < b) :=
  ⟨by decide, by decide, by decide,
    (UIGroup.component_ids_invariant exampleWindow 7 UIGroup.default 0 "font.ttf" 1
      ⟨0, 0, 0, 1⟩ exampleWorld exampleGroupCalls (by decide) _ rfl).1⟩

/-! ## Rescaling on a window resize -/

theorem UIGroup.rescale_components (wd : IVec2) (scale : Vec2) (l : List Nat) :
    ∀ w : UIWorld, l.Nodup → ∀ a,
      (UIGroup.rescale wd scale w l).components a
        = if a ∈ l then (w.components a).rescaled wd scale else w.components a := by
  induction l with
  | nil => intro w _ a; simp [UIGroup.rescale]
  | cons b rest ih =>
    intro w hnd a
    rw [List.nodup_cons] at hnd
    simp only [UIGroup.rescale]
    rw [ih _ hnd.2 a]
    by_cases hab : a = b
    · subst hab
      simp [hnd.1, UIWorld.setComponent]
    · by_cases har : a ∈ rest
      · simp [har, hab, UIWorld.setComponent]
      · simp [har, hab, UIWorld.setComponent]

/-- One component under the rescaling loop: the pixel rect is multiplied by the scale. -/
theorem Label.rescaled_background (wd : IVec2) (scale : Vec2) (c : Label) (hx : wd.x ≠ 0)
    (hy : wd.y ≠ 0) :
    (c.rescaled wd scale).m_background.position
        = ⟨c.m_background.position.x * scale.x, c.m_background.position.y * scale.y,
            c.m_background.position.z⟩
      ∧ (c.rescaled wd scale).m_background.dimensions
        = ⟨c.m_background.dimensions.x * scale.x, c.m_background.dimensions.y * scale.y⟩ := by
  have hx' : (wd.x : ℚ) ≠ 0 := Int.cast_ne_zero.mpr hx
  have hy' : (wd.y : ℚ) ≠ 0 := Int.cast_ne_zero.mpr hy
  constructor
  · simp only [Label.rescaled, Label.setPosition, Label.getPosition, Label.setDimensions,
      Label.getDimensions, Vec3.mk.injEq]
    refine ⟨?_, ?_, trivial⟩
    · field_simp
    · field_simp
  · simp only [Label.rescaled, Label.setPosition, Label.getPosition, Label.setDimensions,
      Label.getDimensions, Vec2.mk.injEq]
    constructor
    · field_simp
    · field_simp

/-- In exact arithmetic, for a label in a group (whose component list has no duplicates),
previous window dimensions (w0, h0) and new window dimensions (w1, h1), all non-zero: after
`UIGroup::update` the label's pixel position and dimensions are those before multiplied by
(w1/w0, h1/h0), the group records the new window dimensions, and `getPosition()` and
`getDimensions()` under the new window dimensions equal their values under the old window
dimensions before the update. -/
theorem UIGroup.update_rescales (g : UIGroup) (w : UIWorld) (wd : IVec2) (dt : ℚ) (a : Nat)
    (hmem : a ∈ g.m_components) (hnd : g.m_components.Nodup)
    (hw0 : g.m_prevWindowDimensions.x ≠ 0) (hh0 : g.m_prevWindowDimensions.y ≠ 0)
    (hw1 : wd.x ≠ 0) (hh1 : wd.y ≠ 0) :
    ((g.update wd w dt).2.components a).m_background.position
        = ⟨(w.components a).m_background.position.x
              * ((wd.x : ℚ) / g.m_prevWindowDimensions.x),
            (w.components a).m_background.position.y
              * ((wd.y : ℚ) / g.m_prevWindowDimensions.y),
            (w.components a).m_background.position.z⟩
      ∧ ((g.update wd w dt).2.components a).m_background.dimensions
        = ⟨(w.components a).m_background.dimensions.x
              * ((wd.x : ℚ) / g.m_prevWindowDimensions.x),
            (w.components a).m_background.dimensions.y
              * ((wd.y : ℚ) / g.m_prevWindowDimensions.y)⟩
      ∧ ((g.update wd w dt).2.components a).getPosition wd
        = (w.components a).getPosition g.m_prevWindowDimensions
      ∧ ((g.update wd w dt).2.components a).getDimensions wd
        = (w.components a).getDimensions g.m_prevWindowDimensions
      ∧ (g.update wd w dt).1.m_prevWindowDimensions = wd := by
  have hx0 : (g.m_prevWindowDimensions.x : ℚ) ≠ 0 := Int.cast_ne_zero.mpr hw0
  have hy0 : (g.m_prevWindowDimensions.y : ℚ) ≠ 0 := Int.cast_ne_zero.mpr hh0
  have hx1 : (wd.x : ℚ) ≠ 0 := Int.cast_ne_zero.mpr hw1
  have hy1 : (wd.y : ℚ) ≠ 0 := Int.cast_ne_zero.mpr hh1
  have hpos : ((g.update wd w dt).2.components a).m_background.position
        = ⟨(w.components a).m_background.position.x
              * ((wd.x : ℚ) / g.m_prevWindowDimensions.x),
            (w.components a).m_background.position.y
              * ((wd.y : ℚ) / g.m_prevWindowDimensions.y),
            (w.components a).m_background.position.z⟩
      ∧ ((g.update wd w dt).2.components a).m_background.dimensions
        = ⟨(w.components a).m_background.dimensions.x
              * ((wd.x : ℚ) / g.m_prevWindowDimensions.x),
            (w.components a).m_background.dimensions.y
              * ((wd.y : ℚ) / g.m_prevWindowDimensions.y)⟩ := by
    by_cases hch : g.m_prevWindowDimensions = wd
    · have hu : g.update wd w dt = (g, w) := by simp [UIGroup.update, hch]
      rw [hu, hch]
      simp only [div_self hx1, div_self hy1, mul_one]
      exact ⟨trivial, trivial⟩
    · have hu : (g.update wd w dt).2
          = UIGroup.rescale wd
              ⟨(wd.x : ℚ) / g.m_prevWindowDimensions.x, (wd.y : ℚ) / g.m_prevWindowDimensions.y⟩
              w g.m_components := by
        simp [UIGroup.update, hch]
      rw [hu, UIGroup.rescale_components wd _ _ w hnd a, if_pos hmem]
      exact Label.rescaled_background wd _ _ hw1 hh1
  have hprev : (g.update wd w dt).1.m_prevWindowDimensions = wd := by
    by_cases hch : g.m_prevWindowDimensions = wd
    · simp [UIGroup.update, hch]
    · simp [UIGroup.update, hch]
  refine ⟨hpos.1, hpos.2, ?_, ?_, hprev⟩
  · simp only [Label.getPosition, hpos.1, Vec3.mk.injEq]
    refine ⟨?_, ?_, trivial⟩
    · field_simp
      ring
    · field_simp
      ring
  · simp only [Label.getDimensions, hpos.2, Vec2.mk.injEq]
    constructor
    · field_simp
      ring
    · field_simp
      ring

theorem UIGroup.update_rescales_witness :
    ((exampleGroupRun.group.update ⟨1600, 1200⟩ exampleGroupRun.world 0).2.components
        1).m_background.position
        = ⟨(exampleGroupRun.world.components 1).m_background.position.x
              * (((⟨1600, 1200⟩ : IVec2).x : ℚ) / exampleGroupRun.group.m_prevWindowDimensions.x),
            (exampleGroupRun.world.components 1).m_background.position.y
              * (((⟨1600, 1200⟩ : IVec2).y : ℚ) / exampleGroupRun.group.m_prevWindowDimensions.y),
            (exampleGroupRun.world.components 1).m_background.position.z⟩
      ∧ ((exampleGroupRun.group.update ⟨1600, 1200⟩ exampleGroupRun.world 0).2.components
        1).m_background.dimensions
        = ⟨(exampleGroupRun.world.components 1).m_background.dimensions.x
              * (((⟨1600, 1200⟩ : IVec2).x : ℚ) / exampleGroupRun.group.m_prevWindowDimensions.x),
            (exampleGroupRun.world.components 1).m_background.dimensions.y
              * (((⟨1600, 1200⟩ : IVec2).y : ℚ)
                / exampleGroupRun.group.m_prevWindowDimensions.y)⟩
      ∧ ((exampleGroupRun.group.update ⟨1600, 1200⟩ exampleGroupRun.world 0).2.components
        1).getPosition ⟨1600, 1200⟩
        = (exampleGroupRun.world.components 1).getPosition
            exampleGroupRun.group.m_prevWindowDimensions
      ∧ ((exampleGroupRun.group.update ⟨1600, 1200⟩ exampleGroupRun.world 0).2.components
        1).getDimensions ⟨1600, 1200⟩
        = (exampleGroupRun.world.components 1).getDimensions
            exampleGroupRun.group.m_prevWindowDimensions
      ∧ (exampleGroupRun.group.update ⟨1600, 1200⟩ exampleGroupRun.world 0).1.m_prevWindowDimensions
        = ⟨1600, 1200⟩ :=
  UIGroup.update_rescales exampleGroupRun.group exampleGroupRun.world ⟨1600, 1200⟩ 0 1
    (by decide) (by decide) (by decide) (by decide) (by decide) (by decide)

/-- The calls `update`, `play`, `pause` and `stop` keep the frame index of an animation
inside its frame list. -/
theorem Animation.call_keeps_frame_index (a b : Animation) (c : AnimationCall)
    (hc : ∀ frameDimensions frameTime, c ≠ .init frameDimensions frameTime)
    (h : a.m_frame < a.m_frameCoords.length) (hb : a.call c = some b) :
    b.m_frame < b.m_frameCoords.length := by
  cases c with
  | init frameDimensions frameTime => exact absurd rfl (hc frameDimensions frameTime)
  | play => simp only [Animation.call, Animation.play, Option.some.injEq] at hb; subst hb; exact h
  | pause =>
    simp only [Animation.call, Animation.pause, Option.some.injEq] at hb; subst hb; exact h
  | stop =>
    simp only [Animation.call, Animation.stop] at hb
    split at hb
    · exact absurd hb (by simp)
    · simp only [Option.some.injEq] at hb; subst hb; exact Nat.lt_of_le_of_lt (Nat.zero_le _) h
  | update dt =>
    simp only [Animation.call, Animation.update] at hb
    split at hb
    · simp only [Option.some.injEq] at hb; subst hb; exact h
    · split at hb
      · exact absurd hb (by simp)
      · rename_i a2 heq
        split at hb
        · exact absurd hb (by simp)
        · rename_i coords hget
          simp only [Option.some.injEq] at hb
          subst hb
          simp only
          have hlt := (List.get?_eq_some.mp hget).1
          simpa using hlt

/-- C15. An animation of four frames is played to its last frame (index 3) and then
initialized again with a grid of one frame: `Animation::init` keeps the frame index, so the
state has frame index 3 with a frame count of 1, and the next `update` fails at
`m_frameCoords.at(m_frame)`. -/
theorem Animation.init_keeps_stale_frame_index :
    (Animation.default.calls exampleAnimationCalls).map
        (fun a => (a.m_frame, a.m_frameCoords.length, a.m_playing)) = some (3, 1, true)
      ∧ Animation.default.calls (exampleAnimationCalls ++ [.update 0]) = none := by
  constructor <;>
  simp [exampleAnimationCalls, Animation.calls, Animation.call, Animation.init,
      Animation.update, Animation.play, Animation.default, Sprite.init, Sprite.update,
      Sprite.default, vectorResize, fillFrameCoords, toSizeT, List.range, List.range.loop,
      UINT_MOD]

/-! ## The rounding to binary32 -/

/-- The function `pow2` is the power of two with an integer exponent. -/
theorem pow2_eq_zpow (k : Int) : pow2 k = (2 : ℚ) ^ k := by
  unfold pow2
  split
  · rename_i h
    conv_rhs => rw [← Int.toNat_of_nonneg h]
    rw [zpow_natCast]
  · rename_i h
    have h2 : 0 ≤ -k := by omega
    have : k = -((-k).toNat : Int) := by rw [Int.toNat_of_nonneg h2]; ring
    conv_rhs => rw [this]
    rw [zpow_neg, zpow_natCast, one_div]

/-- With enough fuel `log2Loop` is the binary logarithm rounded down. -/
theorem log2Loop_spec : ∀ (fuel n : Nat), 0 < n → n ≤ fuel →
    2 ^ log2Loop fuel n ≤ n ∧ n < 2 ^ (log2Loop fuel n + 1) := by
  intro fuel
  induction fuel with
  | zero => intro n h1 h2; omega
  | succ fuel ih =>
    intro n h1 h2
    simp only [log2Loop]
    split
    · rename_i h
      have h3 : 0 < n / 2 := Nat.div_pos h (by norm_num)
      have h4 : n / 2 ≤ fuel := by omega
      obtain ⟨a, b⟩ := ih (n / 2) h3 h4
      constructor
      · rw [pow_succ]
        omega
      · rw [pow_succ]
        omega
    · rename_i h
      constructor
      · simp; omega
      · simp; omega

/-- Rounding to the nearest integer moves a number by at most one half. -/
theorem roundHalfEven_error (m : ℚ) : |(roundHalfEven m : ℚ) - m| ≤ 1 / 2 := by
  have h1 : ((m.floor : Int) : ℚ) ≤ m := Int.floor_le m
  have h2 : m < ((m.floor : Int) : ℚ) + 1 := Int.lt_floor_add_one m
  unfold roundHalfEven
  simp only
  split
  · rename_i h
    rw [abs_le]
    constructor <;> linarith
  · rename_i h
    split
    · rename_i h'
      rw [abs_le]
      push_cast
      constructor <;> linarith
    · rename_i h'
      have h3 : m - (m.floor : ℚ) = 1 / 2 := le_antisymm (not_lt.mp h') (not_lt.mp h)
      split
      · rw [abs_le]
        constructor <;> linarith
      · rw [abs_le]
        push_cast
        constructor <;> linarith

/-- The binary exponent `e` of a positive rational `a` satisfies `2 ^ e ≤ a < 2 ^ (e + 1)`. -/
theorem binaryExponent_spec (a : ℚ) (ha : 0 < a) :
    (2 : ℚ) ^ binaryExponent a ≤ a ∧ a < (2 : ℚ) ^ (binaryExponent a + 1) := by
  have hnum : 0 < a.num := Rat.num_pos.mpr ha
  have hn : 0 < a.num.natAbs := Int.natAbs_pos.mpr (ne_of_gt hnum)
  have hd : 0 < a.den := a.den_pos
  obtain ⟨n1, n2⟩ := log2Loop_spec a.num.natAbs a.num.natAbs hn le_rfl
  obtain ⟨d1, d2⟩ := log2Loop_spec a.den a.den hd le_rfl
  have hq : a = (a.num.natAbs : ℚ) / (a.den : ℚ) := by
    have h2 : (a.num.natAbs : ℚ) = (a.num : ℚ) := by
      rw [Nat.cast_natAbs, abs_of_pos hnum]
    rw [h2]
    exact (Rat.num_div_den a).symm
  have hdq : (0 : ℚ) < (a.den : ℚ) := by exact_mod_cast hd
  have n1q : (2 : ℚ) ^ log2Loop a.num.natAbs a.num.natAbs ≤ (a.num.natAbs : ℚ) := by
    exact_mod_cast n1
  have n2q : (a.num.natAbs : ℚ) < (2 : ℚ) ^ (log2Loop a.num.natAbs a.num.natAbs + 1) := by
    exact_mod_cast n2
  have d1q : (2 : ℚ) ^ log2Loop a.den a.den ≤ (a.den : ℚ) := by exact_mod_cast d1
  have d2q : (a.den : ℚ) < (2 : ℚ) ^ (log2Loop a.den a.den + 1) := by exact_mod_cast d2
  have two : (2 : ℚ) ≠ 0 := by norm_num
  have hlow : (2 : ℚ) ^ ((log2Loop a.num.natAbs a.num.natAbs : Int)
      - (log2Loop a.den a.den : Int) - 1) ≤ a := by
    have e : (2 : ℚ) ^ ((log2Loop a.num.natAbs a.num.natAbs : Int)
        - (log2Loop a.den a.den : Int) - 1)
        = (2 : ℚ) ^ log2Loop a.num.natAbs a.num.natAbs
          / (2 : ℚ) ^ (log2Loop a.den a.den + 1) := by
      rw [sub_sub, zpow_sub₀ two, zpow_natCast]
      congr 1
      have : ((log2Loop a.den a.den : Int) + 1) = ((log2Loop a.den a.den + 1 : Nat) : Int) := by
        push_cast
        ring
      rw [this, zpow_natCast]
    rw [e]
    conv_rhs => rw [hq]
    have hp : (0 : ℚ) < (2 : ℚ) ^ (log2Loop a.den a.den + 1) := by positivity
    rw [div_le_div_iff₀ hp hdq]
    have hnn : (0 : ℚ) ≤ (a.num.natAbs : ℚ) := by positivity
    have h2n : (0 : ℚ) ≤ (2 : ℚ) ^ log2Loop a.num.natAbs a.num.natAbs := by positivity
    calc (2 : ℚ) ^ log2Loop a.num.natAbs a.num.natAbs * (a.den : ℚ)
        ≤ (a.num.natAbs : ℚ) * (a.den : ℚ) := mul_le_mul_of_nonneg_right n1q (le_of_lt hdq)
      _ ≤ (a.num.natAbs : ℚ) * (2 : ℚ) ^ (log2Loop a.den a.den + 1) :=
          mul_le_mul_of_nonneg_left (le_of_lt d2q) hnn
  have hhigh : a < (2 : ℚ) ^ ((log2Loop a.num.natAbs a.num.natAbs : Int)
      - (log2Loop a.den a.den : Int) + 1) := by
    have e : (2 : ℚ) ^ ((log2Loop a.num.natAbs a.num.natAbs : Int)
        - (log2Loop a.den a.den : Int) + 1)
        = (2 : ℚ) ^ (log2Loop a.num.natAbs a.num.natAbs + 1)
          / (2 : ℚ) ^ log2Loop a.den a.den := by
      have : ((log2Loop a.num.natAbs a.num.natAbs : Int) - (log2Loop a.den a.den : Int) + 1)
          = ((log2Loop a.num.natAbs a.num.natAbs + 1 : Nat) : Int)
            - (log2Loop a.den a.den : Int) := by
        push_cast
        ring
      rw [this, zpow_sub₀ two, zpow_natCast, zpow_natCast]
    rw [e]
    conv_lhs => rw [hq]
    have hp : (0 : ℚ) < (2 : ℚ) ^ log2Loop a.den a.den := by positivity
    rw [div_lt_div_iff₀ hdq hp]
    have hpp : (0 : ℚ) < (2 : ℚ) ^ (log2Loop a.num.natAbs a.num.natAbs + 1) := by positivity
    calc (a.num.natAbs : ℚ) * (2 : ℚ) ^ log2Loop a.den a.den
        < (2 : ℚ) ^ (log2Loop a.num.natAbs a.num.natAbs + 1) * (2 : ℚ) ^ log2Loop a.den a.den :=
          mul_lt_mul_of_pos_right n2q hp
      _ ≤ (2 : ℚ) ^ (log2Loop a.num.natAbs a.num.natAbs + 1) * (a.den : ℚ) :=
          mul_le_mul_of_nonneg_left d1q (le_of_lt hpp)
  unfold binaryExponent
  simp only [pow2_eq_zpow]
  split
  · rename_i h
    refine ⟨hlow, ?_⟩
    rw [sub_add_cancel]
    exact h
  · rename_i h
    exact ⟨not_lt.mp h, hhigh⟩

/-- The rounding of a positive rational in the normal range to 24 significant bits has
relative error at most `2 ^ -24`. -/
theorem roundHalfEven_quantum_error (A : ℚ) (hA : 0 < A) (hnorm : (1 : ℚ) / 2 ^ 126 ≤ A) :
    max (binaryExponent A) (-126) = binaryExponent A
      ∧ |(roundHalfEven (A / (2 : ℚ) ^ (binaryExponent A - 23)) : ℚ)
          * (2 : ℚ) ^ (binaryExponent A - 23) - A| ≤ 1 / 2 ^ 24 * A := by
  obtain ⟨e1, e2⟩ := binaryExponent_spec A hA
  have two : (2 : ℚ) ≠ 0 := by norm_num
  have he : (-126 : Int) ≤ binaryExponent A := by
    by_contra hlt
    have hlt2 : binaryExponent A + 1 ≤ -126 := by omega
    have h3 : (2 : ℚ) ^ (binaryExponent A + 1) ≤ (2 : ℚ) ^ (-126 : Int) :=
      zpow_le_zpow_right₀ (by norm_num) hlt2
    have h4 : (2 : ℚ) ^ (-126 : Int) = 1 / 2 ^ 126 := by
      rw [zpow_neg, one_div]
      norm_cast
    rw [h4] at h3
    linarith
  refine ⟨max_eq_left he, ?_⟩
  have hquant : (0 : ℚ) < (2 : ℚ) ^ (binaryExponent A - 23) := by positivity
  have herr := roundHalfEven_error (A / (2 : ℚ) ^ (binaryExponent A - 23))
  have hfac : (roundHalfEven (A / (2 : ℚ) ^ (binaryExponent A - 23)) : ℚ)
      * (2 : ℚ) ^ (binaryExponent A - 23) - A
      = ((roundHalfEven (A / (2 : ℚ) ^ (binaryExponent A - 23)) : ℚ)
          - A / (2 : ℚ) ^ (binaryExponent A - 23))
        * (2 : ℚ) ^ (binaryExponent A - 23) := by
    field_simp
  rw [hfac, abs_mul, abs_of_pos hquant]
  have h5 : (2 : ℚ) ^ (binaryExponent A - 23) = (2 : ℚ) ^ binaryExponent A / 2 ^ 23 := by
    rw [zpow_sub₀ two]
    norm_cast
  have h6 := mul_le_mul_of_nonneg_right herr (le_of_lt hquant)
  have h7 : 1 / 2 * (2 : ℚ) ^ (binaryExponent A - 23)
      = 1 / 2 ^ 24 * (2 : ℚ) ^ binaryExponent A := by
    rw [h5]
    ring
  have h8 : 1 / 2 ^ 24 * (2 : ℚ) ^ binaryExponent A ≤ 1 / 2 ^ 24 * A :=
    mul_le_mul_of_nonneg_left e1 (by positivity)
  linarith

/-- The rounding to binary32 has relative error at most `2 ^ -24` at every rational in the
normal range (and at 0). -/
theorem float32_relative_error (q : ℚ) (h : q = 0 ∨ (1 : ℚ) / 2 ^ 126 ≤ |q|) :
    roundsWithin float32 (1 / 2 ^ 24) q = true := by
  simp only [roundsWithin, decide_eq_true_eq]
  by_cases hq : q = 0
  · simp [hq, float32]
  · have hnorm : (1 : ℚ) / 2 ^ 126 ≤ |q| := by
      rcases h with h | h
      · exact absurd h hq
      · exact h
    unfold float32
    simp only [hq, if_false, pow2_eq_zpow]
    by_cases hneg : q < 0
    · have habs : |q| = -q := abs_of_neg hneg
      rw [habs] at hnorm ⊢
      obtain ⟨hmax, hr⟩ := roundHalfEven_quantum_error (-q) (by linarith) hnorm
      simp only [hneg, if_true, hmax]
      have e : -((roundHalfEven (-q / (2 : ℚ) ^ (binaryExponent (-q) - 23)) : ℚ)
            * (2 : ℚ) ^ (binaryExponent (-q) - 23)) - q
          = -((roundHalfEven (-q / (2 : ℚ) ^ (binaryExponent (-q) - 23)) : ℚ)
            * (2 : ℚ) ^ (binaryExponent (-q) - 23) - -q) := by
        ring
      rw [e, abs_neg]
      exact hr
    · have hpos : 0 < q := lt_of_le_of_ne (not_lt.mp hneg) (Ne.symm hq)
      have habs : |q| = q := abs_of_pos hpos
      rw [habs] at hnorm ⊢
      obtain ⟨hmax, hr⟩ := roundHalfEven_quantum_error q hpos hnorm
      simp only [hneg, if_false, hmax]
      exact hr

/-- The rounding to binary32 keeps 0. -/
theorem float32_zero : float32 0 = 0 := by
  simp [float32]

/-- The rounding to binary32 of a rational in the normal range keeps at least half of its
magnitude. -/
theorem float32_abs_ge (q : ℚ) (h : (1 : ℚ) / 2 ^ 126 ≤ |q|) : |q| / 2 ≤ |float32 q| := by
  have h1 := float32_relative_error q (Or.inr h)
  simp only [roundsWithin, decide_eq_true_eq] at h1
  have h2 : |q| - |float32 q| ≤ |float32 q - q| := by
    have := abs_sub_abs_le_abs_sub q (float32 q)
    rw [abs_sub_comm q (float32 q)] at this
    exact this
  have h3 : (0 : ℚ) ≤ |q| := abs_nonneg q
  norm_num at h1
  linarith

/-- Rounding an integer to the nearest integer gives the integer. -/
theorem roundHalfEven_intCast (k : Int) : roundHalfEven (k : ℚ) = k := by
  have hf : ((k : ℚ)).floor = k := by
    show Int.floor (k : ℚ) = k
    exact Int.floor_intCast k
  unfold roundHalfEven
  simp only [hf]
  norm_num

/-- An integer of magnitude at most `2 ^ 24` is a `float`: the conversion to `float` does
not round it. -/
theorem float32_intCast (n : Int) (h : |n| ≤ 2 ^ 24) : float32 (n : ℚ) = n := by
  by_cases hn : n = 0
  · simp [hn, float32]
  · have hq : (n : ℚ) ≠ 0 := Int.cast_ne_zero.mpr hn
    have habs : |(n : ℚ)| = ((|n| : Int) : ℚ) := by
      rw [Int.cast_abs]
    have hpos : (0 : ℚ) < |(n : ℚ)| := abs_pos.mpr hq
    have hone : (1 : ℚ) ≤ |(n : ℚ)| := by
      rw [habs]
      have : (1 : Int) ≤ |n| := Int.one_le_abs hn
      exact_mod_cast this
    obtain ⟨e1, e2⟩ := binaryExponent_spec |(n : ℚ)| hpos
    have two : (2 : ℚ) ≠ 0 := by norm_num
    have hle : |(n : ℚ)| ≤ 2 ^ 24 := by
      rw [habs]
      exact_mod_cast h
    have he0 : 0 ≤ binaryExponent |(n : ℚ)| := by
      by_contra hlt
      have hlt2 : binaryExponent |(n : ℚ)| + 1 ≤ 0 := by omega
      have h3 : (2 : ℚ) ^ (binaryExponent |(n : ℚ)| + 1) ≤ (2 : ℚ) ^ (0 : Int) :=
        zpow_le_zpow_right₀ (by norm_num) hlt2
      rw [zpow_zero] at h3
      linarith
    have he24 : binaryExponent |(n : ℚ)| ≤ 24 := by
      by_contra hgt
      have hgt2 : (25 : Int) ≤ binaryExponent |(n : ℚ)| := by omega
      have h3 : (2 : ℚ) ^ (25 : Int) ≤ (2 : ℚ) ^ binaryExponent |(n : ℚ)| :=
        zpow_le_zpow_right₀ (by norm_num) hgt2
      have h4 : (2 : ℚ) ^ (25 : Int) = 2 ^ 25 := by norm_cast
      rw [h4] at h3
      have : (2 : ℚ) ^ 24 < 2 ^ 25 := by norm_num
      linarith
    have hmax : max (binaryExponent |(n : ℚ)|) (-126) = binaryExponent |(n : ℚ)| :=
      max_eq_left (by omega)
    unfold float32
    simp only [hq, if_false, pow2_eq_zpow, hmax]
    -- the magnitude is a multiple of the quantum
    have hmult : ∃ k : Int, |(n : ℚ)| / (2 : ℚ) ^ (binaryExponent |(n : ℚ)| - 23) = (k : ℚ) := by
      by_cases h23 : binaryExponent |(n : ℚ)| ≤ 23
      · refine ⟨|n| * 2 ^ (23 - binaryExponent |(n : ℚ)|).toNat, ?_⟩
        have hk : (2 : ℚ) ^ (binaryExponent |(n : ℚ)| - 23)
            = 1 / (2 : ℚ) ^ (23 - binaryExponent |(n : ℚ)|).toNat := by
          have : binaryExponent |(n : ℚ)| - 23
              = -(((23 - binaryExponent |(n : ℚ)|).toNat : Int)) := by
            rw [Int.toNat_of_nonneg (by omega)]
            ring
          rw [this, zpow_neg, zpow_natCast, one_div]
        rw [hk, habs]
        push_cast
        field_simp
      · have h24 : binaryExponent |(n : ℚ)| = 24 := by omega
        have hn24 : |(n : ℚ)| = 2 ^ 24 := by
          have : (2 : ℚ) ^ (24 : Int) ≤ |(n : ℚ)| := by
            rw [← h24]
            exact e1
          have h4 : (2 : ℚ) ^ (24 : Int) = 2 ^ 24 := by norm_cast
          rw [h4] at this
          exact le_antisymm hle this
        refine ⟨2 ^ 23, ?_⟩
        rw [h24, hn24]
        norm_num
    obtain ⟨k, hk⟩ := hmult
    rw [hk, roundHalfEven_intCast, ← hk]
    have hquant : (2 : ℚ) ^ (binaryExponent |(n : ℚ)| - 23) ≠ 0 := by positivity
    rw [div_mul_cancel₀ _ hquant]
    by_cases hneg : (n : ℚ) < 0
    · simp only [hneg, if_true]
      rw [abs_of_neg hneg]
      ring
    · simp only [hneg, if_false]
      rw [abs_of_nonneg (not_lt.mp hneg)]

/-- A quotient by a number from 1 to `2 ^ 24` keeps a lower bound on the magnitude, up to
the factor `2 ^ 24`. -/
theorem abs_div_ge (a w c : ℚ) (hw : 1 ≤ w) (hw2 : w ≤ 2 ^ 24) (hc : 0 ≤ c)
    (ha : c * 2 ^ 24 ≤ |a|) : c ≤ |a / w| := by
  have hwpos : 0 < w := by linarith
  rw [abs_div, abs_of_pos hwpos, le_div_iff₀ hwpos]
  have : c * w ≤ c * 2 ^ 24 := mul_le_mul_of_nonneg_left hw2 hc
  linarith

/-- In binary32 each float operation of `UIGroup::update` and of the getters on a stored
pixel value has relative error at most `2 ^ -24`, for window sizes from 1 to `2 ^ 24` and a
stored value that is 0 or of magnitude at least `2 ^ -40`. -/
theorem rescaleWithin_float32 (v w0 w1 : ℚ) (h0 : 1 ≤ w0) (h0u : w0 ≤ 2 ^ 24) (h1 : 1 ≤ w1)
    (h1u : w1 ≤ 2 ^ 24) (hv : v = 0 ∨ (1 : ℚ) / 2 ^ 40 ≤ |v|) :
    rescaleWithin float32 (1 / 2 ^ 24) v w0 w1 = true := by
  have hw0 : 0 < w0 := by linarith
  have hw1 : 0 < w1 := by linarith
  have hs : (1 : ℚ) / 2 ^ 126 ≤ |w1 / w0| :=
    abs_div_ge w1 w0 _ h0 h0u (by positivity)
      (by rw [abs_of_pos hw1]; norm_num; linarith)
  simp only [rescaleWithin, Bool.and_eq_true]
  rcases hv with hv | hv
  · subst hv
    have z1 : float32 (0 / w1) = 0 := by rw [zero_div, float32_zero]
    have z2 : float32 (0 * float32 (w1 / w0)) = 0 := by rw [zero_mul, float32_zero]
    have z3 : float32 (0 * w1) = 0 := by rw [zero_mul, float32_zero]
    refine ⟨⟨⟨⟨⟨?_, ?_⟩, ?_⟩, ?_⟩, ?_⟩, ?_⟩
    · exact float32_relative_error _ (Or.inl (zero_div w0))
    · exact float32_relative_error _ (Or.inr hs)
    · exact float32_relative_error _ (Or.inl (zero_div w1))
    · rw [z1]
      exact float32_relative_error _ (Or.inl (zero_mul _))
    · rw [z1, z2]
      exact float32_relative_error _ (Or.inl (zero_mul _))
    · rw [z1, z2, z3]
      exact float32_relative_error _ (Or.inl (zero_div w1))
  · have x1 : (1 : ℚ) / 2 ^ 64 ≤ |v / w0| :=
      abs_div_ge v w0 _ h0 h0u (by positivity) (by norm_num at hv ⊢; linarith)
    have x3 : (1 : ℚ) / 2 ^ 64 ≤ |v / w1| :=
      abs_div_ge v w1 _ h1 h1u (by positivity) (by norm_num at hv ⊢; linarith)
    have x2 : (1 : ℚ) / 2 ^ 24 ≤ |w1 / w0| :=
      abs_div_ge w1 w0 _ h0 h0u (by positivity)
        (by rw [abs_of_pos hw1]; norm_num; linarith)
    have f3 : (1 : ℚ) / 2 ^ 65 ≤ |float32 (v / w1)| := by
      have := float32_abs_ge (v / w1) (le_trans (by norm_num) x3)
      norm_num at this x3 ⊢
      linarith
    have f2 : (1 : ℚ) / 2 ^ 25 ≤ |float32 (w1 / w0)| := by
      have := float32_abs_ge (w1 / w0) hs
      norm_num at this x2 ⊢
      linarith
    have x4 : (1 : ℚ) / 2 ^ 90 ≤ |float32 (v / w1) * float32 (w1 / w0)| := by
      rw [abs_mul]
      have := mul_le_mul f3 f2 (by positivity) (abs_nonneg _)
      norm_num at this ⊢
      linarith
    have f4 : (1 : ℚ) / 2 ^ 91 ≤ |float32 (float32 (v / w1) * float32 (w1 / w0))| := by
      have := float32_abs_ge _ (le_trans (by norm_num) x4)
      norm_num at this x4 ⊢
      linarith
    have x5 : (1 : ℚ) / 2 ^ 91 ≤ |float32 (float32 (v / w1) * float32 (w1 / w0)) * w1| := by
      rw [abs_mul, abs_of_pos hw1]
      have := mul_le_mul f4 h1 (by norm_num) (abs_nonneg _)
      norm_num at this ⊢
      linarith
    have f5 : (1 : ℚ) / 2 ^ 92
        ≤ |float32 (float32 (float32 (v / w1) * float32 (w1 / w0)) * w1)| := by
      have := float32_abs_ge _ (le_trans (by norm_num) x5)
      norm_num at this x5 ⊢
      linarith
    have x6 : (1 : ℚ) / 2 ^ 116
        ≤ |float32 (float32 (float32 (v / w1) * float32 (w1 / w0)) * w1) / w1| :=
      abs_div_ge _ w1 _ h1 h1u (by positivity) (by norm_num at f5 ⊢; linarith)
    refine ⟨⟨⟨⟨⟨?_, ?_⟩, ?_⟩, ?_⟩, ?_⟩, ?_⟩
    · exact float32_relative_error _ (Or.inr (le_trans (by norm_num) x1))
    · exact float32_relative_error _ (Or.inr hs)
    · exact float32_relative_error _ (Or.inr (le_trans (by norm_num) x3))
    · exact float32_relative_error _ (Or.inr (le_trans (by norm_num) x4))
    · exact float32_relative_error _ (Or.inr (le_trans (by norm_num) x5))
    · exact float32_relative_error _ (Or.inr (le_trans (by norm_num) x6))

/-! ## Rescaling on a window resize, in float arithmetic -/

/-- A rounding with relative error at most `u` adds one factor `1 + u` to a relative
error bound. -/
theorem relative_error_round (rnd : ℚ → ℚ) (u α a b : ℚ) (hu : 0 ≤ u)
    (hr : roundsWithin rnd u a = true) (hab : |a - b| ≤ α * |b|) :
    |rnd a - b| ≤ ((1 + α) * (1 + u) - 1) * |b| := by
  simp only [roundsWithin, decide_eq_true_eq] at hr
  have h1 : |a| ≤ (1 + α) * |b| := by
    have : |a| ≤ |a - b| + |b| := by
      have := abs_add (a - b) b
      simpa using this
    linarith
  have h2 : |rnd a - b| ≤ |rnd a - a| + |a - b| := by
    have := abs_add (rnd a - a) (a - b)
    simpa using this
  have h3 : u * |a| ≤ u * ((1 + α) * |b|) := mul_le_mul_of_nonneg_left h1 hu
  nlinarith

/-- Relative error bounds multiply under a product. -/
theorem relative_error_mul (α β a b s t : ℚ) (hα : 0 ≤ α)
    (hab : |a - b| ≤ α * |b|) (hst : |s - t| ≤ β * |t|) :
    |a * s - b * t| ≤ ((1 + α) * (1 + β) - 1) * |b * t| := by
  have hb : 0 ≤ |b| := abs_nonneg b
  have ht : 0 ≤ |t| := abs_nonneg t
  have h1 : |s| ≤ (1 + β) * |t| := by
    have : |s| ≤ |s - t| + |t| := by
      have := abs_add (s - t) t
      simpa using this
    linarith
  have h2 : a * s - b * t = (a - b) * s + b * (s - t) := by ring
  have h3 : |a * s - b * t| ≤ |a - b| * |s| + |b| * |s - t| := by
    rw [h2]
    calc |(a - b) * s + b * (s - t)| ≤ |(a - b) * s| + |b * (s - t)| := abs_add _ _
      _ = |a - b| * |s| + |b| * |s - t| := by rw [abs_mul, abs_mul]
  have h4 : |a - b| * |s| ≤ (α * |b|) * ((1 + β) * |t|) :=
    mul_le_mul hab h1 (abs_nonneg s) (mul_nonneg hα hb)
  have h5 : |b| * |s - t| ≤ |b| * (β * |t|) := mul_le_mul_of_nonneg_left hst hb
  rw [abs_mul]
  nlinarith

/-- A relative error bound is kept when both values are multiplied by the same number. -/
theorem relative_error_scale (α a b c : ℚ) (hab : |a - b| ≤ α * |b|) :
    |a * c - b * c| ≤ α * |b * c| := by
  have h : a * c - b * c = (a - b) * c := by ring
  rw [h, abs_mul, abs_mul]
  have := mul_le_mul_of_nonneg_right hab (abs_nonneg c)
  linarith

/-- The float operations on one stored pixel value of a label in `UIGroup::update`: the
new stored value is the old one times `w1 / w0` up to four roundings, and the normalized
value read back under the new window size is within six roundings of the normalized value
read under the old window size. -/
theorem rescale_value_within (rnd : ℚ → ℚ) (u v w0 w1 : ℚ) (hu : 0 ≤ u) (hw0 : w0 ≠ 0)
    (hw1 : w1 ≠ 0) (h : rescaleWithin rnd u v w0 w1 = true) :
    |rnd (rnd (rnd (v / w1) * rnd (w1 / w0)) * w1) - v * (w1 / w0)|
        ≤ ((1 + u) ^ 4 - 1) * |v * (w1 / w0)|
      ∧ |rnd (rnd (rnd (rnd (v / w1) * rnd (w1 / w0)) * w1) / w1) - rnd (v / w0)|
        ≤ ((1 + u) ^ 5 - 1 + u) * |v / w0| := by
  simp only [rescaleWithin, Bool.and_eq_true] at h
  obtain ⟨⟨⟨⟨⟨r0, rs⟩, r1⟩, r2⟩, r3⟩, r4⟩ := h
  have e0 : ∀ q : ℚ, |q - q| ≤ 0 * |q| := by intro q; simp
  have hu1 : (0 : ℚ) ≤ (1 + 0) * (1 + u) - 1 := by linarith
  -- the getter in the loop and the scale factor
  have a1 := relative_error_round rnd u 0 (v / w1) (v / w1) hu r1 (e0 _)
  have s1 := relative_error_round rnd u 0 (w1 / w0) (w1 / w0) hu rs (e0 _)
  have n0 := relative_error_round rnd u 0 (v / w0) (v / w0) hu r0 (e0 _)
  -- the product with the scale factor
  have p1 := relative_error_mul _ _ _ _ _ _ hu1 a1 s1
  have hvw : v / w1 * (w1 / w0) = v / w0 := by field_simp
  rw [hvw] at p1
  have a2 := relative_error_round rnd u _ _ _ hu r2 p1
  -- the setter
  have p2 := relative_error_scale _ _ _ w1 a2
  have hvw2 : v / w0 * w1 = v * (w1 / w0) := by field_simp
  rw [hvw2] at p2
  have a3 := relative_error_round rnd u _ _ _ hu r3 p2
  have c4b : (1 + ((1 + ((1 + 0) * (1 + u) - 1)) * (1 + ((1 + 0) * (1 + u) - 1)) - 1))
      * (1 + u) - 1 = (1 + u) ^ 3 - 1 := by ring
  rw [c4b] at a2 p2 a3
  have c4c : (1 + ((1 + u) ^ 3 - 1)) * (1 + u) - 1 = (1 + u) ^ 4 - 1 := by ring
  rw [c4c] at a3
  refine ⟨a3, ?_⟩
  -- the getter after the update
  have p3 := relative_error_scale _ _ _ (1 / w1) a3
  have hvw3 : v * (w1 / w0) * (1 / w1) = v / w0 := by
    field_simp
    ring
  rw [hvw3] at p3
  have hdiv : ∀ x : ℚ, x * (1 / w1) = x / w1 := by intro x; ring
  rw [hdiv] at p3
  have a4 := relative_error_round rnd u _ _ _ hu r4 p3
  have c5 : (1 + ((1 + u) ^ 4 - 1)) * (1 + u) - 1 = (1 + u) ^ 5 - 1 := by ring
  rw [c5] at a4
  have c1 : (1 + 0) * (1 + u) - 1 = u := by ring
  rw [c1] at n0
  have htri : |rnd (rnd (rnd (rnd (v / w1) * rnd (w1 / w0)) * w1) / w1) - rnd (v / w0)|
      ≤ |rnd (rnd (rnd (rnd (v / w1) * rnd (w1 / w0)) * w1) / w1) - v / w0|
        + |rnd (v / w0) - v / w0| := by
    have := abs_sub_le (rnd (rnd (rnd (rnd (v / w1) * rnd (w1 / w0)) * w1) / w1)) (v / w0)
      (rnd (v / w0))
    rw [abs_sub_comm (v / w0) (rnd (v / w0))] at this
    exact this
  linarith

/-- The rescaling loop in float arithmetic changes exactly the components of the list. -/
theorem UIGroup.rescaleF_components (rnd : ℚ → ℚ) (wd : IVec2) (scale : Vec2)
    (l : List Nat) :
    ∀ w : UIWorld, l.Nodup → ∀ a,
      (UIGroup.rescaleF rnd wd scale w l).components a
        = if a ∈ l then (w.components a).rescaledF rnd wd scale else w.components a := by
  induction l with
  | nil => intro w _ a; simp [UIGroup.rescaleF]
  | cons b rest ih =>
    intro w hnd a
    rw [List.nodup_cons] at hnd
    simp only [UIGroup.rescaleF]
    rw [ih _ hnd.2 a]
    by_cases hab : a = b
    · subst hab
      simp [hnd.1, UIWorld.setComponent]
    · by_cases har : a ∈ rest
      · simp [har, hab, UIWorld.setComponent]
      · simp [har, hab, UIWorld.setComponent]

/-- With the exact rounding the float functions are the exact functions. -/
theorem UIGroup.updateF_id (wd : IVec2) (g : UIGroup) (w : UIWorld) (dt : ℚ) :
    UIGroup.updateF id wd g w dt = UIGroup.update wd g w dt := by
  have hl : ∀ (scale : Vec2) (c : Label), c.rescaledF id wd scale = c.rescaled wd scale := by
    intro scale c
    rfl
  have hr : ∀ (scale : Vec2) (l : List Nat) (w : UIWorld),
      UIGroup.rescaleF id wd scale w l = UIGroup.rescale wd scale w l := by
    intro scale l
    induction l with
    | nil => intro w; rfl
    | cons b rest ih =>
      intro w
      simp only [UIGroup.rescaleF, UIGroup.rescale, hl, ih]
  simp only [UIGroup.updateF, UIGroup.update, hr, id]

/-- C16, the claim as stated fails: the example label has the pixel height 60 (normalized
0.1f) in the 800x600 window; after the resize to 1024x768 `UIGroup::update` stores the
height 76.79999542..., not 60 * 768 / 600 = 76.8 nor the float nearest to it, and
`getDimensions().y` under the new window size is 0.09999999404..., not the value 0.1f that
it had under the old window size before the resize. -/
theorem UIGroup.updateF_height_differs :
    exampleLabelF.m_background.position = ⟨200, 300, 0⟩
      ∧ exampleLabelF.m_background.dimensions = ⟨400, 60⟩
      ∧ ((exampleGroupRunF.world.components 1).getDimensionsF float32 exampleWindow).y
          = 13421773 / 134217728
      ∧ ((exampleGroupRunF.group.updateF float32 ⟨1024, 768⟩ exampleGroupRunF.world
            0).2.components 1).m_background.dimensions.y = 10066329 / 131072
      ∧ float32 (60 * (768 / 600)) = 10066330 / 131072
      ∧ (((exampleGroupRunF.group.updateF float32 ⟨1024, 768⟩ exampleGroupRunF.world
            0).2.components 1).getDimensionsF float32 ⟨1024, 768⟩).y
          = 13421772 / 134217728
      ∧ (((exampleGroupRunF.group.updateF float32 ⟨1024, 768⟩ exampleGroupRunF.world
            0).2.components 1).getDimensionsF float32 ⟨1024, 768⟩).y
          ≠ ((exampleGroupRunF.world.components 1).getDimensionsF float32 exampleWindow).y := by
  refine ⟨?_, ?_, ?_, ?_, ?_, ?_, ?_⟩ <;> decide!

/-- For every rounding `rnd`, a label in a group (whose component list has no duplicates),
previous window dimensions (w0, h0) and different new window dimensions (w1, h1), all
non-zero and converted to `float` without rounding: when each float operation of
`UIGroup::update` and of the getters on the label's rect has relative error at most `u`,
then after
`UIGroup::update` each of the label's pixel position and dimensions is the value before
multiplied by w1/w0 (or h1/h0) up to the relative error (1 + u)^4 - 1, the depth is
unchanged, the group records the new window dimensions, and each component of
`getPosition()` and `getDimensions()` under the new window dimensions differs from its
value under the old window dimensions before the update by at most (1 + u)^5 - 1 + u times
the exact normalized value; for `u = 0`, when no operation rounds, they are equal. -/
theorem UIGroup.updateF_rescales_within (rnd : ℚ → ℚ) (u : ℚ) (g : UIGroup) (w : UIWorld)
    (wd : IVec2) (dt : ℚ) (a : Nat) (hu : 0 ≤ u)
    (hmem : a ∈ g.m_components) (hnd : g.m_components.Nodup)
    (hw0 : g.m_prevWindowDimensions.x ≠ 0) (hh0 : g.m_prevWindowDimensions.y ≠ 0)
    (hw1 : wd.x ≠ 0) (hh1 : wd.y ≠ 0) (hne : g.m_prevWindowDimensions ≠ wd)
    (hconv : rnd wd.x = wd.x ∧ rnd wd.y = wd.y
      ∧ rnd g.m_prevWindowDimensions.x = g.m_prevWindowDimensions.x
      ∧ rnd g.m_prevWindowDimensions.y = g.m_prevWindowDimensions.y)
    (hpx : rescaleWithin rnd u (w.components a).m_background.position.x
      g.m_prevWindowDimensions.x wd.x = true)
    (hpy : rescaleWithin rnd u (w.components a).m_background.position.y
      g.m_prevWindowDimensions.y wd.y = true)
    (hdx : rescaleWithin rnd u (w.components a).m_background.dimensions.x
      g.m_prevWindowDimensions.x wd.x = true)
    (hdy : rescaleWithin rnd u (w.components a).m_background.dimensions.y
      g.m_prevWindowDimensions.y wd.y = true) :
    |((g.updateF rnd wd w dt).2.components a).m_background.position.x
          - (w.components a).m_background.position.x
            * ((wd.x : ℚ) / g.m_prevWindowDimensions.x)|
        ≤ ((1 + u) ^ 4 - 1)
          * |(w.components a).m_background.position.x
            * ((wd.x : ℚ) / g.m_prevWindowDimensions.x)|
      ∧ |((g.updateF rnd wd w dt).2.components a).m_background.position.y
          - (w.components a).m_background.position.y
            * ((wd.y : ℚ) / g.m_prevWindowDimensions.y)|
        ≤ ((1 + u) ^ 4 - 1)
          * |(w.components a).m_background.position.y
            * ((wd.y : ℚ) / g.m_prevWindowDimensions.y)|
      ∧ ((g.updateF rnd wd w dt).2.components a).m_background.position.z
        = (w.components a).m_background.position.z
      ∧ |((g.updateF rnd wd w dt).2.components a).m_background.dimensions.x
          - (w.components a).m_background.dimensions.x
            * ((wd.x : ℚ) / g.m_prevWindowDimensions.x)|
        ≤ ((1 + u) ^ 4 - 1)
          * |(w.components a).m_background.dimensions.x
            * ((wd.x : ℚ) / g.m_prevWindowDimensions.x)|
      ∧ |((g.updateF rnd wd w dt).2.components a).m_background.dimensions.y
          - (w.components a).m_background.dimensions.y
            * ((wd.y : ℚ) / g.m_prevWindowDimensions.y)|
        ≤ ((1 + u) ^ 4 - 1)
          * |(w.components a).m_background.dimensions.y
            * ((wd.y : ℚ) / g.m_prevWindowDimensions.y)|
      ∧ |(((g.updateF rnd wd w dt).2.components a).getPositionF rnd wd).x
          - ((w.components a).getPositionF rnd g.m_prevWindowDimensions).x|
        ≤ ((1 + u) ^ 5 - 1 + u)
          * |(w.components a).m_background.position.x / g.m_prevWindowDimensions.x|
      ∧ |(((g.updateF rnd wd w dt).2.components a).getPositionF rnd wd).y
          - ((w.components a).getPositionF rnd g.m_prevWindowDimensions).y|
        ≤ ((1 + u) ^ 5 - 1 + u)
          * |(w.components a).m_background.position.y / g.m_prevWindowDimensions.y|
      ∧ (((g.updateF rnd wd w dt).2.components a).getPositionF rnd wd).z
        = ((w.components a).getPositionF rnd g.m_prevWindowDimensions).z
      ∧ |(((g.updateF rnd wd w dt).2.components a).getDimensionsF rnd wd).x
          - ((w.components a).getDimensionsF rnd g.m_prevWindowDimensions).x|
        ≤ ((1 + u) ^ 5 - 1 + u)
          * |(w.components a).m_background.dimensions.x / g.m_prevWindowDimensions.x|
      ∧ |(((g.updateF rnd wd w dt).2.components a).getDimensionsF rnd wd).y
          - ((w.components a).getDimensionsF rnd g.m_prevWindowDimensions).y|
        ≤ ((1 + u) ^ 5 - 1 + u)
          * |(w.components a).m_background.dimensions.y / g.m_prevWindowDimensions.y|
      ∧ (g.updateF rnd wd w dt).1.m_prevWindowDimensions = wd := by
  have hx0 : (g.m_prevWindowDimensions.x : ℚ) ≠ 0 := Int.cast_ne_zero.mpr hw0
  have hy0 : (g.m_prevWindowDimensions.y : ℚ) ≠ 0 := Int.cast_ne_zero.mpr hh0
  have hx1 : (wd.x : ℚ) ≠ 0 := Int.cast_ne_zero.mpr hw1
  have hy1 : (wd.y : ℚ) ≠ 0 := Int.cast_ne_zero.mpr hh1
  obtain ⟨c1, c2, c3, c4⟩ := hconv
  have hu2 : (g.updateF rnd wd w dt).2.components a
      = (w.components a).rescaledF rnd wd
          ⟨rnd ((wd.x : ℚ) / g.m_prevWindowDimensions.x),
            rnd ((wd.y : ℚ) / g.m_prevWindowDimensions.y)⟩ := by
    simp only [UIGroup.updateF, hne, ne_eq, not_false_eq_true, if_true, c1, c2, c3, c4]
    rw [UIGroup.rescaleF_components rnd wd _ _ w hnd a, if_pos hmem]
  have hu1 : (g.updateF rnd wd w dt).1.m_prevWindowDimensions = wd := by
    simp [UIGroup.updateF, hne]
  obtain ⟨px1, px2⟩ := rescale_value_within rnd u _ _ _ hu hx0 hx1 hpx
  obtain ⟨py1, py2⟩ := rescale_value_within rnd u _ _ _ hu hy0 hy1 hpy
  obtain ⟨dx1, dx2⟩ := rescale_value_within rnd u _ _ _ hu hx0 hx1 hdx
  obtain ⟨dy1, dy2⟩ := rescale_value_within rnd u _ _ _ hu hy0 hy1 hdy
  rw [hu2]
  simp only [Label.rescaledF, Label.setPositionF, Label.getPositionF, Label.setDimensionsF,
    Label.getDimensionsF, c1, c2, c3, c4]
  exact ⟨px1, py1, trivial, dx1, dy1, px2, py2, trivial, dx2, dy2, hu1⟩

/-- C16, amended. In binary32 arithmetic, for a label in a group (whose component list has
no duplicates), previous window dimensions (w0, h0) and different new window dimensions
(w1, h1), all from 1 to 2^24, and a label whose pixel position and dimensions are each 0 or
of a magnitude from 2^-40 to 2^60: after `UIGroup::update` each of the label's pixel
position and dimensions is the value before multiplied by w1/w0 (or h1/h0) up to the
relative error (1 + 2^-24)^4 - 1 and has a magnitude of at most 2^85, the depth is
unchanged, the group records the new window dimensions, and each component of
`getPosition()` and `getDimensions()` under the new window dimensions differs from its
value under the old window dimensions before the update by at most
(1 + 2^-24)^5 - 1 + 2^-24 times the exact normalized value. -/
theorem UIGroup.updateF_rescales (g : UIGroup) (w : UIWorld) (wd : IVec2) (dt : ℚ) (a : Nat)
    (hmem : a ∈ g.m_components) (hnd : g.m_components.Nodup)
    (hw0 : 1 ≤ g.m_prevWindowDimensions.x ∧ g.m_prevWindowDimensions.x ≤ 2 ^ 24)
    (hh0 : 1 ≤ g.m_prevWindowDimensions.y ∧ g.m_prevWindowDimensions.y ≤ 2 ^ 24)
    (hw1 : 1 ≤ wd.x ∧ wd.x ≤ 2 ^ 24) (hh1 : 1 ≤ wd.y ∧ wd.y ≤ 2 ^ 24)
    (hne : g.m_prevWindowDimensions ≠ wd)
    (hpx : (w.components a).m_background.position.x = 0
      ∨ ((1 : ℚ) / 2 ^ 40 ≤ |(w.components a).m_background.position.x|
        ∧ |(w.components a).m_background.position.x| ≤ 2 ^ 60))
    (hpy : (w.components a).m_background.position.y = 0
      ∨ ((1 : ℚ) / 2 ^ 40 ≤ |(w.components a).m_background.position.y|
        ∧ |(w.components a).m_background.position.y| ≤ 2 ^ 60))
    (hdx : (w.components a).m_background.dimensions.x = 0
      ∨ ((1 : ℚ) / 2 ^ 40 ≤ |(w.components a).m_background.dimensions.x|
        ∧ |(w.components a).m_background.dimensions.x| ≤ 2 ^ 60))
    (hdy : (w.components a).m_background.dimensions.y = 0
      ∨ ((1 : ℚ) / 2 ^ 40 ≤ |(w.components a).m_background.dimensions.y|
        ∧ |(w.components a).m_background.dimensions.y| ≤ 2 ^ 60)) :
    (|((g.updateF float32 wd w dt).2.components a).m_background.position.x
          - (w.components a).m_background.position.x
            * ((wd.x : ℚ) / g.m_prevWindowDimensions.x)|
        ≤ ((1 + 1 / 2 ^ 24) ^ 4 - 1)
          * |(w.components a).m_background.position.x
            * ((wd.x : ℚ) / g.m_prevWindowDimensions.x)|
      ∧ |((g.updateF float32 wd w dt).2.components a).m_background.position.y
          - (w.components a).m_background.position.y
            * ((wd.y : ℚ) / g.m_prevWindowDimensions.y)|
        ≤ ((1 + 1 / 2 ^ 24) ^ 4 - 1)
          * |(w.components a).m_background.position.y
            * ((wd.y : ℚ) / g.m_prevWindowDimensions.y)|
      ∧ ((g.updateF float32 wd w dt).2.components a).m_background.position.z
        = (w.components a).m_background.position.z
      ∧ |((g.updateF float32 wd w dt).2.components a).m_background.dimensions.x
          - (w.components a).m_background.dimensions.x
            * ((wd.x : ℚ) / g.m_prevWindowDimensions.x)|
        ≤ ((1 + 1 / 2 ^ 24) ^ 4 - 1)
          * |(w.components a).m_background.dimensions.x
            * ((wd.x : ℚ) / g.m_prevWindowDimensions.x)|
      ∧ |((g.updateF float32 wd w dt).2.components a).m_background.dimensions.y
          - (w.components a).m_background.dimensions.y
            * ((wd.y : ℚ) / g.m_prevWindowDimensions.y)|
        ≤ ((1 + 1 / 2 ^ 24) ^ 4 - 1)
          * |(w.components a).m_background.dimensions.y
            * ((wd.y : ℚ) / g.m_prevWindowDimensions.y)|
      ∧ |(((g.updateF float32 wd w dt).2.components a).getPositionF float32 wd).x
          - ((w.components a).getPositionF float32 g.m_prevWindowDimensions).x|
        ≤ ((1 + 1 / 2 ^ 24) ^ 5 - 1 + 1 / 2 ^ 24)
          * |(w.components a).m_background.position.x / g.m_prevWindowDimensions.x|
      ∧ |(((g.updateF float32 wd w dt).2.components a).getPositionF float32 wd).y
          - ((w.components a).getPositionF float32 g.m_prevWindowDimensions).y|
        ≤ ((1 + 1 / 2 ^ 24) ^ 5 - 1 + 1 / 2 ^ 24)
          * |(w.components a).m_background.position.y / g.m_prevWindowDimensions.y|
      ∧ (((g.updateF float32 wd w dt).2.components a).getPositionF float32 wd).z
        = ((w.components a).getPositionF float32 g.m_prevWindowDimensions).z
      ∧ |(((g.updateF float32 wd w dt).2.components a).getDimensionsF float32 wd).x
          - ((w.components a).getDimensionsF float32 g.m_prevWindowDimensions).x|
        ≤ ((1 + 1 / 2 ^ 24) ^ 5 - 1 + 1 / 2 ^ 24)
          * |(w.components a).m_background.dimensions.x / g.m_prevWindowDimensions.x|
      ∧ |(((g.updateF float32 wd w dt).2.components a).getDimensionsF float32 wd).y
          - ((w.components a).getDimensionsF float32 g.m_prevWindowDimensions).y|
        ≤ ((1 + 1 / 2 ^ 24) ^ 5 - 1 + 1 / 2 ^ 24)
          * |(w.components a).m_background.dimensions.y / g.m_prevWindowDimensions.y|
      ∧ (g.updateF float32 wd w dt).1.m_prevWindowDimensions = wd)
      ∧ |((g.updateF float32 wd w dt).2.components a).m_background.position.x| ≤ 2 ^ 85
      ∧ |((g.updateF float32 wd w dt).2.components a).m_background.position.y| ≤ 2 ^ 85
      ∧ |((g.updateF float32 wd w dt).2.components a).m_background.dimensions.x| ≤ 2 ^ 85
      ∧ |((g.updateF float32 wd w dt).2.components a).m_background.dimensions.y| ≤ 2 ^ 85 := by
  have q0x : (1 : ℚ) ≤ g.m_prevWindowDimensions.x ∧ (g.m_prevWindowDimensions.x : ℚ) ≤ 2 ^ 24 :=
    ⟨by exact_mod_cast hw0.1, by exact_mod_cast hw0.2⟩
  have q0y : (1 : ℚ) ≤ g.m_prevWindowDimensions.y ∧ (g.m_prevWindowDimensions.y : ℚ) ≤ 2 ^ 24 :=
    ⟨by exact_mod_cast hh0.1, by exact_mod_cast hh0.2⟩
  have q1x : (1 : ℚ) ≤ wd.x ∧ (wd.x : ℚ) ≤ 2 ^ 24 :=
    ⟨by exact_mod_cast hw1.1, by exact_mod_cast hw1.2⟩
  have q1y : (1 : ℚ) ≤ wd.y ∧ (wd.y : ℚ) ≤ 2 ^ 24 :=
    ⟨by exact_mod_cast hh1.1, by exact_mod_cast hh1.2⟩
  have hconv : ∀ n : Int, 1 ≤ n ∧ n ≤ 2 ^ 24 → float32 (n : ℚ) = n := by
    intro n hn
    exact float32_intCast n (by rw [abs_of_nonneg (by omega)]; exact hn.2)
  have hlow : ∀ v : ℚ, (v = 0 ∨ ((1 : ℚ) / 2 ^ 40 ≤ |v| ∧ |v| ≤ 2 ^ 60)) →
      (v = 0 ∨ (1 : ℚ) / 2 ^ 40 ≤ |v|) := by
    intro v hv
    rcases hv with hv | hv
    · exact Or.inl hv
    · exact Or.inr hv.1
  have hhigh : ∀ v : ℚ, (v = 0 ∨ ((1 : ℚ) / 2 ^ 40 ≤ |v| ∧ |v| ≤ 2 ^ 60)) → |v| ≤ 2 ^ 60 := by
    intro v hv
    rcases hv with hv | hv
    · rw [hv, abs_zero]
      positivity
    · exact hv.2
  have hmain := UIGroup.updateF_rescales_within float32 (1 / 2 ^ 24) g w wd dt a
    (by positivity) hmem hnd (by omega) (by omega) (by omega) (by omega) hne
    ⟨hconv _ hw1, hconv _ hh1, hconv _ hw0, hconv _ hh0⟩
    (rescaleWithin_float32 _ _ _ q0x.1 q0x.2 q1x.1 q1x.2 (hlow _ hpx))
    (rescaleWithin_float32 _ _ _ q0y.1 q0y.2 q1y.1 q1y.2 (hlow _ hpy))
    (rescaleWithin_float32 _ _ _ q0x.1 q0x.2 q1x.1 q1x.2 (hlow _ hdx))
    (rescaleWithin_float32 _ _ _ q0y.1 q0y.2 q1y.1 q1y.2 (hlow _ hdy))
  have hbound : ∀ (n v w0 w1 : ℚ), 1 ≤ w0 → 1 ≤ w1 → w1 ≤ 2 ^ 24 → |v| ≤ 2 ^ 60 →
      |n - v * (w1 / w0)| ≤ ((1 + 1 / 2 ^ 24) ^ 4 - 1) * |v * (w1 / w0)| →
      |n| ≤ 2 ^ 85 := by
    intro n v w0 w1 h0 h1 h1u hv hn
    have hw0p : (0 : ℚ) < w0 := by linarith
    have hw1p : (0 : ℚ) < w1 := by linarith
    have hq : w1 / w0 ≤ 2 ^ 24 := by
      rw [div_le_iff₀ hw0p]
      have : (2 : ℚ) ^ 24 * 1 ≤ 2 ^ 24 * w0 := mul_le_mul_of_nonneg_left h0 (by positivity)
      linarith
    have hqp : 0 < w1 / w0 := div_pos hw1p hw0p
    have hE : |v * (w1 / w0)| ≤ 2 ^ 84 := by
      rw [abs_mul, abs_of_pos hqp]
      have := mul_le_mul hv hq (le_of_lt hqp) (by positivity)
      norm_num at this ⊢
      linarith
    have htri : |n| ≤ |n - v * (w1 / w0)| + |v * (w1 / w0)| := by
      have := abs_add (n - v * (w1 / w0)) (v * (w1 / w0))
      simpa using this
    have hc : ((1 : ℚ) + 1 / 2 ^ 24) ^ 4 - 1 ≤ 1 := by norm_num
    have hnn : (0 : ℚ) ≤ |v * (w1 / w0)| := abs_nonneg _
    have hmul : ((1 + 1 / 2 ^ 24) ^ 4 - 1) * |v * (w1 / w0)| ≤ 1 * |v * (w1 / w0)| :=
      mul_le_mul_of_nonneg_right hc hnn
    have h85 : (2 : ℚ) ^ 85 = 2 * 2 ^ 84 := by norm_num
    linarith
  obtain ⟨b1, b2, b3, b4, b5, b6⟩ := hmain
  refine ⟨⟨b1, b2, b3, b4, b5, b6⟩, ?_, ?_, ?_, ?_⟩
  · exact hbound _ _ _ _ q0x.1 q1x.1 q1x.2 (hhigh _ hpx) b1
  · exact hbound _ _ _ _ q0y.1 q1y.1 q1y.2 (hhigh _ hpy) b2
  · exact hbound _ _ _ _ q0x.1 q1x.1 q1x.2 (hhigh _ hdx) b4
  · exact hbound _ _ _ _ q0y.1 q1y.1 q1y.2 (hhigh _ hdy) b5

theorem UIGroup.updateF_rescales_witness :
    (1 ≤ exampleGroupRunF.group.m_prevWindowDimensions.y
        ∧ exampleGroupRunF.group.m_prevWindowDimensions.y ≤ 2 ^ 24)
      ∧ (exampleGroupRunF.world.components 1).m_background.dimensions.y = 60
      ∧ ((exampleGroupRunF.world.components 1).getDimensionsF float32
          exampleGroupRunF.group.m_prevWindowDimensions).y = 13421773 / 134217728
      ∧ (((exampleGroupRunF.group.updateF float32 ⟨1024, 768⟩ exampleGroupRunF.world
            0).2.components 1).getDimensionsF float32 ⟨1024, 768⟩).y
          = 13421772 / 134217728
      ∧ |(((exampleGroupRunF.group.updateF float32 ⟨1024, 768⟩ exampleGroupRunF.world
            0).2.components 1).getDimensionsF float32 ⟨1024, 768⟩).y
          - ((exampleGroupRunF.world.components 1).getDimensionsF float32
              exampleGroupRunF.group.m_prevWindowDimensions).y|
        ≤ ((1 + 1 / 2 ^ 24) ^ 5 - 1 + 1 / 2 ^ 24)
          * |(exampleGroupRunF.world.components 1).m_background.dimensions.y
              / exampleGroupRunF.group.m_prevWindowDimensions.y| :=
  ⟨by decide, by decide!, by decide!, by decide!,
    (UIGroup.updateF_rescales exampleGroupRunF.group exampleGroupRunF.world ⟨1024, 768⟩ 0 1
      (by decide) (by decide) (by decide) (by decide) (by decide) (by decide) (by decide)
      (by decide!) (by decide!) (by decide!) (by decide!)).1.2.2.2.2.2.2.2.2.2.1⟩

/-! ## Button clicks -/

/-- The hit test reads only the position and the dimensions of the background. -/
theorem MouseOver_label_congr (mouse : Vec2) (camera : Camera) (wd : IVec2) (l1 l2 : Label)
    (hp : l1.m_background.position = l2.m_background.position)
    (hd : l1.m_background.dimensions = l2.m_background.dimensions) :
    MouseOver Label.ops mouse camera wd l1 = MouseOver Label.ops mouse camera wd l2 := by
  simp only [MouseOver, Label.ops, Label.getPosition, Label.getDimensions, hp, hd]

/-- The state of a button after `Button::processInput`: it is selected iff the mouse is over
it, clicked iff moreover the left button is down, and its ID and rect are unchanged. -/
theorem Button.processInput_state (mouse : Vec2) (camera : Camera) (wd : IVec2)
    (leftDown leftWasDown : Bool) (b : Button) :
    (Button.processInput mouse camera wd leftDown leftWasDown b).1.m_selected
        = MouseOver Label.ops mouse camera wd b.toLabel
      ∧ (Button.processInput mouse camera wd leftDown leftWasDown b).1.m_clicked
        = (MouseOver Label.ops mouse camera wd b.toLabel && leftDown)
      ∧ (Button.processInput mouse camera wd leftDown leftWasDown b).1.m_ID = b.m_ID
      ∧ (Button.processInput mouse camera wd leftDown leftWasDown b).1.m_background.position
        = b.m_background.position
      ∧ (Button.processInput mouse camera wd leftDown leftWasDown b).1.m_background.dimensions
        = b.m_background.dimensions := by
  unfold Button.processInput
  cases hover : MouseOver Label.ops mouse camera wd b.toLabel <;>
    cases hs : b.m_selected <;> cases leftDown <;>
    simp [Button.setSelected, Button.setClicked, Button.withCoordinates, hs]

/-- The events of `Button::processInput`: a `ClickedEvent` is sent iff the mouse is over the
button, the button was in its clicked state, and the left button is up and was down at the
last input update. -/
theorem Button.processInput_clicked (mouse : Vec2) (camera : Camera) (wd : IVec2)
    (leftDown leftWasDown : Bool) (b : Button) (id : Int) (hid : id = b.m_ID) :
    (⟨id, Button.ClickedEvent⟩ : UIEvent)
        ∈ (Button.processInput mouse camera wd leftDown leftWasDown b).2
      ↔ (MouseOver Label.ops mouse camera wd b.toLabel = true ∧ b.m_clicked = true
          ∧ leftDown = false ∧ leftWasDown = true) := by
  subst hid
  unfold Button.processInput
  cases hover : MouseOver Label.ops mouse camera wd b.toLabel <;>
    cases hs : b.m_selected <;> cases hc : b.m_clicked <;> cases leftDown <;>
    cases leftWasDown <;>
    simp [Button.setSelected, Button.setClicked, Button.withCoordinates, hs, hc,
      Button.ClickedEvent, Button.SelectedEvent, Button.UnselectedEvent]

/-- A further frame at the end of a sequence of frames. -/
theorem Button.afterFrames_append (camera : Camera) (wd : IVec2) (frames : List InputFrame)
    (p : InputFrame) :
    ∀ (b : Button) (leftWasDown : Bool),
      Button.afterFrames camera wd b leftWasDown (frames ++ [p])
        = ((Button.processInput p.mouse camera wd p.leftDown
              (Button.afterFrames camera wd b leftWasDown frames).2
              (Button.afterFrames camera wd b leftWasDown frames).1).1, p.leftDown) := by
  induction frames with
  | nil => intro b leftWasDown; rfl
  | cons f rest ih =>
    intro b leftWasDown
    simp only [List.cons_append, Button.afterFrames]
    exact ih _ _

/-- Frames of `Button::processInput` change neither the ID nor the rect of a button. -/
theorem Button.afterFrames_rect (camera : Camera) (wd : IVec2) (frames : List InputFrame) :
    ∀ (b : Button) (leftWasDown : Bool),
      (Button.afterFrames camera wd b leftWasDown frames).1.m_ID = b.m_ID
        ∧ (Button.afterFrames camera wd b leftWasDown frames).1.m_background.position
          = b.m_background.position
        ∧ (Button.afterFrames camera wd b leftWasDown frames).1.m_background.dimensions
          = b.m_background.dimensions := by
  induction frames with
  | nil => intro b leftWasDown; exact ⟨rfl, rfl, rfl⟩
  | cons f rest ih =>
    intro b leftWasDown
    simp only [Button.afterFrames]
    obtain ⟨h1, h2, h3⟩ :=
      ih (Button.processInput f.mouse camera wd f.leftDown leftWasDown b).1 f.leftDown
    obtain ⟨-, -, g1, g2, g3⟩ :=
      Button.processInput_state f.mouse camera wd f.leftDown leftWasDown b
    exact ⟨h1.trans g1, h2.trans g2, h3.trans g3⟩

/-- C19, the claim as stated fails: the left button goes down while the mouse is away from
the button, the mouse is dragged over the button with the left button held, and the left
button is let go over the button; the last frame sends a `ClickedEvent` although the press
edge occurred while the mouse was not over the button. -/
theorem Button.click_without_hovered_press :
    MouseOver Label.ops ⟨0, 0⟩ centredCamera exampleWindow exampleButton.toLabel = false
      ∧ (⟨exampleButton.m_ID, Button.ClickedEvent⟩ : UIEvent)
        ∈ Button.eventsAfter centredCamera exampleWindow exampleButton false dragOntoButton
            ⟨⟨401, 359⟩, false⟩ := by
  constructor
  · norm_num [MouseOver, Label.ops, Label.getPosition, Label.getDimensions,
      getMousePosition, FloatValue.div, FloatValue.add, FloatValue.lt,
      FloatValue.gt, centredCamera, exampleWindow, exampleButton, Button.init,
      Button.setSelected, Button.setClicked, Button.withCoordinates, Button.default,
      Label.init, Label.setPosition, Label.setDimensions, Label.default, Sprite.init,
      Sprite.default]
  · norm_num [Button.eventsAfter, Button.afterFrames, dragOntoButton, Button.processInput,
      MouseOver, Label.ops, Label.getPosition, Label.getDimensions,
      getMousePosition, FloatValue.div, FloatValue.add, FloatValue.lt,
      FloatValue.gt, centredCamera, exampleWindow, exampleButton, Button.init,
      Button.setSelected, Button.setClicked, Button.withCoordinates, Button.default,
      Label.init, Label.setPosition, Label.setDimensions, Label.default, Sprite.init,
      Sprite.default, Button.ClickedEvent, Button.SelectedEvent, Button.UnselectedEvent]

/-- C19, amended. Over any sequence of `Button::processInput` frames, a `ClickedEvent` is
sent in a frame that follows another frame exactly when the mouse is over the button in
that frame, the left button is up in it and was down in the frame before, and in the frame
before the mouse was over the button too; where the press edge occurred plays no part. -/
theorem Button.clicked_event_iff (camera : Camera) (wd : IVec2) (b : Button)
    (leftWasDown : Bool) (frames : List InputFrame) (p f : InputFrame) :
    (⟨b.m_ID, Button.ClickedEvent⟩ : UIEvent)
        ∈ Button.eventsAfter camera wd b leftWasDown (frames ++ [p]) f
      ↔ (MouseOver Label.ops f.mouse camera wd b.toLabel = true ∧ f.leftDown = false
          ∧ p.leftDown = true ∧ MouseOver Label.ops p.mouse camera wd b.toLabel = true) := by
  obtain ⟨r1, r2, r3⟩ := Button.afterFrames_rect camera wd frames b leftWasDown
  obtain ⟨-, s2, s3, s4, s5⟩ :=
    Button.processInput_state p.mouse camera wd p.leftDown
      (Button.afterFrames camera wd b leftWasDown frames).2
      (Button.afterFrames camera wd b leftWasDown frames).1
  have hover : ∀ mouse : Vec2,
      MouseOver Label.ops mouse camera wd
          (Button.afterFrames camera wd b leftWasDown frames).1.toLabel
        = MouseOver Label.ops mouse camera wd b.toLabel :=
    fun mouse => MouseOver_label_congr mouse camera wd _ _ r2 r3
  have hover2 : ∀ mouse : Vec2,
      MouseOver Label.ops mouse camera wd
          (Button.processInput p.mouse camera wd p.leftDown
            (Button.afterFrames camera wd b leftWasDown frames).2
            (Button.afterFrames camera wd b leftWasDown frames).1).1.toLabel
        = MouseOver Label.ops mouse camera wd b.toLabel :=
    fun mouse => (MouseOver_label_congr mouse camera wd _ _ s4 s5).trans (hover mouse)
  simp only [Button.eventsAfter, Button.afterFrames_append]
  rw [Button.processInput_clicked f.mouse camera wd f.leftDown p.leftDown _ b.m_ID
    ((s3.trans r1).symm), hover2, s2, hover]
  simp only [Bool.and_eq_true]
  tauto

/-! ## The cursor of a text area -/

/-- A loop whose step alternates between two states without setting its flag is still
running after any number of iterations. -/
theorem loopUntilGood_cycle (step : TextArea → TextArea × Bool) (a b : TextArea)
    (hab : step a = (b, false)) (hba : step b = (a, false)) :
    ∀ fuel, loopUntilGood step fuel a = none ∧ loopUntilGood step fuel b = none := by
  intro fuel
  induction fuel with
  | zero => exact ⟨rfl, rfl⟩
  | succ n ih =>
    constructor
    · simp only [loopUntilGood, hab, Bool.false_eq_true, if_false]; exact ih.2
    · simp only [loopUntilGood, hba, Bool.false_eq_true, if_false]; exact ih.1

/-- An iteration of the horizontal loop that finds the cursor beyond the right edge of the
background moves the text and the cursor left by a fifth of the background width. -/
theorem TextArea.stepX_left (ta : TextArea)
    (hx : ¬ ta.m_cursor.position.x < ta.m_background.position.x)
    (hc : ta.m_cursor.position.x + ta.m_cursor.dimensions.x
      > ta.m_background.position.x + ta.m_background.dimensions.x) :
    ta.stepX
      = ((ta.withHorizontalPosition
            (ta.m_textHorizontalPosition - ta.m_background.dimensions.x / 5)).withCursorPosition
          ⟨ta.m_cursor.position.x - ta.m_background.dimensions.x / 5, ta.m_cursor.position.y,
            ta.m_cursor.position.z⟩, false) := by
  unfold TextArea.stepX
  simp only [hx, if_false]
  rw [if_pos hc]

/-- An iteration of the horizontal loop that finds the cursor left of the background moves
the text and the cursor right by a fifth of the background width; the loop goes on when the
text position is then not right of the left edge. -/
theorem TextArea.stepX_right (ta : TextArea)
    (hx : ta.m_cursor.position.x < ta.m_background.position.x)
    (hc : ¬ ta.m_textHorizontalPosition + ta.m_background.dimensions.x / 5
      > ta.m_background.position.x) :
    ta.stepX
      = ((ta.withHorizontalPosition
            (ta.m_textHorizontalPosition + ta.m_background.dimensions.x / 5)).withCursorPosition
          ⟨ta.m_cursor.position.x + ta.m_background.dimensions.x / 5, ta.m_cursor.position.y,
            ta.m_cursor.position.z⟩, false) := by
  unfold TextArea.stepX
  simp only [hx, if_true]
  rw [if_neg (by simpa [TextArea.withHorizontalPosition, TextArea.withCursorPosition] using hc)]

/-- With a background of width 0, an iteration of the horizontal loop that finds the cursor
beyond the right edge changes nothing. -/
theorem TextArea.stepX_zero_width (ta : TextArea) (hw : ta.m_background.dimensions.x = 0)
    (hx : ¬ ta.m_cursor.position.x < ta.m_background.position.x)
    (hc : ta.m_cursor.position.x + ta.m_cursor.dimensions.x
      > ta.m_background.position.x + ta.m_background.dimensions.x) :
    ta.stepX = (ta, false) := by
  rw [TextArea.stepX_left ta hx hc, hw]
  simp only [zero_div, sub_zero, TextArea.withHorizontalPosition, TextArea.withCursorPosition]

/-- The text area of width 0 when `putCursorInView` enters its horizontal loop. -/
theorem zeroWidthTextArea_updated (font : Option Font) (textScale : ℚ) :
    ∃ ta, TextArea.update font textScale zeroWidthTextArea 0 = some ta
      ∧ ta.m_background.dimensions.x = 0 ∧ ta.m_background.position.x = 200
      ∧ ta.m_cursor.position.x = 200 ∧ ta.m_cursor.dimensions.x = 2 := by
  refine ⟨_, rfl, ?_, ?_, ?_, ?_⟩ <;>
  norm_num [TextArea.update, TextArea.cursorLoop, zeroWidthTextArea, TextArea.init,
    TextArea.setPosition, TextBox.setPosition, TextBox.setDimensions, TextBox.initFields,
    TextBox.setSelected, TextBox.withBackground, TextArea.withCursorPosition,
    TextArea.default, TextBox.default, Label.default, Label.setPosition, Sprite.init,
    Sprite.default, exampleWindow, toInt, UINT_MOD]

/-- The narrow text area when `putCursorInView` enters its horizontal loop. -/
theorem narrowTextArea_updated (font : Option Font) (textScale : ℚ) :
    ∃ ta, TextArea.update font textScale narrowTextArea 0 = some ta
      ∧ ta.m_background.dimensions.x = 5 ∧ ta.m_background.position.x = 0
      ∧ ta.m_cursor.position.x = 0 ∧ ta.m_cursor.dimensions.x = 10
      ∧ ta.m_textHorizontalPosition = 0 := by
  refine ⟨_, rfl, ?_, ?_, ?_, ?_, ?_⟩ <;>
  norm_num [TextArea.update, TextArea.cursorLoop, narrowTextArea, TextArea.init,
    TextArea.setPosition, TextBox.setPosition, TextBox.setDimensions, TextBox.initFields,
    TextBox.setSelected, TextBox.withBackground, TextArea.withCursorPosition,
    TextArea.default, TextBox.default, Label.default, Label.setPosition, Sprite.init,
    Sprite.default, exampleWindow, toInt, UINT_MOD]

/-- C17. `TextArea::putCursorInView` does not return for a text area of width 0 with one
line, no text and a cursor 2 pixels wide: whatever the number of iterations allowed, its
horizontal loop is still running, and an iteration leaves the state unchanged with the
cursor 2 pixels out of bounds. It does not return either for a text area 5 pixels wide with
a cursor 10 pixels wide, where the iterations alternate between two states and the second
one moves the out-of-bounds distance from 4 back up to 5. -/
theorem TextArea.putCursorInView_never_returns (font : Option Font) (textScale : ℚ)
    (fuel : Nat) :
    TextArea.putCursorInView font textScale fuel zeroWidthTextArea = .running
      ∧ (∃ ta, TextArea.update font textScale zeroWidthTextArea 0 = some ta
          ∧ ta.stepX = (ta, false) ∧ ta.outOfBoundsX = 2)
      ∧ TextArea.putCursorInView font textScale fuel narrowTextArea = .running
      ∧ (∃ ta, TextArea.update font textScale narrowTextArea 0 = some ta
          ∧ ta.stepX.2 = false ∧ ta.stepX.1.stepX = (ta, false)
          ∧ ta.stepX.1.outOfBoundsX = 4 ∧ ta.outOfBoundsX = 5) := by
  obtain ⟨ta, hta, hw, hp, hc, hd⟩ := zeroWidthTextArea_updated font textScale
  have hstep : ta.stepX = (ta, false) :=
    TextArea.stepX_zero_width ta hw (by rw [hc, hp]; norm_num)
      (by rw [hc, hp, hd, hw]; norm_num)
  obtain ⟨tb, htb, kw, kp, kc, kd, kt⟩ := narrowTextArea_updated font textScale
  have h1 := TextArea.stepX_left tb (by rw [kc, kp]; norm_num)
    (by rw [kc, kp, kd, kw]; norm_num)
  have h2 := TextArea.stepX_right (tb.stepX.1)
    (by
      rw [h1]
      simp only [TextArea.withHorizontalPosition, TextArea.withCursorPosition, kc, kp, kw]
      norm_num)
    (by
      rw [h1]
      simp only [TextArea.withHorizontalPosition, TextArea.withCursorPosition, kt, kp, kw]
      norm_num)
  have h3 : tb.stepX.1.stepX = (tb, false) := by
    rw [h2, h1]
    simp only [TextArea.withHorizontalPosition, TextArea.withCursorPosition, sub_add_cancel]
  have h4 : tb.stepX = (tb.stepX.1, false) := by rw [h1]
  refine ⟨?_, ⟨ta, hta, hstep, ?_⟩, ?_, ⟨tb, htb, ?_, h3, ?_, ?_⟩⟩
  · simp only [TextArea.putCursorInView, hta,
      (loopUntilGood_cycle _ ta ta hstep hstep fuel).1]
  · simp only [TextArea.outOfBoundsX, hw, hp, hc, hd]; norm_num
  · simp only [TextArea.putCursorInView, htb, (loopUntilGood_cycle _ tb _ h4 h3 fuel).1]
  · rw [h1]
  · rw [h1]
    simp only [TextArea.outOfBoundsX, TextArea.withHorizontalPosition,
      TextArea.withCursorPosition, kw, kp, kc, kd]
    norm_num
  · simp only [TextArea.outOfBoundsX, kw, kp, kc, kd]; norm_num

/-! ## The character limit of a text box -/

/-- The insertion loop of `TextBox::charTyped` copies every character and inserts `c` at
most once. -/
theorem insertLoop_length (c : Char) (cursor : Nat) (text : List Char) :
    ∀ (cp : Nat) (nt : List Char) (s : Bool),
      (insertLoop c cursor text cp nt s).1.length
        ≤ nt.length + text.length + (if cp ≤ cursor then 1 else 0) := by
  induction text with
  | nil => intro cp nt s; simp [insertLoop]
  | cons ch rest ih =>
    intro cp nt s
    simp only [insertLoop]
    split
    · rename_i hcp
      have h := ih (cp + 1) (nt ++ [c] ++ [ch]) true
      have hgt : ¬ cp + 1 ≤ cursor := by omega
      have hle : cp ≤ cursor := by omega
      simp only [hgt, if_false, List.length_append, List.length_singleton] at h
      simp only [hle, if_true, List.length_cons]
      omega
    · rename_i hcp
      have h := ih (cp + 1) (nt ++ [ch]) s
      simp only [List.length_append, List.length_singleton] at h
      simp only [List.length_cons]
      split at h <;> split <;> omega

/-- For a text box whose maximum character count is at least 1 and whose text is no longer
than it, the text is no longer than it after `charTyped(c)`. -/
theorem TextBox.charTyped_length_le (tb : TextBox) (c : Char)
    (hpos : 1 ≤ tb.m_maxCharacters) (hint : tb.m_maxCharacters ≤ INT_MAX)
    (hlen : (tb.m_text.length : Int) ≤ tb.m_maxCharacters) :
    ((tb.charTyped c).m_text.length : Int) ≤ tb.m_maxCharacters := by
  have hsize : toSizeT tb.m_maxCharacters = tb.m_maxCharacters.toNat :=
    toSizeT_of_range _ (by omega) hint
  have hlength : ∀ s : String, s.length = s.data.length := fun _ => rfl
  unfold TextBox.charTyped
  split
  · exact hlen
  · split
    · rename_i hfull
      simp only [hsize, stringResize, hlength, List.length_append, List.length_take,
        List.length_replicate]
      omega
    · rename_i hfull
      have hlt : (tb.m_text.length : Int) < tb.m_maxCharacters := by
        rw [hsize] at hfull
        by_contra hge
        exact hfull ⟨by omega, by omega⟩
      dsimp only
      split
      · exact hlen
      · have h := insertLoop_length c tb.m_cursorPosition tb.m_text.data 0 [] false
        simp only [List.length_nil, Nat.zero_add] at h
        rw [hlength] at hlt
        split
        · simp only [hlength]
          split at h <;> omega
        · simp only [hlength, List.length_append, List.length_singleton]
          omega

/-- C18. A selected text box with a maximum character count of 0 and the empty text: after
`charTyped` of the character a the text is that character, of length 1, beyond the
maximum of 0. -/
theorem TextBox.charTyped_exceeds_zero_maximum :
    zeroLimitTextBox.m_maxCharacters = 0 ∧ zeroLimitTextBox.m_selected = true
      ∧ zeroLimitTextBox.getText = ""
      ∧ (zeroLimitTextBox.charTyped 'a').getText = "a" := by
  refine ⟨rfl, rfl, rfl, ?_⟩
  simp [zeroLimitTextBox, TextBox.charTyped, TextBox.getText, TextBox.setSelected,
    TextBox.withBackground, TextBox.init, TextBox.initFields, TextBox.setPosition,
    TextBox.setDimensions, toSizeT, insertLoop]

/-! ## A character without a glyph -/

/-- When the font lookup returns null, the text `submit` returns with the manager, and so
the per-frame glyph and sprite lists, unchanged. -/
theorem submitText_null_font (g : GraphicsManager) (text : String) (position : Vec3)
    (box : Vec4) (scale : ℚ) (color : Vec4) (fontFileName : String)
    (horizontalAlignment verticalAlignment : Alignment) (shader : Nat)
    (hfont : g.getFont fontFileName = none) :
    g.submitText text position box scale color fontFileName horizontalAlignment
      verticalAlignment shader = some g := by
  unfold GraphicsManager.submitText
  split
  · rfl
  · rw [hfont]

/-- C20. The example font has glyphs for the characters a and b only; the text `submit` of
the text é with that font does not return normally: the lookup `glyphs.at(c)` of its first
loop throws. -/
theorem submitText_missing_glyph_throws :
    exampleTextManager.getFont "f" = some exampleFont
      ∧ exampleFont.glyphAt 'é' = none
      ∧ exampleTextManager.submitText "é" ⟨0, 0, 0⟩ ⟨0, 0, 7, 5⟩ 1 ⟨1, 1, 1, 1⟩ "f"
          .AC_ALIGN_LEFT .AC_ALIGN_BOTTOM 7 = none := by
  refine ⟨rfl, by decide, ?_⟩
  simp [GraphicsManager.submitText, GraphicsManager.getFont, exampleTextManager,
    exampleFont, textOrigin, sumOffsets, Font.glyphAt, List.lookup]

/-! ## The horizontal position of the glyphs of a text -/

/-- The first loop of the text `submit` adds the sum of the advances. -/
theorem sumOffsets_eq (font : Font) (cs : List Char) :
    ∀ w0 w : ℚ, sumOffsets font cs w0 = some w → w = w0 + advanceSum font cs := by
  induction cs with
  | nil =>
    intro w0 w h
    simp only [sumOffsets, Option.some.injEq] at h
    simp [advanceSum, h]
  | cons c cs ih =>
    intro w0 w h
    simp only [sumOffsets] at h
    cases hg : font.glyphAt c with
    | none => rw [hg] at h; cases h
    | some g0 =>
      rw [hg] at h
      have := ih _ _ h
      simp only [advanceSum, List.map_cons, List.sum_cons, hg] at this ⊢
      rw [this]
      ring

/-- The horizontal position of a placed glyph. -/
theorem placeGlyph_x (g0 : Glyph) (x y z scale : ℚ) :
    (placeGlyph g0 x y z scale).position.x = x + g0.bearing.x * scale
      ∧ (placeGlyph g0 x y z scale).offset = g0.offset := ⟨rfl, rfl⟩

/-- The i-th glyph placed by the glyph loop started at pen position `x` lies at `x` plus
the scaled advances of the glyphs before it plus its own scaled bearing. -/
theorem placedGlyphs_x (font : Font) (box : Vec4) (scale y z : ℚ) (cs : List Char) :
    ∀ (x : ℚ) (i : Nat) (gl : Glyph),
      (placedGlyphs font box scale y z cs x).get? i = some gl →
      ∃ (ci : Char) (gi : Glyph), cs.get? i = some ci ∧ font.glyphAt ci = some gi
        ∧ gl.position.x = x + scale * advanceSum font (cs.take i) + scale * gi.bearing.x := by
  induction cs with
  | nil => intro x i gl h; simp [placedGlyphs] at h
  | cons c cs ih =>
    intro x i gl h
    cases hg : font.glyphAt c with
    | none => simp [placedGlyphs, hg] at h
    | some g0 =>
      simp only [placedGlyphs, hg] at h
      cases i with
      | zero =>
        refine ⟨c, g0, rfl, hg, ?_⟩
        have hgl : gl = placeGlyph g0 x y z scale := by
          split at h
          · simpa using h.symm
          · split at h
            · simpa using h.symm
            · simpa using h.symm
        rw [hgl, (placeGlyph_x g0 x y z scale).1]
        simp [advanceSum]
        ring
      | succ i =>
        have hrest : (placedGlyphs font box scale y z cs (x + g0.offset * scale)).get? i
            = some gl := by
          split at h
          · simpa [placeGlyph_x] using h
          · split at h
            · simp at h
            · simpa [placeGlyph_x] using h
        obtain ⟨ci, gi, h1, h2, h3⟩ := ih _ i gl hrest
        refine ⟨ci, gi, by simpa using h1, h2, ?_⟩
        rw [h3]
        simp only [List.take_succ_cons, advanceSum, List.map_cons, List.sum_cons, hg]
        ring

/-- The glyph loop records the placed glyphs that lie inside the box, coloured and
drawn. -/
theorem textLoop_placedGlyphs (font : Font) (box : Vec4) (scale : ℚ) (color : Vec4)
    (y z : ℚ) (cs : List Char) :
    ∀ (x : ℚ) (acc : List Glyph), (∀ c ∈ cs, ∃ g0, font.glyphAt c = some g0) →
      textLoop font box scale color y z cs x acc
        = some (acc ++ ((placedGlyphs font box scale y z cs x).filter (insideBox box)).map
            (fun gl => Glyph.draw { gl with color := color })) := by
  induction cs with
  | nil => intro x acc _; simp [textLoop, placedGlyphs]
  | cons c cs ih =>
    intro x acc hall
    obtain ⟨g0, hg0⟩ := hall c (by simp)
    have hrest : ∀ c' ∈ cs, ∃ g0, font.glyphAt c' = some g0 :=
      fun c' hc' => hall c' (List.mem_cons_of_mem _ hc')
    simp only [textLoop, placedGlyphs, hg0]
    cases hin : insideBox box (placeGlyph g0 x y z scale)
    · cases hov : overflowsRight box (placeGlyph g0 x y z scale)
      · simp only [Bool.false_eq_true, if_false, List.filter_cons, hin]
        exact ih (x + g0.offset * scale) acc hrest
      · simp [List.filter_cons, hin]
    · simp only [if_true, List.filter_cons, hin, List.map_cons]
      have h := ih (x + g0.offset * scale)
        (acc ++ [Glyph.draw { placeGlyph g0 x y z scale with color := color }]) hrest
      rw [List.append_assoc] at h
      exact h

/-- In exact arithmetic, for every text, font, scale `s` and box `B`, the i-th glyph that
the text `submit` places lies at x = X0 - s * bearing_0.x + s * (sum of the advances of the
glyphs 0..i-1) + s * bearing_i.x, where X0 is `B.x` for LEFT, `B.x + B.w - labelWidth` for
RIGHT,
`B.x + B.w / 2 - labelWidth / 2` for CENTER and `position.x` otherwise, with
labelWidth = s * (sum of all advances); with LEFT alignment the left edge of the first
glyph is `B.x`. -/
theorem submitText_glyph_x (g : GraphicsManager) (text : String) (position : Vec3)
    (box : Vec4) (scale : ℚ) (fontFileName : String) (hAlign vAlign : Alignment)
    (font : Font) (hfont : g.getFont fontFileName = some font) (i : Nat) (gl : Glyph)
    (hi : (g.placedGlyphs text position box scale fontFileName hAlign vAlign).get? i
      = some gl) :
    (∃ (c0 ci : Char) (g0 gi : Glyph), text.data.head? = some c0 ∧ text.data.get? i = some ci
        ∧ font.glyphAt c0 = some g0 ∧ font.glyphAt ci = some gi
        ∧ gl.position.x
          = (if hAlign = .AC_ALIGN_LEFT then box.x
              else if hAlign = .AC_ALIGN_RIGHT then
                box.x + box.z - scale * advanceSum font text.data
              else if hAlign = .AC_ALIGN_CENTER then
                box.x + box.z / 2 - scale * advanceSum font text.data / 2
              else position.x)
            - scale * g0.bearing.x + scale * advanceSum font (text.data.take i)
            + scale * gi.bearing.x)
      ∧ (hAlign = .AC_ALIGN_LEFT → i = 0 → gl.position.x = box.x) := by
  unfold GraphicsManager.placedGlyphs at hi
  rw [hfont] at hi
  cases hdata : text.data with
  | nil => rw [hdata] at hi; simp at hi
  | cons c0 rest =>
    rw [hdata] at hi
    simp only [List.isEmpty_cons, Bool.false_eq_true, if_false] at hi
    split at hi
    · simp at hi
    · cases ho : textOrigin font position box scale hAlign vAlign (c0 :: rest) with
      | none => rw [ho] at hi; simp at hi
      | some o =>
        obtain ⟨x, y⟩ := o
        rw [ho] at hi
        simp only at hi
        obtain ⟨ci, gi, h1, h2, h3⟩ := placedGlyphs_x font box scale y position.z _ x i gl hi
        simp only [textOrigin] at ho
        cases hw : sumOffsets font (c0 :: rest) 0 with
        | none => rw [hw] at ho; cases ho
        | some w =>
          rw [hw] at ho
          cases hg0 : font.glyphAt c0 with
          | none => rw [hg0] at ho; cases ho
          | some g0 =>
            rw [hg0] at ho
            simp only [Option.some.injEq, Prod.mk.injEq] at ho
            have hwsum := sumOffsets_eq font _ _ _ hw
            rw [zero_add] at hwsum
            obtain ⟨hox, -⟩ := ho
            have hx : gl.position.x
                = (if hAlign = .AC_ALIGN_LEFT then box.x
                    else if hAlign = .AC_ALIGN_RIGHT then
                      box.x + box.z - scale * advanceSum font (c0 :: rest)
                    else if hAlign = .AC_ALIGN_CENTER then
                      box.x + box.z / 2 - scale * advanceSum font (c0 :: rest) / 2
                    else position.x)
                  - scale * g0.bearing.x + scale * advanceSum font ((c0 :: rest).take i)
                  + scale * gi.bearing.x := by
              rw [h3, ← hox, hwsum]
              cases hAlign <;> simp [alignX] <;> ring
            refine ⟨⟨c0, ci, g0, gi, rfl, h1, hg0, h2, hx⟩, ?_⟩
            intro hleft hzero
            subst hleft hzero
            rw [hx]
            simp only [List.get?_cons_zero, Option.some.injEq] at h1
            subst h1
            rw [hg0] at h2
            simp only [Option.some.injEq] at h2
            subst h2
            simp [advanceSum]

theorem submitText_glyph_x_witness :
    exampleTextManager.getFont "f" = some exampleFont
      ∧ (exampleTextManager.placedGlyphs "aab" ⟨0, 0, 0⟩ ⟨0, 0, 7, 5⟩ 1 "f" .AC_ALIGN_LEFT
          .AC_ALIGN_BOTTOM).get? 0 = some (placeGlyph (exampleGlyph "f@a") 0 2 0 1)
      ∧ (placeGlyph (exampleGlyph "f@a") 0 2 0 1).position.x = 0 := by
  have h : (exampleTextManager.placedGlyphs "aab" ⟨0, 0, 0⟩ ⟨0, 0, 7, 5⟩ 1 "f"
      .AC_ALIGN_LEFT .AC_ALIGN_BOTTOM).get? 0
        = some (placeGlyph (exampleGlyph "f@a") 0 2 0 1) := by
    simp [GraphicsManager.placedGlyphs, GraphicsManager.getFont, exampleTextManager,
      exampleManager, exampleFont, textOrigin, sumOffsets, Font.glyphAt, List.lookup,
      alignX, alignY, placedGlyphs, exampleGlyph]
    norm_num [insideBox, overflowsRight, placeGlyph, Sprite.init, Sprite.default]
  exact ⟨rfl, h,
    (submitText_glyph_x exampleTextManager "aab" ⟨0, 0, 0⟩ ⟨0, 0, 7, 5⟩ 1 "f" .AC_ALIGN_LEFT
      .AC_ALIGN_BOTTOM exampleFont rfl 0 _ h).2 rfl rfl⟩


/-! ## The horizontal position of the glyphs of a text, in float arithmetic -/

/-- When no operation rounds, the first loop of the text `submit` in float arithmetic
computes the exact sum. -/
theorem sumOffsetsF_exact (rnd : ℚ → ℚ) (font : Font) (cs : List Char) :
    ∀ w : ℚ, sumExact rnd font cs w = true →
      sumOffsetsF rnd font cs w = sumOffsets font cs w := by
  induction cs with
  | nil => intro w _; rfl
  | cons c cs ih =>
    intro w h
    simp only [sumExact] at h
    simp only [sumOffsetsF, sumOffsets]
    cases hg : font.glyphAt c with
    | none => rfl
    | some g0 =>
      rw [hg] at h
      simp only [Bool.and_eq_true, decide_eq_true_eq] at h
      obtain ⟨⟨h1, h2⟩, h3⟩ := h
      simp only [h1, h2]
      exact ih _ h3

/-- The first loop of the text `submit` returns only when every character has a glyph. -/
theorem sumOffsetsF_glyphs (rnd : ℚ → ℚ) (font : Font) (cs : List Char) :
    ∀ w0 w : ℚ, sumOffsetsF rnd font cs w0 = some w →
      ∀ c ∈ cs, ∃ g0, font.glyphAt c = some g0 := by
  induction cs with
  | nil => intro _ _ _ c hc; simp at hc
  | cons c cs ih =>
    intro w0 w h c1 hc1
    simp only [sumOffsetsF] at h
    cases hg : font.glyphAt c with
    | none => rw [hg] at h; cases h
    | some g0 =>
      rw [hg] at h
      rcases List.mem_cons.mp hc1 with h1 | h1
      · exact ⟨g0, h1 ▸ hg⟩
      · exact ih _ _ h c1 h1

/-- When no operation rounds, the alignment switch in float arithmetic gives the exact
origin. -/
theorem alignXF_exact (rnd : ℚ → ℚ) (hAlign : Alignment) (position : Vec3) (box : Vec4)
    (labelWidth : ℚ) (h : alignExact rnd hAlign box labelWidth = true) :
    alignXF rnd hAlign position box labelWidth = alignX hAlign position box labelWidth := by
  cases hAlign <;>
    simp only [alignExact, Bool.and_eq_true, decide_eq_true_eq] at h <;>
    simp only [alignXF, alignX]
  · obtain ⟨h1, h2⟩ := h
    rw [h1, h2]
  · obtain ⟨⟨⟨h1, h2⟩, h3⟩, h4⟩ := h
    rw [h1, h2, h3, h4]

/-- The i-th glyph placed by the glyph loop in float arithmetic, started at pen position
`x`, lies at the rounded sum of the pen position after the glyphs before it and its own
rounded scaled bearing; when none of these operations rounds, that is `x` plus the scaled
advances of the glyphs before it plus its own scaled bearing. -/
theorem placedGlyphsF_x (rnd : ℚ → ℚ) (font : Font) (box : Vec4) (scale y z : ℚ)
    (cs : List Char) :
    ∀ (x : ℚ) (i : Nat) (gl : Glyph),
      (placedGlyphsF rnd font box scale y z cs x).get? i = some gl →
      ∃ (ci : Char) (gi : Glyph), cs.get? i = some ci ∧ font.glyphAt ci = some gi
        ∧ gl.position.x
          = rnd (penF rnd font scale (cs.take i) x + rnd (rnd gi.bearing.x * scale))
        ∧ (penExact rnd font scale cs x i = true →
          gl.position.x
            = x + scale * advanceSum font (cs.take i) + scale * gi.bearing.x) := by
  induction cs with
  | nil => intro x i gl h; simp [placedGlyphsF] at h
  | cons c cs ih =>
    intro x i gl h
    cases hg : font.glyphAt c with
    | none => simp [placedGlyphsF, hg] at h
    | some g0 =>
      simp only [placedGlyphsF, hg] at h
      cases i with
      | zero =>
        have hgl : gl = placeGlyphF rnd g0 x y z scale := by
          split at h
          · simpa using h.symm
          · split at h
            · simpa using h.symm
            · simpa using h.symm
        have hx : gl.position.x = rnd (x + rnd (rnd g0.bearing.x * scale)) := by
          rw [hgl]
          rfl
        refine ⟨c, g0, rfl, hg, ?_, ?_⟩
        · rw [hx]
          simp [penF]
        · intro he
          simp only [penExact, hg, Bool.and_eq_true, decide_eq_true_eq] at he
          obtain ⟨⟨e1, e2⟩, e3⟩ := he
          rw [hx, e1, e2, e3]
          simp [advanceSum]
          ring
      | succ i =>
        have hoff : (placeGlyphF rnd g0 x y z scale).offset = g0.offset := rfl
        have hrest : (placedGlyphsF rnd font box scale y z cs
            (rnd (x + rnd (rnd g0.offset * scale)))).get? i = some gl := by
          split at h
          · simpa [hoff] using h
          · split at h
            · simp at h
            · simpa [hoff] using h
        obtain ⟨ci, gi, h1, h2, h3, h4⟩ := ih _ i gl hrest
        refine ⟨ci, gi, by simpa using h1, h2, ?_, ?_⟩
        · rw [h3]
          simp [penF, hg]
        · intro he
          simp only [penExact, hg, Bool.and_eq_true, decide_eq_true_eq] at he
          obtain ⟨⟨⟨e1, e2⟩, e3⟩, e4⟩ := he
          rw [e1, e2, e3] at h4
          rw [h4 e4]
          simp only [List.take_succ_cons, advanceSum, List.map_cons, List.sum_cons, hg]
          ring

/-- The glyph loop in float arithmetic records the placed glyphs that pass the clip test,
coloured and drawn. -/
theorem textLoopF_placedGlyphsF (rnd : ℚ → ℚ) (font : Font) (box : Vec4) (scale : ℚ)
    (color : Vec4) (y z : ℚ) (cs : List Char) :
    ∀ (x : ℚ) (acc : List Glyph), (∀ c ∈ cs, ∃ g0, font.glyphAt c = some g0) →
      textLoopF rnd font box scale color y z cs x acc
        = some (acc
          ++ ((placedGlyphsF rnd font box scale y z cs x).filter (insideBoxF rnd box)).map
            (fun gl => Glyph.drawF rnd { gl with color := color })) := by
  induction cs with
  | nil => intro x acc _; simp [textLoopF, placedGlyphsF]
  | cons c cs ih =>
    intro x acc hall
    obtain ⟨g0, hg0⟩ := hall c (by simp)
    have hrest : ∀ c' ∈ cs, ∃ g0, font.glyphAt c' = some g0 :=
      fun c' hc' => hall c' (List.mem_cons_of_mem _ hc')
    simp only [textLoopF, placedGlyphsF, hg0]
    cases hin : insideBoxF rnd box (placeGlyphF rnd g0 x y z scale)
    · cases hov : overflowsRightF rnd box (placeGlyphF rnd g0 x y z scale)
      · simp only [Bool.false_eq_true, if_false, List.filter_cons, hin]
        exact ih _ acc hrest
      · simp [List.filter_cons, hin]
    · simp only [if_true, List.filter_cons, hin, List.map_cons]
      have h := ih (rnd (x + rnd (rnd (placeGlyphF rnd g0 x y z scale).offset * scale)))
        (acc ++ [Glyph.drawF rnd { placeGlyphF rnd g0 x y z scale with color := color }])
        hrest
      rw [List.append_assoc] at h
      exact h

/-- C21, the claim as stated fails: the text a is submitted with LEFT alignment and scale
0.6f into a box whose left edge is 20.9f, with a font whose glyph for a has the bearing 8.
The pen starts at 20.9f - 4.8000002 = 16.099998 (rounded), and the glyph is placed at
16.099998 + 4.8000002 = 20.899998 (rounded), one float below the left edge of the box, so
the clip test rejects it and nothing is recorded; in exact arithmetic the glyph lies at the
left edge and is recorded. -/
theorem submitTextF_left_edge_differs :
    bearingBox.x = 10957619 / 524288
      ∧ (bearingManager.placedGlyphsF float32 "a" ⟨0, 0, 0⟩ bearingBox (float32 (6 / 10)) "w"
          .AC_ALIGN_LEFT .AC_ALIGN_BOTTOM).map (fun gl => gl.position.x)
        = [10957618 / 524288]
      ∧ (bearingManager.submitTextF float32 "a" ⟨0, 0, 0⟩ bearingBox (float32 (6 / 10))
          ⟨1, 1, 1, 1⟩ "w" .AC_ALIGN_LEFT .AC_ALIGN_BOTTOM 7).map
          (fun g => mapGet 7 g.m_glyphs) = some []
      ∧ (bearingManager.placedGlyphs "a" ⟨0, 0, 0⟩ bearingBox (float32 (6 / 10)) "w"
          .AC_ALIGN_LEFT .AC_ALIGN_BOTTOM).map (fun gl => gl.position.x)
        = [10957619 / 524288]
      ∧ (bearingManager.submitText "a" ⟨0, 0, 0⟩ bearingBox (float32 (6 / 10))
          ⟨1, 1, 1, 1⟩ "w" .AC_ALIGN_LEFT .AC_ALIGN_BOTTOM 7).map
          (fun g => (mapGet 7 g.m_glyphs).map (fun gl => gl.position.x))
        = some [10957619 / 524288] := by
  refine ⟨?_, ?_, ?_, ?_, ?_⟩ <;> decide!

/-- C21, amended. For every text, font, scale `s` and box `B`, the i-th glyph that the text
`submit` places lies at the float x = fl(pen_i + fl(s * bearing_i.x)), where the pen starts
at pen_0 = fl(X0 - fl(s * bearing_0.x)) and each glyph moves it to
pen_(j+1) = fl(pen_j + fl(s * advance_j)); X0 is `B.x` for LEFT,
fl(fl(B.x + B.w) - labelWidth) for RIGHT, fl(fl(B.x + fl(B.w / 2)) - fl(labelWidth / 2))
for CENTER and `position.x` otherwise, with labelWidth = fl(s * (float sum of all
advances)). When none of these operations rounds, x = X0 - s * bearing_0.x + s * (sum of
the advances of the glyphs 0..i-1) + s * bearing_i.x with the exact X0 and labelWidth. With
LEFT alignment the left edge of the first glyph is fl(fl(B.x - t) + t) for
t = fl(s * bearing_0.x), which is `B.x` when the subtraction does not round. The glyphs
that `submit` records are the placed glyphs that pass the clip test, coloured and drawn. -/
theorem submitTextF_glyph_x (rnd : ℚ → ℚ) (g : GraphicsManager) (text : String)
    (position : Vec3) (box : Vec4) (scale : ℚ) (color : Vec4) (fontFileName : String)
    (hAlign vAlign : Alignment) (shader : Nat) (font : Font)
    (hfont : g.getFont fontFileName = some font) (i : Nat) (gl : Glyph)
    (hi : (g.placedGlyphsF rnd text position box scale fontFileName hAlign vAlign).get? i
      = some gl) :
    ∃ (c0 ci : Char) (g0 gi : Glyph) (w : ℚ),
      text.data.head? = some c0 ∧ text.data.get? i = some ci
        ∧ font.glyphAt c0 = some g0 ∧ font.glyphAt ci = some gi
        ∧ sumOffsetsF rnd font text.data 0 = some w
        ∧ gl.position.x
          = rnd (penF rnd font scale (text.data.take i)
                (rnd (alignXF rnd hAlign position box (rnd (w * scale))
                  - rnd (rnd g0.bearing.x * scale)))
              + rnd (rnd gi.bearing.x * scale))
        ∧ (textExact rnd font position box scale hAlign text.data i = true →
          gl.position.x
            = (if hAlign = .AC_ALIGN_LEFT then box.x
                else if hAlign = .AC_ALIGN_RIGHT then
                  box.x + box.z - scale * advanceSum font text.data
                else if hAlign = .AC_ALIGN_CENTER then
                  box.x + box.z / 2 - scale * advanceSum font text.data / 2
                else position.x)
              - scale * g0.bearing.x + scale * advanceSum font (text.data.take i)
              + scale * gi.bearing.x)
        ∧ (hAlign = .AC_ALIGN_LEFT → i = 0 →
          gl.position.x
              = rnd (rnd (box.x - rnd (rnd g0.bearing.x * scale))
                  + rnd (rnd g0.bearing.x * scale))
            ∧ (rnd (box.x - rnd (rnd g0.bearing.x * scale))
                  = box.x - rnd (rnd g0.bearing.x * scale) →
                rnd box.x = box.x → gl.position.x = box.x))
        ∧ (∃ g' : GraphicsManager,
          g.submitTextF rnd text position box scale color fontFileName hAlign vAlign shader
              = some g'
            ∧ mapGet shader g'.m_glyphs
              = mapGet shader g.m_glyphs
                ++ ((g.placedGlyphsF rnd text position box scale fontFileName hAlign
                      vAlign).filter (insideBoxF rnd box)).map
                    (fun p => Glyph.drawF rnd { p with color := color })) := by
  unfold GraphicsManager.placedGlyphsF at hi
  unfold GraphicsManager.placedGlyphsF GraphicsManager.submitTextF
  rw [hfont] at hi
  simp only [hfont]
  cases hdata : text.data with
  | nil => rw [hdata] at hi; simp at hi
  | cons c0 rest =>
    rw [hdata] at hi
    simp only [List.isEmpty_cons, Bool.false_eq_true, if_false] at hi ⊢
    cases hempty : font.glyphs.isEmpty with
    | true => rw [hempty] at hi; simp at hi
    | false =>
      rw [hempty] at hi
      simp only [Bool.false_eq_true, if_false] at hi ⊢
      cases ho : textOriginF rnd font position box scale hAlign vAlign (c0 :: rest) with
      | none => rw [ho] at hi; simp at hi
      | some o =>
        obtain ⟨x, y⟩ := o
        rw [ho] at hi
        simp only at hi ⊢
        obtain ⟨ci, gi, h1, h2, h3, h4⟩ :=
          placedGlyphsF_x rnd font box scale y position.z _ x i gl hi
        simp only [textOriginF] at ho
        cases hw : sumOffsetsF rnd font (c0 :: rest) 0 with
        | none => rw [hw] at ho; cases ho
        | some w =>
          rw [hw] at ho
          cases hg0 : font.glyphAt c0 with
          | none => rw [hg0] at ho; cases ho
          | some g0 =>
            rw [hg0] at ho
            simp only [Option.some.injEq, Prod.mk.injEq] at ho
            obtain ⟨hox, -⟩ := ho
            have hall := sumOffsetsF_glyphs rnd font _ _ _ hw
            refine ⟨c0, ci, g0, gi, w, rfl, h1, hg0, h2, rfl, ?_, ?_, ?_, ?_⟩
            · rw [h3, ← hox]
            · intro he
              simp only [textExact, List.head?_cons, hg0, Bool.and_eq_true,
                decide_eq_true_eq] at he
              obtain ⟨⟨⟨⟨⟨⟨e1, e2⟩, e3⟩, e4⟩, e5⟩, e6⟩, e7⟩ := he
              have hsum := sumOffsetsF_exact rnd font _ _ e1
              rw [hw] at hsum
              have hwsum := sumOffsets_eq font _ _ _ hsum.symm
              rw [zero_add] at hwsum
              have hx0 : x = alignX hAlign position box (advanceSum font (c0 :: rest) * scale)
                  - g0.bearing.x * scale := by
                rw [← hox, hwsum, e2, alignXF_exact rnd hAlign position box _ e3, e4, e5, e6]
              rw [← hx0] at e7
              rw [h4 e7, hx0]
              cases hAlign <;> simp [alignX] <;> ring
            · intro hleft hzero
              subst hleft hzero
              simp only [List.get?_cons_zero, Option.some.injEq] at h1
              subst h1
              rw [hg0] at h2
              simp only [Option.some.injEq] at h2
              subst h2
              have hx : gl.position.x
                  = rnd (rnd (box.x - rnd (rnd g0.bearing.x * scale))
                      + rnd (rnd g0.bearing.x * scale)) := by
                rw [h3, ← hox]
                simp [penF, alignXF]
              refine ⟨hx, ?_⟩
              intro hsub hbox
              rw [hx, hsub, sub_add_cancel, hbox]
            · rw [textLoopF_placedGlyphsF rnd font box scale color y position.z (c0 :: rest) x
                _ hall]
              have hg1 : mapGet shader
                  (if (g.m_glyphs.lookup shader).isNone then
                    { g with m_glyphs := mapSet shader [] g.m_glyphs }
                  else g).m_glyphs = mapGet shader g.m_glyphs := by
                cases hl : g.m_glyphs.lookup shader with
                | none =>
                  simp only [Option.isNone_none, if_true]
                  rw [mapGet_mapSet_self]
                  simp [mapGet, hl]
                | some v => simp
              refine ⟨_, rfl, ?_⟩
              show mapGet shader (mapSet shader _ _) = _
              rw [mapGet_mapSet_self, hg1]

theorem submitTextF_glyph_x_witness :
    exampleTextManager.getFont "f" = some exampleFont
      ∧ (exampleTextManager.placedGlyphsF float32 "aab" ⟨0, 0, 0⟩ ⟨0, 0, 7, 5⟩ 1 "f"
          .AC_ALIGN_LEFT .AC_ALIGN_BOTTOM).get? 1
        = some (placeGlyphF float32 (exampleGlyph "f@a") 3 2 0 1)
      ∧ textExact float32 exampleFont ⟨0, 0, 0⟩ ⟨0, 0, 7, 5⟩ 1 .AC_ALIGN_LEFT "aab".data 1
        = true
      ∧ (placeGlyphF float32 (exampleGlyph "f@a") 3 2 0 1).position.x = 3
      ∧ (∃ (c0 ci : Char) (g0 gi : Glyph) (w : ℚ),
          "aab".data.head? = some c0 ∧ "aab".data.get? 1 = some ci
            ∧ exampleFont.glyphAt c0 = some g0 ∧ exampleFont.glyphAt ci = some gi
            ∧ sumOffsetsF float32 exampleFont "aab".data 0 = some w
            ∧ (placeGlyphF float32 (exampleGlyph "f@a") 3 2 0 1).position.x
              = (0 : ℚ) - 1 * g0.bearing.x + 1 * advanceSum exampleFont ("aab".data.take 1)
                + 1 * gi.bearing.x) := by
  have h : (exampleTextManager.placedGlyphsF float32 "aab" ⟨0, 0, 0⟩ ⟨0, 0, 7, 5⟩ 1 "f"
      .AC_ALIGN_LEFT .AC_ALIGN_BOTTOM).get? 1
        = some (placeGlyphF float32 (exampleGlyph "f@a") 3 2 0 1) := by
    decide!
  have he : textExact float32 exampleFont ⟨0, 0, 0⟩ ⟨0, 0, 7, 5⟩ 1 .AC_ALIGN_LEFT
      "aab".data 1 = true := by
    decide!
  refine ⟨rfl, h, he, by decide!, ?_⟩
  obtain ⟨c0, ci, g0, gi, w, a1, a2, a3, a4, a5, -, a7, -, -⟩ :=
    submitTextF_glyph_x float32 exampleTextManager "aab" ⟨0, 0, 0⟩ ⟨0, 0, 7, 5⟩ 1
      ⟨0, 0, 0, 1⟩ "f" .AC_ALIGN_LEFT .AC_ALIGN_BOTTOM 7 exampleFont rfl 1 _ h
  refine ⟨c0, ci, g0, gi, w, a1, a2, a3, a4, a5, ?_⟩
  have := a7 he
  simpa using this

/-- With the exact rounding the text `submit` in float arithmetic is the exact function. -/
theorem GraphicsManager.submitTextF_id (g : GraphicsManager) (text : String)
    (position : Vec3) (box : Vec4) (scale : ℚ) (color : Vec4) (fontFileName : String)
    (hAlign vAlign : Alignment) (shader : Nat) :
    g.submitTextF id text position box scale color fontFileName hAlign vAlign shader
      = g.submitText text position box scale color fontFileName hAlign vAlign shader := by
  have hsum : ∀ (font : Font) (cs : List Char) (w : ℚ),
      sumOffsetsF id font cs w = sumOffsets font cs w := by
    intro font cs
    induction cs with
    | nil => intro w; rfl
    | cons c cs ih =>
      intro w
      simp only [sumOffsetsF, sumOffsets]
      cases font.glyphAt c with
      | none => rfl
      | some g0 => exact ih _
  have hloop : ∀ (font : Font) (y z : ℚ) (cs : List Char) (x : ℚ) (acc : List Glyph),
      textLoopF id font box scale color y z cs x acc
        = textLoop font box scale color y z cs x acc := by
    intro font y z cs
    induction cs with
    | nil => intro x acc; rfl
    | cons c cs ih =>
      intro x acc
      simp only [textLoopF, textLoop]
      cases font.glyphAt c with
      | none => rfl
      | some g0 =>
        have hp : placeGlyphF id g0 x y z scale = placeGlyph g0 x y z scale := rfl
        have hin : ∀ p : Glyph, insideBoxF id box p = insideBox box p := fun _ => rfl
        have hov : ∀ p : Glyph, overflowsRightF id box p = overflowsRight box p :=
          fun _ => rfl
        have hd : ∀ p : Glyph, Glyph.drawF id p = Glyph.draw p := fun _ => rfl
        simp only [hp, hin, hov, hd, id, ih]
  have hax : ∀ (lw : ℚ), alignXF id hAlign position box lw = alignX hAlign position box lw := by
    intro lw
    cases hAlign <;> rfl
  have hay : ∀ (font : Font) (lh : ℚ),
      alignYF id vAlign position box font scale lh
        = alignY vAlign position box font scale lh := by
    intro font lh
    cases vAlign <;> rfl
  have horigin : ∀ (font : Font) (cs : List Char),
      textOriginF id font position box scale hAlign vAlign cs
        = textOrigin font position box scale hAlign vAlign cs := by
    intro font cs
    cases cs with
    | nil => rfl
    | cons c0 rest =>
      simp only [textOriginF, textOrigin, hsum, hax, hay, id]
  simp only [GraphicsManager.submitTextF, GraphicsManager.submitText, horigin, hloop]

/-! ## Pressed and released keys -/

/-- The callback keeps the key states of the manager equal to those GLFW holds. -/
theorem InputManager.KeyEvent_isKeyDown (m : InputManager) (event : Int × KeyAction) :
    (m.KeyEvent event).isKeyDown = glfwKeyStates m.isKeyDown event := by
  obtain ⟨k, a⟩ := event
  funext j
  cases a
  · by_cases hj : j = k
    · subst hj
      cases hm : m.m_keys j <;>
        simp [InputManager.KeyEvent, InputManager.pressKey, InputManager.setKey,
          InputManager.isKeyDown, glfwKeyStates, hm]
    · cases hm : m.m_keys k <;>
        simp [InputManager.KeyEvent, InputManager.pressKey, InputManager.setKey,
          InputManager.isKeyDown, glfwKeyStates, hm, hj]
  · by_cases hj : j = k
    · subst hj
      cases hm : m.m_keys j <;>
        simp [InputManager.KeyEvent, InputManager.releaseKey, InputManager.setKey,
          InputManager.isKeyDown, glfwKeyStates, hm]
    · cases hm : m.m_keys k <;>
        simp [InputManager.KeyEvent, InputManager.releaseKey, InputManager.setKey,
          InputManager.isKeyDown, glfwKeyStates, hm, hj]
  · rfl

/-- After `InputManager::update` the key states of the manager are those GLFW holds after
the events it delivered during the update, so the next update starts from equal states
again. -/
theorem InputManager.update_isKeyDown (m : InputManager) (events : List (Int × KeyAction)) :
    (m.update events).isKeyDown = events.foldl glfwKeyStates m.isKeyDown := by
  have hfold : ∀ (l : List (Int × KeyAction)) (n : InputManager),
      (l.foldl InputManager.KeyEvent n).isKeyDown = l.foldl glfwKeyStates n.isKeyDown := by
    intro l
    induction l with
    | nil => intro n; rfl
    | cons event rest ih =>
      intro n
      rw [List.foldl_cons, List.foldl_cons, ih, InputManager.KeyEvent_isKeyDown]
  unfold InputManager.update
  rw [hfold]
  congr 1
  funext j
  cases hm : m.m_keys j <;> simp [InputManager.isKeyDown, hm]

/-- The result of `TextArea::setTopLine`: it succeeds exactly for a top line from 0 up to
the number of content lines minus the line count. -/
theorem TextArea.setTopLine_iff (ta : TextArea) (t : Int) :
    ((ta.setTopLine t).1 = true
        ↔ 0 ≤ t ∧ t ≤ (ta.getContentLines.length : Int) - ta.m_lineCount)
      ∧ ((ta.setTopLine t).1 = true → (ta.setTopLine t).2 = { ta with m_topLine := t })
      ∧ ((ta.setTopLine t).1 = false → (ta.setTopLine t).2 = ta) := by
  unfold TextArea.setTopLine
  by_cases h1 : t < 0
  · simp only [h1, if_true]
    exact ⟨⟨fun h => absurd h (by simp), fun h => absurd h.1 (by omega)⟩,
      fun h => absurd h (by simp), fun _ => by simp⟩
  · simp only [h1, if_false]
    by_cases h2 : (ta.getContentLines.length : Int) ≤ ta.m_lineCount ∧ t > 0
    · simp only [h2, and_self, if_true]
      exact ⟨⟨fun h => absurd h (by simp), fun h => absurd h.2 (by omega)⟩,
        fun h => absurd h (by simp), fun _ => by simp⟩
    · simp only [h2, if_false]
      by_cases h3 : t > (ta.getContentLines.length : Int) - ta.m_lineCount
      · simp only [h3, if_true]
        exact ⟨⟨fun h => absurd h (by simp), fun h => absurd h.2 (by omega)⟩,
          fun h => absurd h (by simp), fun _ => by simp⟩
      · simp only [h3, if_false]
        exact ⟨⟨fun _ => ⟨by omega, by omega⟩, fun _ => by simp⟩, fun _ => by simp,
          fun h => absurd h (by simp)⟩

/-- C23. A text area of 3 lines whose text a has 1 content line: `setTopLine(0)` returns
false, although 0 is a valid top line (0 <= 0 <= max(0, 1 - 3)). -/
theorem TextArea.setTopLine_zero_rejected :
    shortTextArea.getContentLines = ["a"] ∧ shortTextArea.m_lineCount = 3
      ∧ (shortTextArea.setTopLine 0).1 = false := by
  have h1 : shortTextArea.getContentLines = ["a"] := by decide
  have h2 : shortTextArea.m_lineCount = 3 := by decide
  refine ⟨h1, h2, ?_⟩
  cases h : (shortTextArea.setTopLine 0).1 with
  | false => rfl
  | true =>
    have := ((TextArea.setTopLine_iff shortTextArea 0).1.mp h).2
    rw [h1, h2] at this
    simp at this


/-! ## The index data of a draw call -/

theorem quadIndices_succ (n : Nat) :
    quadIndices (n + 1)
      = quadIndices n ++ [4 * n, 4 * n + 1, 4 * n + 2, 4 * n + 2, 4 * n + 3, 4 * n] := by
  simp [quadIndices, List.range_succ]

theorem quadIndices_lt (n : Nat) : ∀ i ∈ quadIndices n, i < 4 * n := by
  induction n with
  | zero => simp [quadIndices]
  | succ n ih =>
    intro i hi
    rw [quadIndices_succ, List.mem_append] at hi
    rcases hi with h | h
    · have := ih i h
      omega
    · simp only [List.mem_cons, List.mem_singleton, List.not_mem_nil, or_false] at h
      omega

/-- What the batching loop keeps true: the pending vertex and index data are those of the
entries batched since the last draw call, and every draw call made so far drew the entries
of one non-empty batch with the indices of its quads. -/
theorem appendQuad_batch (st : BatchState) (p : Nat × Sprite) (batch : List (Nat × Sprite))
    (hv : st.vertices = verticesOf batch) (hi : st.indices = quadIndices batch.length)
    (hc : st.count = batch.length) (hlen : batch.length < 1073741824) :
    (appendQuad st p.2).vertices = verticesOf (batch ++ [p])
      ∧ (appendQuad st p.2).indices = quadIndices (batch ++ [p]).length
      ∧ (appendQuad st p.2).count = (batch ++ [p]).length
      ∧ (appendQuad st p.2).calls = st.calls := by
  refine ⟨?_, ?_, ?_, rfl⟩
  · simp [appendQuad, hv, verticesOf_append, verticesOf]
  · simp only [appendQuad, hi, hc, List.length_append, List.length_singleton,
      quadIndices_succ, Sprite.Indices, List.map_cons, List.map_nil, UINT_MOD]
    congr 1
    simp only [List.cons.injEq, and_true]
    refine ⟨?_, ?_, ?_, ?_, ?_, ?_⟩ <;> (rw [Nat.mod_eq_of_lt (by omega)]; omega)
  · simp only [appendQuad, hc, List.length_append, List.length_singleton, UINT_MOD]
    exact Nat.mod_eq_of_lt (by omega)

theorem flushBatch_invariant (S : List (Nat × Sprite)) (st : BatchState)
    (h : batchInvariant S st) :
    batchInvariant S (flushBatch st) ∧ (flushBatch st).count ≤ st.count := by
  obtain ⟨⟨batch, hmem, hv, hi, hc⟩, hd⟩ := h
  unfold flushBatch
  split
  · rename_i hpos
    refine ⟨⟨⟨[], by simp, rfl, rfl, rfl⟩, ?_⟩, Nat.zero_le _⟩
    intro d hdm
    simp only [drawVertices, drawCalls_append, drawCalls, List.mem_append,
      List.mem_singleton] at hdm
    rcases hdm with h1 | h1
    · exact hd d h1
    · refine ⟨batch, ?_, hmem, ?_, ?_⟩
      · intro hnil
        rw [hnil] at hc
        simp only [List.length_nil] at hc
        omega
      · rw [h1]; exact hv
      · rw [h1]; exact hi
  · exact ⟨⟨⟨batch, hmem, hv, hi, hc⟩, hd⟩, le_refl _⟩

theorem changeShader_invariant (S : List (Nat × Sprite)) (st : BatchState) (shader : Nat)
    (h : batchInvariant S st) :
    batchInvariant S (changeShader st shader) ∧ (changeShader st shader).count ≤ st.count := by
  unfold changeShader
  split
  · obtain ⟨⟨hb, hd⟩, hc⟩ := flushBatch_invariant S st h
    refine ⟨⟨hb, ?_⟩, hc⟩
    intro d hdm
    simp only [drawCalls_append, drawCalls, List.append_nil] at hdm
    exact hd d hdm
  · exact ⟨h, le_refl _⟩

theorem changeTexture_invariant (S : List (Nat × Sprite)) (st : BatchState) (texture : Nat)
    (h : batchInvariant S st) :
    batchInvariant S (changeTexture st texture)
      ∧ (changeTexture st texture).count ≤ st.count := by
  unfold changeTexture
  split
  · obtain ⟨⟨hb, hd⟩, hc⟩ := flushBatch_invariant S st h
    refine ⟨⟨hb, ?_⟩, hc⟩
    intro d hdm
    simp only [drawCalls_append, drawCalls, List.append_nil] at hdm
    exact hd d hdm
  · exact ⟨h, le_refl _⟩

theorem endStep_invariant (g : GraphicsManager) (S : List (Nat × Sprite)) (st : BatchState)
    (p : Nat × Sprite) (hp : p ∈ S) (hlen : st.count < 1073741824)
    (h : batchInvariant S st) :
    batchInvariant S (endStep g st p) ∧ (endStep g st p).count ≤ st.count + 1 := by
  obtain ⟨h1, c1⟩ := changeShader_invariant S st p.1 h
  obtain ⟨⟨⟨batch, hmem, hv, hi, hc⟩, hd⟩, c2⟩ :=
    changeTexture_invariant S (changeShader st p.1) (g.getTexture p.2.texture.fileName) h1
  obtain ⟨a1, a2, a3, a4⟩ := appendQuad_batch _ p batch hv hi hc (by omega)
  unfold endStep
  refine ⟨⟨⟨batch ++ [p], ?_, a1, a2, a3⟩, ?_⟩, ?_⟩
  · intro q hq
    rcases List.mem_append.mp hq with hq | hq
    · exact hmem q hq
    · rw [List.mem_singleton.mp hq]; exact hp
  · rw [a4]; exact hd
  · rw [a3, List.length_append, List.length_singleton, ← hc]
    omega

theorem foldl_endStep_invariant (g : GraphicsManager) (S : List (Nat × Sprite))
    (l : List (Nat × Sprite)) :
    ∀ st : BatchState, batchInvariant S st → st.count + l.length ≤ 1073741824 →
      (∀ p ∈ l, p ∈ S) → batchInvariant S (l.foldl (endStep g) st) := by
  induction l with
  | nil => intro st h _ _; exact h
  | cons p t ih =>
    intro st h hlen hmem
    simp only [List.length_cons] at hlen
    obtain ⟨h1, c1⟩ := endStep_invariant g S st p (hmem p (by simp)) (by omega) h
    exact ih (endStep g st p) h1 (by omega) (fun q hq => hmem q (List.mem_cons_of_mem _ hq))

theorem batchLoop_invariant (g : GraphicsManager) (sorted : List (Nat × Sprite))
    (hlen : sorted.length ≤ 1073741824) :
    ∀ d ∈ drawCalls (batchLoop g sorted), ∃ batch : List (Nat × Sprite), batch ≠ []
      ∧ (∀ p ∈ batch, p ∈ sorted) ∧ d.1 = verticesOf batch
      ∧ d.2 = quadIndices batch.length := by
  cases sorted with
  | nil => intro d hd; simp [batchLoop, drawCalls] at hd
  | cons front rest =>
    unfold batchLoop
    have h0 : batchInvariant (front :: rest)
        { vertices := [], indices := [], count := 0, cShader := front.1,
          cTexture := g.getTexture front.2.texture.fileName,
          calls := [GLCall.bindVertexArray, GLCall.shaderBegin front.1,
            GLCall.bindTexture (g.getTexture front.2.texture.fileName)] } :=
      ⟨⟨[], by simp, rfl, rfl, rfl⟩, by simp [drawCalls]⟩
    have h1 := foldl_endStep_invariant g (front :: rest) (front :: rest) _ h0
      (by simpa using hlen) (fun p hp => hp)
    exact (flushBatch_invariant _ _ h1).1.2

/-- C24. With fewer than 2^30 submitted quads, every draw call issued by
`GraphicsManager::end` draws a non-empty batch of entries of the sorted list: its vertex data
is that of the batch in order and its index data is, for the j-th quad of the batch counted
from 0, the six indices 4j, 4j+1, 4j+2, 4j+2, 4j+3, 4j. Hence every index is smaller than 4
times the number of quads of the batch, and smaller than the number of vertices of the
batch when every entry has the 4 vertices (40 floats) of a quad. -/
theorem end_quad_indices (g : GraphicsManager) (hsize : g.submission.length < 1073741824) :
    ∀ d ∈ drawCalls g.end_.2, ∃ batch : List (Nat × Sprite), batch ≠ []
      ∧ (∀ p ∈ batch, p ∈ g.sortedSubmission)
      ∧ d.1 = verticesOf batch
      ∧ d.2 = ((List.range batch.length).map
          (fun j => [4 * j, 4 * j + 1, 4 * j + 2, 4 * j + 2, 4 * j + 3, 4 * j])).flatten
      ∧ (∀ i ∈ d.2, i < 4 * batch.length)
      ∧ ((∀ p ∈ batch, p.2.m_vertices.length = 10 * 4) →
          d.1.length = 10 * (4 * batch.length) ∧ ∀ i ∈ d.2, 10 * i + 10 ≤ d.1.length) := by
  intro d hd
  have hlen : g.sortedSubmission.length ≤ 1073741824 := by
    unfold GraphicsManager.sortedSubmission
    rw [stable_sort_length]
    omega
  obtain ⟨batch, hne, hmem, hv, hi⟩ :=
    batchLoop_invariant g.flushGlyphs g.sortedSubmission hlen d hd
  have hlt : ∀ i ∈ d.2, i < 4 * batch.length := by
    rw [hi]; exact quadIndices_lt batch.length
  have hvl : (∀ p ∈ batch, p.2.m_vertices.length = 10 * 4) →
      d.1.length = 10 * (4 * batch.length) := by
    intro hall
    rw [hv]
    clear hv hi hlt hmem hne
    induction batch with
    | nil => rfl
    | cons p t ih =>
      rw [verticesOf_cons, List.length_append, hall p (by simp),
        ih (fun q hq => hall q (List.mem_cons_of_mem _ hq)), List.length_cons]
      omega
  refine ⟨batch, hne, hmem, hv, hi, hlt, fun hall => ⟨hvl hall, ?_⟩⟩
  intro i hi2
  have := hlt i hi2
  rw [hvl hall]
  omega

theorem end_quad_indices_witness :
    exampleFrame.submission.length < 1073741824
      ∧ ∀ d ∈ drawCalls exampleFrame.end_.2, ∃ batch : List (Nat × Sprite), batch ≠ []
        ∧ (∀ p ∈ batch, p ∈ exampleFrame.sortedSubmission)
        ∧ d.1 = verticesOf batch
        ∧ d.2 = ((List.range batch.length).map
            (fun j => [4 * j, 4 * j + 1, 4 * j + 2, 4 * j + 2, 4 * j + 3, 4 * j])).flatten
        ∧ (∀ i ∈ d.2, i < 4 * batch.length)
        ∧ ((∀ p ∈ batch, p.2.m_vertices.length = 10 * 4) →
            d.1.length = 10 * (4 * batch.length) ∧ ∀ i ∈ d.2, 10 * i + 10 ≤ d.1.length) :=
  ⟨by decide, end_quad_indices exampleFrame (by decide)⟩


/-! ## Text and sprites of equal depth -/

/-- A glyph always has vertex data after `Glyph::draw`, so `submit` records it. -/
theorem submit_glyph (g : GraphicsManager) (gl : Glyph) (shader : Nat) :
    g.submit Glyph.drawable gl shader
      = { g with m_sprites := g.m_sprites ++ [(shader, (Glyph.draw gl).toSprite)] } := by
  simp [GraphicsManager.submit, Glyph.drawable, Glyph.draw, vertexData]

theorem submitAll_glyphs (gls : List Glyph) (shader : Nat) :
    ∀ g : GraphicsManager,
      (g.submitAll Glyph.drawable gls shader).m_sprites
          = g.m_sprites ++ gls.map (fun gl => (shader, (Glyph.draw gl).toSprite))
        ∧ (g.submitAll Glyph.drawable gls shader).m_glyphs = g.m_glyphs := by
  induction gls with
  | nil => intro g; simp [GraphicsManager.submitAll]
  | cons gl rest ih =>
    intro g
    have h := ih (g.submit Glyph.drawable gl shader)
    simp only [GraphicsManager.submitAll, List.foldl_cons] at h ⊢
    rw [h.1, h.2, submit_glyph]
    simp

/-- The first part of `GraphicsManager::end` appends the quads of the recorded glyphs to
the sprite list, after the sprites submitted in the frame. -/
theorem flushGlyphs_m_sprites (g : GraphicsManager) :
    g.flushGlyphs.m_sprites = g.m_sprites ++ glyphQuads g.m_glyphs := by
  unfold GraphicsManager.flushGlyphs
  have key : ∀ (m : List (Nat × List Glyph)) (acc : GraphicsManager),
      (m.foldl (fun acc p => acc.submitAll Glyph.drawable p.2 p.1) acc).m_sprites
        = acc.m_sprites ++ glyphQuads m := by
    intro m
    induction m with
    | nil => intro acc; simp [glyphQuads]
    | cons p rest ih =>
      intro acc
      rw [List.foldl_cons, ih, (submitAll_glyphs p.2 p.1 acc).1]
      simp [glyphQuads]
  exact key g.m_glyphs g

/-- Two entries of equal depth keep their order in the sorted list and in the emitted
vertex data. -/
theorem sortedSubmission_pair (g : GraphicsManager) (hsize : g.submission.length < UINT_MOD)
    (A B : Nat × Sprite) (pre mid post : List (Nat × Sprite))
    (hsub : g.submission = pre ++ A :: (mid ++ B :: post))
    (hz : A.2.position.z = B.2.position.z) :
    ∃ pre' mid' post' : List (Nat × Sprite),
      g.sortedSubmission = pre' ++ A :: (mid' ++ B :: post')
        ∧ emittedVertices g.end_.2
            = verticesOf pre' ++ (A.2.m_vertices
                ++ (verticesOf mid' ++ (B.2.m_vertices ++ verticesOf post'))) := by
  have hstable := fun d => stable_sort_filter (fun p : Nat × Sprite => p.2.position.z)
    CompareSpriteDepth compareSpriteDepth_key d g.submission
  have hem : emittedVertices g.end_.2 = verticesOf g.sortedSubmission :=
    batchLoop_vertices g.flushGlyphs g.sortedSubmission
      (by unfold GraphicsManager.sortedSubmission; rw [stable_sort_length]; exact hsize)
  have hsl : [A, B].Sublist g.sortedSubmission := by
    have h1 : [A, B].Sublist
        (g.submission.filter (fun p => decide (p.2.position.z = A.2.position.z))) := by
      rw [hsub]
      simp only [List.filter_append, List.filter_cons, hz, decide_True, if_true]
      have hB : [B].Sublist
          (List.filter (fun p => decide (p.2.position.z = B.2.position.z)) mid
            ++ B :: List.filter (fun p => decide (p.2.position.z = B.2.position.z)) post) :=
        List.singleton_sublist.mpr (by simp)
      exact (hB.cons₂ A).trans (List.sublist_append_right _ _)
    have h2 := hstable A.2.position.z
    unfold GraphicsManager.sortedSubmission
    rw [← h2] at h1
    exact h1.trans (List.filter_sublist _)
  obtain ⟨p, m, q, hpq⟩ := pair_sublist_split A B _ hsl
  refine ⟨p, m, q, hpq, ?_⟩
  rw [hem, hpq]
  simp [verticesOf_append, verticesOf_cons]

/-- The text `submit` leaves the sprite list unchanged. -/
theorem submitText_m_sprites (g : GraphicsManager) (text : String) (position : Vec3)
    (box : Vec4) (scale : ℚ) (color : Vec4) (fontFileName : String)
    (hAlign vAlign : Alignment) (shader : Nat) (g1 : GraphicsManager)
    (h : g.submitText text position box scale color fontFileName hAlign vAlign shader
      = some g1) : g1.m_sprites = g.m_sprites := by
  unfold GraphicsManager.submitText at h
  by_cases h1 : text.data.isEmpty = true
  · rw [if_pos h1] at h
    cases h
    rfl
  · rw [if_neg h1] at h
    cases hf : g.getFont fontFileName with
    | none =>
      rw [hf] at h
      cases h
      rfl
    | some font =>
      rw [hf] at h
      simp only at h
      by_cases h2 : font.glyphs.isEmpty = true
      · rw [if_pos h2] at h
        cases h
        rfl
      · rw [if_neg h2] at h
        cases ho : textOrigin font position box scale hAlign vAlign text.data with
        | none =>
          rw [ho] at h
          cases h
        | some o =>
          obtain ⟨x, y⟩ := o
          rw [ho] at h
          simp only at h
          split at h
          · cases h
          · simp only [Option.some.injEq] at h
            rw [← h]
            split <;> rfl

/-- The frame of a text and then a sprite, both at depth 0 with shader 7: the sprite is in
the sprite list and the glyph of the text in the glyph list. -/
theorem textThenSprite_eq : textThenSprite = some textThenSpriteFrame := by
  have h : exampleTextManager.begin.submitText "a" ⟨0, 0, 0⟩ ⟨0, 0, 7, 5⟩ 1 ⟨1, 1, 1, 1⟩ "f"
        .AC_ALIGN_LEFT .AC_ALIGN_BOTTOM 7
      = some { exampleTextManager.begin with m_glyphs := [(7, [recordedGlyph])] } := by
    simp [GraphicsManager.submitText, GraphicsManager.getFont, GraphicsManager.begin,
      exampleTextManager, exampleManager, exampleFont, textOrigin, sumOffsets, Font.glyphAt,
      List.lookup, alignX, alignY, textLoop, mapSet, mapGet, exampleGlyph, recordedGlyph]
    norm_num [insideBox, placeGlyph, Sprite.init, Sprite.default]
  unfold textThenSprite
  rw [h]
  have hv : (Sprite.draw exampleTrig (spriteAt 0 "a.png")).m_vertices.isEmpty = false := by
    have := Sprite.draw_vertices_length exampleTrig (spriteAt 0 "a.png")
    cases hl : (Sprite.draw exampleTrig (spriteAt 0 "a.png")).m_vertices with
    | nil => rw [hl] at this; cases this
    | cons a t => rfl
  simp [GraphicsManager.submit, Sprite.drawable, hv, GraphicsManager.begin,
    textThenSpriteFrame]

/-- C25, the claim as stated fails: the text a is submitted at depth 0 and then a sprite at
depth 0; `GraphicsManager::end` processes the sprite first and the glyph quad of the text
after it. -/
theorem end_text_after_sprite :
    textThenSprite = some textThenSpriteFrame
      ∧ textThenSpriteFrame.sortedSubmission
        = [(7, Sprite.draw exampleTrig (spriteAt 0 "a.png")),
            (7, (Glyph.draw recordedGlyph).toSprite)]
      ∧ emittedVertices textThenSpriteFrame.end_.2
        = (Sprite.draw exampleTrig (spriteAt 0 "a.png")).m_vertices
          ++ (Glyph.draw recordedGlyph).m_vertices := by
  have hs : textThenSpriteFrame.sortedSubmission
      = [(7, Sprite.draw exampleTrig (spriteAt 0 "a.png")),
          (7, (Glyph.draw recordedGlyph).toSprite)] := by
    unfold GraphicsManager.sortedSubmission GraphicsManager.submission
    rw [flushGlyphs_m_sprites]
    simp [textThenSpriteFrame, glyphQuads, stable_sort, stableInsert, CompareSpriteDepth,
      Glyph.draw, placeGlyph, Sprite.init, Sprite.draw, spriteAt, exampleGlyph,
      Sprite.default, recordedGlyph]
  have hem : emittedVertices textThenSpriteFrame.end_.2
      = verticesOf textThenSpriteFrame.sortedSubmission :=
    batchLoop_vertices textThenSpriteFrame.flushGlyphs textThenSpriteFrame.sortedSubmission
      (by rw [hs]; decide)
  refine ⟨textThenSprite_eq, hs, ?_⟩
  rw [hem, hs]
  simp [verticesOf]

/-- C25, amended. Submission order is preserved for equal depth within the sprite list, but
the glyph quads of submitted texts are appended to it only when `GraphicsManager::end`
starts: whether a text is submitted before or after a sprite, the sprite is in the sprite
list and the glyphs of the text are in the glyph list, and for a sprite entry and a glyph
quad of the same `position.z` the sprite's vertices precede the glyph quad's vertices in
the order processed by `GraphicsManager::end` (fewer than 2^32 quads). -/
theorem end_sprite_before_glyphs (g : GraphicsManager)
    (hsize : g.submission.length < UINT_MOD) (A B : Nat × Sprite)
    (hA : A ∈ g.m_sprites) (hB : B ∈ glyphQuads g.m_glyphs)
    (hz : A.2.position.z = B.2.position.z) :
    g.submission = g.m_sprites ++ glyphQuads g.m_glyphs
      ∧ (∃ pre mid post : List (Nat × Sprite),
          g.sortedSubmission = pre ++ A :: (mid ++ B :: post)
            ∧ emittedVertices g.end_.2
                = verticesOf pre ++ (A.2.m_vertices
                    ++ (verticesOf mid ++ (B.2.m_vertices ++ verticesOf post))))
      ∧ (∀ (trig : Trig) (sprite : Sprite) (shader : Nat),
          (g.submit (Sprite.drawable trig) sprite shader).m_sprites
              = g.m_sprites ++ [(shader, Sprite.draw trig sprite)]
            ∧ (g.submit (Sprite.drawable trig) sprite shader).m_glyphs = g.m_glyphs)
      ∧ (∀ (text : String) (position : Vec3) (box : Vec4) (scale : ℚ) (color : Vec4)
          (fontFileName : String) (hAlign vAlign : Alignment) (shader : Nat)
          (g1 : GraphicsManager),
          g.submitText text position box scale color fontFileName hAlign vAlign shader
            = some g1 → g1.m_sprites = g.m_sprites) := by
  have hsub : g.submission = g.m_sprites ++ glyphQuads g.m_glyphs := flushGlyphs_m_sprites g
  obtain ⟨s1, s2, hs⟩ := List.append_of_mem hA
  obtain ⟨q1, q2, hq⟩ := List.append_of_mem hB
  have hsplit : g.submission = s1 ++ A :: ((s2 ++ q1) ++ B :: q2) := by
    rw [hsub, hs, hq]
    simp
  refine ⟨hsub, sortedSubmission_pair g hsize A B s1 (s2 ++ q1) q2 hsplit hz, ?_, ?_⟩
  · intro trig sprite shader
    have hv : (Sprite.draw trig sprite).m_vertices.isEmpty = false := by
      have := Sprite.draw_vertices_length trig sprite
      cases hl : (Sprite.draw trig sprite).m_vertices with
      | nil => rw [hl] at this; cases this
      | cons a t => rfl
    simp [GraphicsManager.submit, Sprite.drawable, hv]
  · intro text position box scale color fontFileName hAlign vAlign shader g1 h
    exact submitText_m_sprites g text position box scale color fontFileName hAlign vAlign
      shader g1 h

theorem end_sprite_before_glyphs_witness :
    textThenSpriteFrame.submission.length < UINT_MOD
      ∧ ∃ pre mid post : List (Nat × Sprite),
          textThenSpriteFrame.sortedSubmission
            = pre ++ (7, Sprite.draw exampleTrig (spriteAt 0 "a.png"))
                :: (mid ++ (7, (Glyph.draw recordedGlyph).toSprite) :: post)
            ∧ emittedVertices textThenSpriteFrame.end_.2
                = verticesOf pre ++ ((Sprite.draw exampleTrig (spriteAt 0 "a.png")).m_vertices
                    ++ (verticesOf mid
                      ++ ((Glyph.draw recordedGlyph).m_vertices ++ verticesOf post))) :=
  ⟨by decide,
    (end_sprite_before_glyphs textThenSpriteFrame (by decide)
      (7, Sprite.draw exampleTrig (spriteAt 0 "a.png"))
      (7, (Glyph.draw recordedGlyph).toSprite)
      (by simp [textThenSpriteFrame]) (by simp [glyphQuads, textThenSpriteFrame])
      (by simp [Glyph.draw, recordedGlyph, placeGlyph, Sprite.init, Sprite.draw, spriteAt,
        Sprite.default])).2.1⟩


/-! ## The current value of a carousel -/

/-- C26. The example carousel with the values A, B, C after two clicks on its next button
has the current value C at index 2; `removeValue("C")` then leaves the values A, B with the
index still 2, so `getValue()` fails. `setValueIndex(5)` on the three values stores the
index 5, so `getValue()` fails as well. -/
theorem Carousel.removeValue_keeps_stale_index :
    carouselAtLast.m_values = ["A", "B", "C"] ∧ carouselAtLast.m_valueIndex = 2
      ∧ carouselAtLast.getValue = some "C"
      ∧ (carouselAtLast.removeValue "C").1 = true
      ∧ (carouselAtLast.removeValue "C").2.m_values = ["A", "B"]
      ∧ (carouselAtLast.removeValue "C").2.m_valueIndex = 2
      ∧ (carouselAtLast.removeValue "C").2.getValue = none
      ∧ ((exampleCarousel 0).setValueIndex 5).m_valueIndex = 5
      ∧ ((exampleCarousel 0).setValueIndex 5).getValue = none := by
  decide

/-! ## The cursor position of a text box -/

/-- C27. A selected text box with the text abc, the cursor set behind the last character
(position 3) and the maximum character count then set to 2: `charTyped` cuts the text to
ab and leaves the cursor at position 3, beyond the length 2 of the text. -/
theorem TextBox.charTyped_cursor_beyond_text :
    shortenedTextBox.m_text = "abc" ∧ shortenedTextBox.m_cursorPosition = 3
      ∧ shortenedTextBox.m_maxCharacters = 2
      ∧ (shortenedTextBox.charTyped 'x').m_text = "ab"
      ∧ (shortenedTextBox.charTyped 'x').m_cursorPosition = 3 := by
  decide


/-! ## Typing a character -/

/-- The insertion loop of `TextBox::charTyped` puts `c` in front of the character at the
cursor position, if the text still to copy reaches that far. -/
theorem insertLoop_eq (c : Char) (cursor : Nat) (text : List Char) :
    ∀ (cp : Nat) (nt : List Char) (s : Bool),
      insertLoop c cursor text cp nt s
        = if cp ≤ cursor ∧ cursor - cp < text.length then
            (nt ++ text.take (cursor - cp) ++ [c] ++ text.drop (cursor - cp), true)
          else (nt ++ text, s) := by
  induction text with
  | nil => intro cp nt s; simp [insertLoop]
  | cons ch rest ih =>
    intro cp nt s
    simp only [insertLoop]
    by_cases hcp : cp = cursor
    · subst hcp
      simp only [if_true]
      rw [ih]
      have h1 : ¬ (cp + 1 ≤ cp ∧ cp - (cp + 1) < rest.length) := by omega
      simp [h1]
    · simp only [hcp, if_false]
      rw [ih]
      by_cases hlt : cp ≤ cursor ∧ cursor - cp < (ch :: rest).length
      · have h1 : cp + 1 ≤ cursor ∧ cursor - (cp + 1) < rest.length := by
          simp only [List.length_cons] at hlt
          omega
        have h2 : cursor - cp = (cursor - (cp + 1)) + 1 := by omega
        rw [if_pos h1, if_pos hlt, h2]
        simp
      · have h1 : ¬ (cp + 1 ≤ cursor ∧ cursor - (cp + 1) < rest.length) := by
          simp only [List.length_cons] at hlt
          omega
        rw [if_neg h1, if_neg hlt]
        simp

/-- C28. For a selected text box with text t, cursor position p <= |t|, an allowed
character c and |t| below the maximum length (the maximum is -1 or greater than |t|),
`charTyped(c)` sets the text to t[0..p) ++ [c] ++ t[p..) and the cursor to p + 1 (for a
text of fewer than 2^32 - 1 characters); for an unselected text box `charTyped` changes
nothing. -/
theorem TextBox.charTyped_inserts (tb : TextBox) (c : Char)
    (hsel : tb.m_selected = true) (hp : tb.m_cursorPosition ≤ tb.m_text.length)
    (hallowed : tb.m_allowedCharacters.data = [] ∨ c ∈ tb.m_allowedCharacters.data)
    (hmax : tb.m_maxCharacters = -1 ∨ (tb.m_text.length : Int) < tb.m_maxCharacters)
    (hint : tb.m_maxCharacters ≤ INT_MAX) (hlen : tb.m_text.length + 1 < UINT_MOD) :
    (tb.charTyped c).m_text.data
        = tb.m_text.data.take tb.m_cursorPosition ++ [c]
          ++ tb.m_text.data.drop tb.m_cursorPosition
      ∧ (tb.charTyped c).m_cursorPosition = tb.m_cursorPosition + 1
      ∧ (∀ (tb2 : TextBox) (c2 : Char), tb2.m_selected = false → tb2.charTyped c2 = tb2) := by
  have hlength : tb.m_text.length = tb.m_text.data.length := rfl
  have hguard : ¬ (tb.m_text.length ≥ toSizeT tb.m_maxCharacters ∧ tb.m_maxCharacters > 0) := by
    rintro ⟨h1, h2⟩
    rcases hmax with h | h
    · omega
    · rw [toSizeT_of_range _ (le_of_lt h2) hint] at h1
      omega
  have hf : (!(tb.m_allowedCharacters.data.isEmpty
      || tb.m_allowedCharacters.data.any (fun x => x == c))) = false := by
    rcases hallowed with h | h
    · simp [h]
    · have : tb.m_allowedCharacters.data.any (fun x => x == c) = true :=
        List.any_eq_true.mpr ⟨c, h, by simp⟩
      simp [this]
  have hmod : (tb.m_cursorPosition + 1) % UINT_MOD = tb.m_cursorPosition + 1 :=
    Nat.mod_eq_of_lt (by omega)
  refine ⟨?_, ?_, ?_⟩
  · unfold TextBox.charTyped
    simp only [hsel, Bool.not_true, Bool.false_eq_true, if_false, hguard, hf]
    rw [insertLoop_eq]
    simp only [Nat.zero_le, Nat.sub_zero, true_and, List.nil_append]
    by_cases hlt : tb.m_cursorPosition < tb.m_text.length
    · simp [hlt]
    · have heq : tb.m_cursorPosition = tb.m_text.length := by omega
      have hle : tb.m_text.data.length ≤ tb.m_text.length := le_of_eq hlength.symm
      simp [hlt, heq, List.take_of_length_le hle, List.drop_of_length_le hle]
  · unfold TextBox.charTyped
    simp only [hsel, Bool.not_true, Bool.false_eq_true, if_false, hguard, hf, hmod]
  · intro tb2 c2 h2
    simp [TextBox.charTyped, h2]

theorem TextBox.charTyped_inserts_witness :
    (cursorTextBox.charTyped 'x').m_text.data
        = cursorTextBox.m_text.data.take cursorTextBox.m_cursorPosition ++ ['x']
          ++ cursorTextBox.m_text.data.drop cursorTextBox.m_cursorPosition
      ∧ (cursorTextBox.charTyped 'x').m_cursorPosition = cursorTextBox.m_cursorPosition + 1 :=
  ⟨(TextBox.charTyped_inserts cursorTextBox 'x' (by decide) (by decide) (by decide)
      (by decide) (by decide) (by decide)).1,
    (TextBox.charTyped_inserts cursorTextBox 'x' (by decide) (by decide) (by decide)
      (by decide) (by decide) (by decide)).2.1⟩


/-! ## The vertical clip test -/

theorem bearingStep_bounds (acc : ℚ × ℚ) (p : Char × Glyph) :
    acc.1 ≤ (bearingStep acc p).1 ∧ acc.2 ≤ (bearingStep acc p).2
      ∧ p.2.dimensions.y - (p.2.bearing.y : ℚ) ≤ (bearingStep acc p).1
      ∧ (p.2.bearing.y : ℚ) ≤ (bearingStep acc p).2 := by
  unfold bearingStep
  refine ⟨?_, ?_, ?_, ?_⟩
  · dsimp only; split
    · exact le_of_lt (by assumption)
    · exact le_refl _
  · dsimp only; split
    · exact le_of_lt (by assumption)
    · exact le_refl _
  · dsimp only; split
    · exact le_refl _
    · exact not_lt.mp (by assumption)
  · dsimp only; split
    · exact le_refl _
    · exact not_lt.mp (by assumption)

theorem foldl_bearingStep_bounds (l : List (Char × Glyph)) :
    ∀ acc : ℚ × ℚ,
      acc.1 ≤ (l.foldl bearingStep acc).1 ∧ acc.2 ≤ (l.foldl bearingStep acc).2
        ∧ ∀ p ∈ l, p.2.dimensions.y - (p.2.bearing.y : ℚ) ≤ (l.foldl bearingStep acc).1
            ∧ (p.2.bearing.y : ℚ) ≤ (l.foldl bearingStep acc).2 := by
  induction l with
  | nil => intro acc; simp
  | cons q rest ih =>
    intro acc
    simp only [List.foldl_cons]
    obtain ⟨h1, h2, h3⟩ := ih (bearingStep acc q)
    obtain ⟨a1, b1, a2, b2⟩ := bearingStep_bounds acc q
    refine ⟨le_trans a1 h1, le_trans b1 h2, ?_⟩
    intro p hp
    rcases List.mem_cons.mp hp with h | h
    · subst h
      exact ⟨le_trans a2 h1, le_trans b2 h2⟩
    · exact h3 p h

/-- The bearings that `getFont` computes bound the descent and the ascent of every glyph
of the font, and are at least 0. -/
theorem fontBearings_bounds (glyphs : List (Char × Glyph)) :
    0 ≤ (fontBearings glyphs).1 ∧ 0 ≤ (fontBearings glyphs).2
      ∧ ∀ p ∈ glyphs, p.2.dimensions.y - (p.2.bearing.y : ℚ) ≤ (fontBearings glyphs).1
          ∧ (p.2.bearing.y : ℚ) ≤ (fontBearings glyphs).2 :=
  foldl_bearingStep_bounds glyphs (0, 0)

/-- A glyph found by `glyphs.at(c)` is a glyph of the font. -/
theorem glyphAt_mem (font : Font) (c : Char) (g0 : Glyph) (h : font.glyphAt c = some g0) :
    (c, g0) ∈ font.glyphs := by
  unfold Font.glyphAt at h
  generalize font.glyphs = l at h
  induction l with
  | nil => simp [List.lookup] at h
  | cons p rest ih =>
    obtain ⟨k, v⟩ := p
    simp only [List.lookup] at h
    by_cases hk : c = k
    · subst hk
      simp only [beq_self_eq_true] at h
      cases h
      exact List.mem_cons_self _ _
    · have hb : (c == k) = false := by simpa using hk
      rw [hb] at h
      exact List.mem_cons_of_mem _ (ih h)

/-- With BOTTOM alignment every glyph that the glyph loop places passes the vertical part
of the clip test, for a font built by `getFont`, a scale of at least 0 and a box at least
as high as the label. -/
theorem placedGlyphs_bottom_inside (glyphs : List (Char × Glyph)) (box : Vec4) (scale z : ℚ)
    (hs : 0 ≤ scale)
    (hbox : ((loadedFont glyphs).minBearing + (loadedFont glyphs).maxBearing) * scale ≤ box.w)
    (cs : List Char) :
    ∀ (x : ℚ) (gl : Glyph),
      gl ∈ placedGlyphs (loadedFont glyphs) box scale
        (box.y + (loadedFont glyphs).minBearing * scale) z cs x →
      box.y ≤ gl.position.y ∧ gl.position.y + gl.dimensions.y ≤ box.y + box.w := by
  obtain ⟨b1, b2, b3⟩ := fontBearings_bounds glyphs
  have hplaced : ∀ (c : Char) (g0 : Glyph) (x : ℚ),
      (loadedFont glyphs).glyphAt c = some g0 →
      box.y ≤ (placeGlyph g0 x (box.y + (loadedFont glyphs).minBearing * scale) z
          scale).position.y
        ∧ (placeGlyph g0 x (box.y + (loadedFont glyphs).minBearing * scale) z
            scale).position.y
          + (placeGlyph g0 x (box.y + (loadedFont glyphs).minBearing * scale) z
            scale).dimensions.y ≤ box.y + box.w := by
    intro c g0 x hg
    obtain ⟨d1, d2⟩ := b3 (c, g0) (glyphAt_mem _ c g0 hg)
    simp only [placeGlyph, Sprite.init, loadedFont] at hbox ⊢
    constructor
    · have := mul_le_mul_of_nonneg_right d1 hs
      linarith
    · have := mul_le_mul_of_nonneg_right d2 hs
      linarith
  induction cs with
  | nil => intro x gl h; simp [placedGlyphs] at h
  | cons c cs ih =>
    intro x gl h
    cases hg : (loadedFont glyphs).glyphAt c with
    | none => simp [placedGlyphs, hg] at h
    | some g0 =>
      simp only [placedGlyphs, hg] at h
      have hp := hplaced c g0 x hg
      split at h
      · rcases List.mem_cons.mp h with h | h
        · rw [h]; exact hp
        · exact ih _ gl h
      · split at h
        · rw [List.mem_singleton.mp h]; exact hp
        · rcases List.mem_cons.mp h with h | h
          · rw [h]; exact hp
          · exact ih _ gl h

/-- C29. The font built from one glyph of height 3 with bearing.y 2 has minBearing 1 and
maxBearing 2, so the label height at scale 1 is 3. In a box of height 3 the text g is
placed with its bottom at -1, below the box bottom 0, under TOP and under CENTER alignment:
the glyph fails the vertical part of the clip test and the text `submit` records nothing.
Under BOTTOM alignment it is placed at 0 and recorded. -/
theorem submitText_top_clips_descender :
    descenderFont.minBearing = 1 ∧ descenderFont.maxBearing = 2
      ∧ (descenderManager.placedGlyphs "g" ⟨0, 0, 0⟩ ⟨0, 0, 7, 3⟩ 1 "d" .AC_ALIGN_LEFT
          .AC_ALIGN_TOP).map (fun gl => (gl.position.y, gl.position.y + gl.dimensions.y))
        = [(-1, 2)]
      ∧ (descenderManager.placedGlyphs "g" ⟨0, 0, 0⟩ ⟨0, 0, 7, 3⟩ 1 "d" .AC_ALIGN_LEFT
          .AC_ALIGN_CENTER).map (fun gl => (gl.position.y, gl.position.y + gl.dimensions.y))
        = [(-1, 2)]
      ∧ (descenderManager.submitText "g" ⟨0, 0, 0⟩ ⟨0, 0, 7, 3⟩ 1 ⟨1, 1, 1, 1⟩ "d"
          .AC_ALIGN_LEFT .AC_ALIGN_TOP 7).map (fun g => mapGet 7 g.m_glyphs) = some []
      ∧ (descenderManager.submitText "g" ⟨0, 0, 0⟩ ⟨0, 0, 7, 3⟩ 1 ⟨1, 1, 1, 1⟩ "d"
          .AC_ALIGN_LEFT .AC_ALIGN_CENTER 7).map (fun g => mapGet 7 g.m_glyphs) = some []
      ∧ (descenderManager.submitText "g" ⟨0, 0, 0⟩ ⟨0, 0, 7, 3⟩ 1 ⟨1, 1, 1, 1⟩ "d"
          .AC_ALIGN_LEFT .AC_ALIGN_BOTTOM 7).map
            (fun g => (mapGet 7 g.m_glyphs).map (fun gl => gl.position.y)) = some [0] := by
  have hmin : descenderFont.minBearing = 1 := by
    norm_num [descenderFont, loadedFont, fontBearings, bearingStep, descenderGlyph, Sprite.init,
      Sprite.default]
  have hmax : descenderFont.maxBearing = 2 := by
    norm_num [descenderFont, loadedFont, fontBearings, bearingStep, descenderGlyph, Sprite.init,
      Sprite.default]
  have hglyphs : descenderFont.glyphs = [('g', descenderGlyph)] := rfl
  refine ⟨hmin, hmax, ?_, ?_, ?_, ?_, ?_⟩
  · simp [GraphicsManager.placedGlyphs, GraphicsManager.getFont, descenderManager,
      exampleManager, hglyphs, textOrigin, sumOffsets, Font.glyphAt, List.lookup, alignX,
      alignY, placedGlyphs, hmin, hmax]
    norm_num [insideBox, overflowsRight, placeGlyph, Sprite.init, Sprite.default,
      descenderGlyph]
  · simp [GraphicsManager.placedGlyphs, GraphicsManager.getFont, descenderManager,
      exampleManager, hglyphs, textOrigin, sumOffsets, Font.glyphAt, List.lookup, alignX,
      alignY, placedGlyphs, hmin, hmax]
    norm_num [insideBox, overflowsRight, placeGlyph, Sprite.init, Sprite.default,
      descenderGlyph]
  · simp [GraphicsManager.submitText, GraphicsManager.getFont, descenderManager,
      exampleManager, hglyphs, textOrigin, sumOffsets, Font.glyphAt, List.lookup, alignX,
      alignY, textLoop, mapSet, mapGet, hmin, hmax]
    norm_num [insideBox, overflowsRight, placeGlyph, Sprite.init, Sprite.default,
      descenderGlyph, mapSet]
  · simp [GraphicsManager.submitText, GraphicsManager.getFont, descenderManager,
      exampleManager, hglyphs, textOrigin, sumOffsets, Font.glyphAt, List.lookup, alignX,
      alignY, textLoop, mapSet, mapGet, hmin, hmax]
    norm_num [insideBox, overflowsRight, placeGlyph, Sprite.init, Sprite.default,
      descenderGlyph, mapSet]
  · simp [GraphicsManager.submitText, GraphicsManager.getFont, descenderManager,
      exampleManager, hglyphs, textOrigin, sumOffsets, Font.glyphAt, List.lookup, alignX,
      alignY, textLoop, mapSet, mapGet, hmin, hmax]
    norm_num [insideBox, overflowsRight, placeGlyph, Sprite.init, Sprite.default,
      descenderGlyph, mapSet, Glyph.draw]


/-! ## The content lines of a text area -/

/-- Joining lines with a line break leaves out the line break after the last line. -/
theorem intercalate_terminatedLines (lines : List String) (last : String) :
    List.intercalate ['\n'] ((lines ++ [last]).map String.data)
      = terminatedLines lines ++ last.data := by
  induction lines with
  | nil => simp [terminatedLines, List.intercalate]
  | cons l rest ih =>
    cases rest with
    | nil => simp [terminatedLines, List.intercalate]
    | cons l2 rest2 =>
      have step : ∀ (a b : List Char) (r : List (List Char)),
          List.intercalate ['\n'] (a :: b :: r)
            = a ++ '\n' :: List.intercalate ['\n'] (b :: r) := by
        intro a b r
        simp [List.intercalate, List.intersperse]
      simp only [List.cons_append, List.map_cons] at ih ⊢
      rw [step, ih]
      simp [terminatedLines]

/-- The loop of `getContentLines` splits the text read so far into lines ended by a line
break and the line being built, which holds no line break. -/
theorem contentLinesLoop_spec (rest : List Char) :
    ∀ (contentLine : List Char) (contentLines : List String),
      '\n' ∉ contentLine → (∀ l ∈ contentLines, '\n' ∉ l.data) →
      ∃ (lines : List String) (last : List Char),
        '\n' ∉ last ∧ (∀ l ∈ lines, '\n' ∉ l.data)
          ∧ terminatedLines contentLines ++ contentLine ++ rest = terminatedLines lines ++ last
          ∧ contentLinesLoop rest contentLine contentLines
            = if last.isEmpty then lines else lines ++ [String.mk last] := by
  induction rest with
  | nil =>
    intro contentLine contentLines h1 h2
    exact ⟨contentLines, contentLine, h1, h2, by simp, rfl⟩
  | cons c rest ih =>
    intro contentLine contentLines h1 h2
    simp only [contentLinesLoop]
    by_cases hc : c = '\n'
    · subst hc
      simp only [if_true]
      obtain ⟨lines, last, a1, a2, a3, a4⟩ := ih [] (contentLines ++ [String.mk contentLine])
        (by simp) (by
          intro l hl
          rcases List.mem_append.mp hl with h | h
          · exact h2 l h
          · rw [List.mem_singleton.mp h]; exact h1)
      refine ⟨lines, last, a1, a2, ?_, a4⟩
      rw [← a3]
      simp [terminatedLines]
    · simp only [hc, if_false]
      obtain ⟨lines, last, a1, a2, a3, a4⟩ := ih (contentLine ++ [c]) contentLines
        (by
          intro h
          rcases List.mem_append.mp h with h | h
          · exact h1 h
          · exact hc (List.mem_singleton.mp h).symm)
        h2
      refine ⟨lines, last, a1, a2, ?_, a4⟩
      rw [← a3]
      simp

/-- C30. For every text, no line returned by `TextArea::getContentLines` contains a line
break, joining the returned lines with line breaks gives the text without its last
character when the text ends with a line break and the text itself otherwise, and the
result is empty for the empty text. -/
theorem TextArea.getContentLines_join (ta : TextArea) :
    (∀ l ∈ ta.getContentLines, '\n' ∉ l.data)
      ∧ List.intercalate ['\n'] (ta.getContentLines.map String.data)
        = (if ta.m_text.data.getLast? = some '\n' then ta.m_text.data.dropLast
          else ta.m_text.data)
      ∧ (ta.m_text = "" → ta.getContentLines = []) := by
  have hempty : ta.m_text = "" → ta.getContentLines = [] := by
    intro h
    simp [TextArea.getContentLines, h]
  obtain ⟨lines, last, a1, a2, a3, a4⟩ :=
    contentLinesLoop_spec ta.m_text.data [] [] (by simp) (by simp)
  replace a3 : ta.m_text.data = terminatedLines lines ++ last := a3
  have hlines : ta.getContentLines = if last.isEmpty then lines else lines ++ [String.mk last] := by
    unfold TextArea.getContentLines
    split
    · rename_i hnil
      have hd : ta.m_text.data = [] := by simpa using hnil
      rw [hd] at a3
      have hl : last = [] := by
        have := congrArg List.length a3
        simp only [List.length_nil, List.length_append] at this
        exact List.length_eq_zero.mp (by omega)
      have hls : lines = [] := by
        rw [hl, List.append_nil] at a3
        cases lines with
        | nil => rfl
        | cons l t => simp [terminatedLines] at a3
      simp [hl, hls]
    · exact a4
  refine ⟨?_, ?_, hempty⟩
  · rw [hlines]
    intro l hl
    split at hl
    · exact a2 l hl
    · rcases List.mem_append.mp hl with h | h
      · exact a2 l h
      · rw [List.mem_singleton.mp h]; exact a1
  · rw [hlines, a3]
    cases hlast : last with
    | nil =>
      simp only [List.isEmpty_nil, if_true, List.append_nil]
      rcases List.eq_nil_or_concat lines with h | ⟨init, l, h⟩
      · subst h
        simp [terminatedLines, List.intercalate]
      · subst h
        rw [List.concat_eq_append, intercalate_terminatedLines]
        simp [terminatedLines]
    | cons ch t =>
      simp only [List.isEmpty_cons, Bool.false_eq_true, if_false]
      have hne : (ch :: t).getLast? ≠ some '\n' := by
        intro h
        have hm := List.mem_of_mem_getLast? (Option.mem_def.mpr h)
        rw [hlast] at a1
        exact a1 hm
      have hl2 : (terminatedLines lines ++ ch :: t).getLast? = (ch :: t).getLast? := by
        rw [List.getLast?_append]
        cases h : (ch :: t).getLast? with
        | none => simp at h
        | some v => rfl
      rw [hl2, if_neg hne]
      exact intercalate_terminatedLines lines (String.mk (ch :: t))


end Acetylene
